import Mathlib

set_option maxRecDepth 16000

/-!
Verification of the FractalWonder URL decoder (scripts/decode_url.py).

The development shallowly embeds the script's four functions —
decode_fractalwonder_url, binary_to_decimal, format_bigfloat and
format_viewport — together with the CPython library semantics they rely on:
arbitrary-precision decimal arithmetic at the context precision the script
sets (1000 significant digits, ROUND_HALF_EVEN), lenient int(s, 2) parsing,
the forgiving binascii base64 decoder, raw-DEFLATE inflation, strict UTF-8
decoding and JSON parsing.  Machine integers are Nat/Int; Python exceptions
are modelled as Option/Except failures.

Known modelling restrictions, none of which is exercised by any theorem
below: the decimal exponent range (Emin/Emax = ±999999) is treated as
unbounded; Unicode digits and exotic whitespace accepted by int() are not
modelled (ASCII only); JSON float literals and lone-surrogate escapes make
the modelled parser fail where CPython would produce float/lone-surrogate
values.
-/

/-! ### Generic helpers -/

/-- Does the list start with the given pattern (recursion on the pattern)? -/
def lswAux : List Char → List Char → Bool
  | [], _ => true
  | _ :: _, [] => false
  | b :: bs, a :: as => a = b && lswAux bs as

/-- startswith on character lists (Python str.startswith), recursing on the
pattern. -/
def listStartsWith (xs pat : List Char) : Bool := lswAux pat xs

/-- Decimal digits of a natural number, most significant first (fuelled). -/
def natDigsAux : Nat → Nat → List Char
  | 0, _ => []
  | fuel+1, n =>
    if n < 10 then [Char.ofNat (48 + n)]
    else natDigsAux fuel (n / 10) ++ [Char.ofNat (48 + n % 10)]

/-- Decimal digit string of a natural number ("0" for zero). -/
def natDigs (n : Nat) : List Char := natDigsAux (n + 1) n

/-- Number of decimal digits of a natural number (1 for zero), fuelled. -/
def numDigitsAux : Nat → Nat → Nat
  | 0, _ => 1
  | fuel+1, n => if n < 10 then 1 else numDigitsAux fuel (n / 10) + 1

/-- Number of decimal digits of a natural number (1 for zero). -/
def numDigits (n : Nat) : Nat := numDigitsAux n n

/-- Round c / 10^p to the nearest integer, ties to even (ROUND_HALF_EVEN). -/
def rhe10 (c p : Nat) : Nat :=
  let d := 10 ^ p
  let q := c / d
  let r := c % d
  if 2 * r > d then q + 1
  else if 2 * r < d then q
  else if q % 2 = 0 then q else q + 1

/-- Signed decimal digit string with a mandatory sign (printf %+d). -/
def intSignedDigs (n : Int) : List Char :=
  (if n < 0 then '-' else '+') :: natDigs n.natAbs

/-! ### Python int(s, 2)

Model of CPython's integer parsing at base 2: surrounding whitespace, an
optional single sign, an optional 0b/0B marker, binary digits with single
underscores allowed between digits (and directly after the marker). -/

/-- ASCII whitespace accepted around int() input. -/
def isPySpace (c : Char) : Bool :=
  c = ' ' || c = '\t' || c = '\n' || c = '\r' || c.toNat = 11 || c.toNat = 12

/-- Value of a binary digit character. -/
def bitVal (c : Char) : Option Nat :=
  if c = '0' then some 0 else if c = '1' then some 1 else none

/-- Remaining digits after the first one: single underscores must sit between
digits. -/
def binMore : List Char → Nat → Option Nat
  | [], acc => some acc
  | c :: rest, acc =>
    if c = '_' then
      match rest with
      | [] => none
      | c2 :: rest2 =>
        match bitVal c2 with
        | some v => binMore rest2 (2 * acc + v)
        | none => none
    else
      match bitVal c with
      | some v => binMore rest (2 * acc + v)
      | none => none

/-- A digit run: at least one binary digit, then binMore. -/
def binBody : List Char → Option Nat
  | c :: rest =>
    match bitVal c with
    | some v => binMore rest v
    | none => none
  | [] => none

/-- After a 0b/0B marker one extra underscore may precede the first digit. -/
def binAfterTag : List Char → Option Nat
  | '_' :: rest => binBody rest
  | rest => binBody rest

/-- Unsigned part: optional 0b/0B marker, then a digit run. -/
def binUnsigned (cs : List Char) : Option Nat :=
  match cs with
  | '0' :: b :: rest =>
    if b = 'b' || b = 'B' then binAfterTag rest
    else binBody ('0' :: b :: rest)
  | _ => binBody cs

/-- CPython int(s, 2): strip whitespace, optional sign, unsigned digit run.
none models a raised ValueError. -/
def pyIntBase2 (cs : List Char) : Option Int :=
  let t := ((cs.dropWhile isPySpace).reverse.dropWhile isPySpace).reverse
  match t with
  | '-' :: rest => (binUnsigned rest).map (fun n => -(n : Int))
  | '+' :: rest => (binUnsigned rest).map (fun n => (n : Int))
  | rest => (binUnsigned rest).map (fun n => (n : Int))

/-! ### Decimal values

A Python decimal.Decimal is a sign, a coefficient and an exponent; the
script works in a context with prec = 1000 and the default ROUND_HALF_EVEN
rounding.  Operations below follow the decimal specification as implemented
by CPython: the Decimal(int) constructor is exact, while +, unary -, and
abs round their result to the context precision. -/

/-- A decimal value: sign flag, coefficient, exponent (value = ±coeff·10^exp). -/
structure Dec where
  neg : Bool
  coeff : Nat
  exp : Int
  deriving DecidableEq

/-- The working precision the script installs via getcontext().prec = 1000. -/
def decPrec : Nat := 1000

/-- Coefficient with its sign. -/
def Dec.signedCoeff (d : Dec) : Int :=
  if d.neg then -(d.coeff : Int) else (d.coeff : Int)

/-- Exact rational value of a decimal. -/
def Dec.toRat (d : Dec) : ℚ :=
  (d.signedCoeff : ℚ) * (10 : ℚ) ^ d.exp

/-- Context rounding (the _fix step): a result with more than prec digits is
rounded half-even to prec digits, bumping the exponent. -/
def Dec.fix (prec : Nat) (d : Dec) : Dec :=
  if d.coeff < 10 ^ prec then d
  else
    let sh := numDigits d.coeff - prec
    let c := rhe10 d.coeff sh
    if c < 10 ^ prec then ⟨d.neg, c, d.exp + sh⟩
    else ⟨d.neg, c / 10, d.exp + sh + 1⟩

/-- Exact sum of two decimals (exponent = min of exponents; an exactly zero
sum is positive unless both operands were negative). -/
def Dec.addExact (a b : Dec) : Dec :=
  let e := min a.exp b.exp
  let ia := a.signedCoeff * (10 : Int) ^ (a.exp - e).toNat
  let ib := b.signedCoeff * (10 : Int) ^ (b.exp - e).toNat
  let s := ia + ib
  if s < 0 then ⟨true, (-s).toNat, e⟩
  else if s = 0 then ⟨a.neg && b.neg, 0, e⟩
  else ⟨false, s.toNat, e⟩

/-- Context addition: exact sum, then rounding. -/
def Dec.add (prec : Nat) (a b : Dec) : Dec := Dec.fix prec (a.addExact b)

/-- Context unary minus: zero is given a positive sign, otherwise the sign is
flipped; the result is rounded to the context precision. -/
def Dec.pyNeg (prec : Nat) (d : Dec) : Dec :=
  Dec.fix prec (if d.coeff = 0 then ⟨false, d.coeff, d.exp⟩ else ⟨!d.neg, d.coeff, d.exp⟩)

/-- Context abs: drop the sign, round to the context precision. -/
def Dec.pyAbs (prec : Nat) (d : Dec) : Dec := Dec.fix prec ⟨false, d.coeff, d.exp⟩

/-- The exact Decimal(int) constructor. -/
def Dec.ofInt (n : Int) : Dec := ⟨n < 0, n.natAbs, 0⟩

/-- Decimal(2) ** (-i): exactly 5^i · 10^(-i), rounded to the context
precision when it has more than prec digits (the power operation returns
correctly rounded results). -/
def pow2neg (prec i : Nat) : Dec := Dec.fix prec ⟨false, 5 ^ i, -(i : Int)⟩

/-- Value comparison of decimals (Decimal comparison is exact, no rounding). -/
def Dec.valLt (a b : Dec) : Bool :=
  let e := min a.exp b.exp
  decide (a.signedCoeff * (10 : Int) ^ (a.exp - e).toNat <
    b.signedCoeff * (10 : Int) ^ (b.exp - e).toNat)

/-! ### binary_to_decimal -/

/-- Split at the first dot: (integer part, fractional part, dot present). -/
def splitDotAux : List Char → List Char → List Char × List Char × Bool
  | [], acc => (acc.reverse, [], false)
  | c :: rest, acc =>
    if c = '.' then (acc.reverse, rest, true) else splitDotAux rest (c :: acc)

/-- The fractional loop of binary_to_decimal: positions are 1-indexed from
the dot and only characters equal to 1 contribute. -/
def fracLoop (prec : Nat) : List Char → Nat → Dec → Dec
  | [], _, acc => acc
  | c :: rest, i, acc =>
    fracLoop prec rest (i + 1)
      (if c = '1' then Dec.add prec acc (pow2neg prec i) else acc)

/-- Body of binary_to_decimal after the context precision has been set; none
models a raised exception (the ValueError from int(int_part, 2)). -/
def binary_to_decimal_core (cs : List Char) : Option Dec :=
  if cs.isEmpty then some ⟨false, 0, 0⟩
  else
    let negative : Bool := listStartsWith cs ['-']
    let cs1 := if negative then cs.tail else cs
    let parts := splitDotAux cs1 []
    let ip := parts.1
    let fp := parts.2.1
    let intD : Option Dec :=
      if ip.isEmpty then some ⟨false, 0, 0⟩ else (pyIntBase2 ip).map Dec.ofInt
    intD.map (fun base =>
      let result :=
        if fp.isEmpty then base
        else Dec.add decPrec base (fracLoop decPrec fp 1 ⟨false, 0, 0⟩)
      if negative then Dec.pyNeg decPrec result else result)

/-- binary_to_decimal with the process-wide decimal context made explicit:
the function first sets getcontext().prec = 1000 and never restores it, so
the context state after the call is 1000 whatever it was before, and the
result never depends on the incoming precision. -/
def binary_to_decimal (_ctxPrec : Nat) (s : String) : Option Dec × Nat :=
  (binary_to_decimal_core s.toList, decPrec)

/-- Pure view of the converter (the result component). -/
def b2d (s : String) : Option Dec := binary_to_decimal_core s.toList

/-! ### Decimal rendering

str(Decimal) follows the to-scientific-string algorithm: plain positional
notation when the exponent is ≤ 0 and the adjusted exponent is ≥ -6,
scientific notation with a signed exponent otherwise.  The .50E format
rounds to 51 significant digits (half-even) and always uses scientific
notation with an unpadded signed exponent. -/

/-- str(Decimal). -/
def Dec.pyStr (d : Dec) : List Char :=
  let ds := natDigs d.coeff
  let L : Int := d.exp + ds.length
  let dot : Int := if d.exp ≤ 0 && L > -6 then L else 1
  let body :=
    if dot ≤ 0 then '0' :: '.' :: (List.replicate (-dot).toNat '0' ++ ds)
    else if (ds.length : Int) ≤ dot then ds ++ List.replicate (dot - ds.length).toNat '0'
    else ds.take dot.toNat ++ '.' :: ds.drop dot.toNat
  let etail := if L = dot then [] else 'E' :: intSignedDigs (L - dot)
  (if d.neg then ['-'] else []) ++ body ++ etail

/-- Round a decimal to at most 51 significant digits, half-even. -/
def Dec.round51 (d : Dec) : Dec :=
  if d.coeff < 10 ^ 51 then d
  else
    let sh := numDigits d.coeff - 51
    let c := rhe10 d.coeff sh
    if c < 10 ^ 51 then ⟨d.neg, c, d.exp + sh⟩
    else ⟨d.neg, c / 10, d.exp + sh + 1⟩

/-- format(d, ".50E"): 1 digit, a dot, 50 digits (zero padded), then E and a
signed exponent. -/
def Dec.fmt50E (d : Dec) : List Char :=
  let r := Dec.round51 d
  let ds := natDigs r.coeff
  let adj : Int := r.exp + ds.length - 1
  let ds51 := ds ++ List.replicate (51 - ds.length) '0'
  (if r.neg then ['-'] else []) ++ ds51.take 1 ++ '.' :: (ds51.drop 1 ++ 'E' :: intSignedDigs adj)

/-! ### URL-safe base64

base64.urlsafe_b64decode translates -_ to +/ and calls the lenient
binascii.a2b_base64: characters outside the alphabet are discarded, padding
only counts once two data characters of a quad have been seen, decoding
stops as soon as a quad is completed by padding, and a trailing partial quad
raises binascii.Error (none here).  A non-ASCII character anywhere raises
before decoding starts. -/

/-- Value of a standard-alphabet base64 character. -/
def b64val (c : Char) : Option Nat :=
  let n := c.toNat
  if 65 ≤ n && n ≤ 90 then some (n - 65)
  else if 97 ≤ n && n ≤ 122 then some (n - 71)
  else if 48 ≤ n && n ≤ 57 then some (n + 4)
  else if c = '+' then some 62
  else if c = '/' then some 63
  else none

/-- The lenient a2b_base64 state machine: quad position, pending bits,
padding count, output accumulator (reversed). -/
def a2b : List Char → Nat → Nat → Nat → List Nat → Option (List Nat)
  | [], quadPos, _, _, acc => if quadPos = 0 then some acc.reverse else none
  | c :: rest, quadPos, leftchar, pads, acc =>
    if c = '=' then
      if 2 ≤ quadPos then
        if 4 ≤ quadPos + (pads + 1) then some acc.reverse
        else a2b rest quadPos leftchar (pads + 1) acc
      else a2b rest quadPos leftchar pads acc
    else
      match b64val c with
      | none => a2b rest quadPos leftchar pads acc
      | some v =>
        match quadPos with
        | 0 => a2b rest 1 v 0 acc
        | 1 => a2b rest 2 (v % 16) 0 ((leftchar * 4 + v / 16) :: acc)
        | 2 => a2b rest 3 (v % 4) 0 ((leftchar * 16 + v / 4) :: acc)
        | _ => a2b rest 0 0 0 ((leftchar * 64 + v) :: acc)

/-- The urlsafe alphabet translation done before decoding. -/
def unUrlsafe (c : Char) : Char :=
  if c = '-' then '+' else if c = '_' then '/' else c

/-- base64.urlsafe_b64decode on text: fails on non-ASCII input, otherwise
translates the urlsafe alphabet and runs the lenient decoder. -/
def urlsafeB64decode (cs : List Char) : Option (List Nat) :=
  if cs.all (fun c => c.toNat < 128) then a2b (cs.map unUrlsafe) 0 0 0 []
  else none

/-- One urlsafe-alphabet character for a 6-bit value (encoder side). -/
def b64chr (v : Nat) : Char :=
  if v < 26 then Char.ofNat (65 + v)
  else if v < 52 then Char.ofNat (97 + v - 26)
  else if v < 62 then Char.ofNat (48 + v - 52)
  else if v = 62 then '-' else '_'

/-- Unpadded URL-safe base64 encoding of a byte sequence (the encoding the
external encoder uses, per the spec). -/
def b64urlEncodeNoPad : List Nat → List Char
  | [] => []
  | [a] => [b64chr (a / 4), b64chr (a % 4 * 16)]
  | [a, b] => [b64chr (a / 4), b64chr (a % 4 * 16 + b / 16), b64chr (b % 16 * 4)]
  | a :: b :: c :: rest =>
    b64chr (a / 4) :: b64chr (a % 4 * 16 + b / 16) :: b64chr (b % 16 * 4 + c / 64) ::
      b64chr (c % 64) :: b64urlEncodeNoPad rest

/-! ### Raw DEFLATE

zlib.decompress(data, -MAX_WBITS) inflates a headerless DEFLATE stream:
blocks with a 3-bit header (final flag, type), stored blocks byte-aligned
with LEN/NLEN framing, fixed and dynamic Huffman blocks with LZ77
length/distance back-references limited to the produced output.  Any
malformed or truncated stream raises zlib.error (none here); leftover bytes
after the final block are ignored by the one-shot decompressor. -/

/-- The 8 bits of a byte, least significant first. -/
def byteBits (b : Nat) : List Bool :=
  [decide (b % 2 = 1), decide (b / 2 % 2 = 1), decide (b / 4 % 2 = 1),
   decide (b / 8 % 2 = 1), decide (b / 16 % 2 = 1), decide (b / 32 % 2 = 1),
   decide (b / 64 % 2 = 1), decide (b / 128 % 2 = 1)]

/-- Bit stream of a byte sequence. -/
def bytesToBits (bs : List Nat) : List Bool := bs.flatMap byteBits

/-- Read one bit. -/
def getBit : List Bool → Option (Nat × List Bool)
  | [] => none
  | b :: r => some (if b then 1 else 0, r)

/-- Read n bits as an LSB-first value. -/
def getBitsVal : Nat → List Bool → Option (Nat × List Bool)
  | 0, r => some (0, r)
  | n+1, r =>
    match getBit r with
    | none => none
    | some (b, r1) =>
      match getBitsVal n r1 with
      | none => none
      | some (v, r2) => some (b + 2 * v, r2)

/-- Collect n bytes from the bit stream. -/
def readBytes : Nat → List Bool → List Nat → Option (List Nat × List Bool)
  | 0, r, out => some (out, r)
  | n+1, r, out =>
    match getBitsVal 8 r with
    | none => none
    | some (b, r1) => readBytes n r1 (out ++ [b])

/-- A canonical Huffman code: counts of codes per bit length (index 0..15)
and the symbols sorted by (length, symbol). -/
structure Huff where
  counts : List Nat
  symbols : List Nat

/-- Number of symbols of length l among the given code lengths. -/
def countLens (lens : List Nat) (l : Nat) : Nat := (lens.filter (fun x => x = l)).length

/-- Symbols ordered by (code length, symbol index), lengths 1..15. -/
def symbolsOf (lens : List Nat) : List Nat :=
  ((List.range 16).drop 1).flatMap
    (fun l => (List.range lens.length).filter (fun s => lens.getD s 0 = l))

/-- Kraft check: walk lengths 1..15 tracking remaining code space; none on
over-subscription, otherwise the unused code space is returned. -/
def overCheck : List Nat → Nat → Option Nat
  | [], left => some left
  | c :: rest, left => if c ≤ 2 * left then overCheck rest (2 * left - c) else none

/-- Build a canonical Huffman decoder from code lengths; none means an
over-subscribed set; the second component is the unused code space (0 for a
complete code). -/
def constructHuff (lens : List Nat) : Option (Huff × Nat) :=
  let counts := (List.range 16).map (fun l => countLens lens l)
  if lens.all (fun x => x = 0) then some (⟨counts, []⟩, 0)
  else
    match overCheck (counts.drop 1) 1 with
    | none => none
    | some left => some (⟨counts, symbolsOf lens⟩, left)

/-- Canonical Huffman decode, one bit per step (puff's decode loop). -/
def decodeSymAux (h : Huff) : Nat → Nat → Nat → Nat → Nat → List Bool → Option (Nat × List Bool)
  | 0, _, _, _, _, _ => none
  | fuel+1, len, code, first, index, r =>
    match getBit r with
    | none => none
    | some (b, r1) =>
      let code1 := code + b
      let cnt := h.counts.getD len 0
      if code1 < first + cnt then
        match h.symbols.get? (index + (code1 - first)) with
        | none => none
        | some s => some (s, r1)
      else
        decodeSymAux h fuel (len + 1) (2 * code1) ((first + cnt) * 2) (index + cnt) r1

/-- Decode one Huffman symbol. -/
def decodeSym (h : Huff) (r : List Bool) : Option (Nat × List Bool) :=
  decodeSymAux h 15 1 0 0 0 r

/-- Length-code base values for symbols 257..285. -/
def lenBase : List Nat :=
  [3, 4, 5, 6, 7, 8, 9, 10] ++ [11, 13, 15, 17, 19, 23, 27, 31] ++
    [35, 43, 51, 59, 67, 83, 99, 115] ++ [131, 163, 195, 227, 258]

/-- Length-code extra bit counts for symbols 257..285. -/
def lenExtraBits : List Nat :=
  List.replicate 8 0 ++ List.replicate 4 1 ++ List.replicate 4 2 ++
    List.replicate 4 3 ++ List.replicate 4 4 ++ List.replicate 4 5 ++ [0]

/-- Distance-code base values for symbols 0..29. -/
def distBase : List Nat :=
  [1, 2, 3, 4, 5, 7, 9, 13] ++ [17, 25, 33, 49, 65, 97, 129, 193] ++
    [257, 385, 513, 769, 1025, 1537, 2049, 3073] ++
    [4097, 6145, 8193, 12289, 16385, 24577]

/-- Distance-code extra bit counts for symbols 0..29. -/
def distExtraBits : List Nat :=
  List.replicate 4 0 ++ (List.range 13).flatMap (fun k => [k + 1, k + 1])

/-- LZ77 copy: append len bytes starting dist back (overlap repeats). -/
def lzCopy : Nat → Nat → List Nat → Option (List Nat)
  | 0, _, out => some out
  | n+1, dist, out =>
    match out.get? (out.length - dist) with
    | none => none
    | some b => lzCopy n dist (out ++ [b])

/-- Decode literal/length symbols until end-of-block (symbol 256). -/
def codesLoop (lit dist : Huff) : Nat → List Bool → List Nat → Option (List Nat × List Bool)
  | 0, _, _ => none
  | fuel+1, r, out =>
    match decodeSym lit r with
    | none => none
    | some (sym, r1) =>
      if sym < 256 then codesLoop lit dist fuel r1 (out ++ [sym])
      else if sym = 256 then some (out, r1)
      else if 286 ≤ sym then none
      else
        match getBitsVal (lenExtraBits.getD (sym - 257) 0) r1 with
        | none => none
        | some (eb, r2) =>
          let length := lenBase.getD (sym - 257) 0 + eb
          match decodeSym dist r2 with
          | none => none
          | some (ds, r3) =>
            if 30 ≤ ds then none
            else
              match getBitsVal (distExtraBits.getD ds 0) r3 with
              | none => none
              | some (db, r4) =>
                let d := distBase.getD ds 0 + db
                if out.length < d then none
                else
                  match lzCopy length d out with
                  | none => none
                  | some out1 => codesLoop lit dist fuel r4 out1

/-- Fixed literal/length code lengths (RFC 1951 §3.2.6). -/
def fixedLitLens : List Nat :=
  List.replicate 144 8 ++ List.replicate 112 9 ++ List.replicate 24 7 ++ List.replicate 8 8

/-- Fixed distance code lengths: 30 five-bit codes. -/
def fixedDistLens : List Nat := List.replicate 30 5

/-- The fixed literal/length decoder. -/
def fixedLitHuff : Huff := (((constructHuff fixedLitLens).map Prod.fst).getD ⟨[], []⟩)

/-- The fixed distance decoder. -/
def fixedDistHuff : Huff := (((constructHuff fixedDistLens).map Prod.fst).getD ⟨[], []⟩)

/-- Stored block: skip to the byte boundary, read LEN and its complement,
then copy LEN raw bytes. -/
def storedBlock (r : List Bool) (out : List Nat) : Option (List Nat × List Bool) :=
  let r1 := r.drop (r.length % 8)
  match getBitsVal 16 r1 with
  | none => none
  | some (len, r2) =>
    match getBitsVal 16 r2 with
    | none => none
    | some (nlen, r3) =>
      if len + nlen = 65535 then readBytes len r3 out else none

/-- Order in which code-length-code lengths are transmitted. -/
def codeLenOrder : List Nat :=
  [16, 17, 18, 0, 8, 7, 9, 6, 10] ++ [5, 11, 4, 12, 3, 13, 2, 14, 1, 15]

/-- Read n three-bit values. -/
def read3s : Nat → List Bool → List Nat → Option (List Nat × List Bool)
  | 0, r, acc => some (acc.reverse, r)
  | n+1, r, acc =>
    match getBitsVal 3 r with
    | none => none
    | some (v, r1) => read3s n r1 (v :: acc)

/-- Code length of code-length symbol i, given the transmitted values. -/
def clAssign (vs : List Nat) (i : Nat) : Nat :=
  match (codeLenOrder.zip vs).find? (fun p => p.1 = i) with
  | some p => p.2
  | none => 0

/-- Read the literal+distance code lengths using the code-length code with
its 16/17/18 repeat symbols. -/
def readCodeLens (clh : Huff) : Nat → Nat → List Nat → List Bool → Option (List Nat × List Bool)
  | 0, _, _, _ => none
  | fuel+1, need, acc, r =>
    if need ≤ acc.length then some (acc, r)
    else
      match decodeSym clh r with
      | none => none
      | some (sym, r1) =>
        if sym < 16 then readCodeLens clh fuel need (acc ++ [sym]) r1
        else if sym = 16 then
          match acc.getLast? with
          | none => none
          | some prev =>
            match getBitsVal 2 r1 with
            | none => none
            | some (eb, r2) =>
              if acc.length + (3 + eb) ≤ need then
                readCodeLens clh fuel need (acc ++ List.replicate (3 + eb) prev) r2
              else none
        else if sym = 17 then
          match getBitsVal 3 r1 with
          | none => none
          | some (eb, r2) =>
            if acc.length + (3 + eb) ≤ need then
              readCodeLens clh fuel need (acc ++ List.replicate (3 + eb) 0) r2
            else none
        else
          match getBitsVal 7 r1 with
          | none => none
          | some (eb, r2) =>
            if acc.length + (11 + eb) ≤ need then
              readCodeLens clh fuel need (acc ++ List.replicate (11 + eb) 0) r2
            else none

/-- Incomplete codes are accepted only when no code is longer than one bit. -/
def hLenOk (lens : List Nat) (left : Nat) : Bool :=
  left = 0 || lens.length = countLens lens 0 + countLens lens 1

/-- Parse a dynamic-block header into its two decoders. -/
def dynamicHeader (r : List Bool) : Option (Huff × Huff × List Bool) :=
  match getBitsVal 5 r with
  | none => none
  | some (hl, ra) =>
    match getBitsVal 5 ra with
    | none => none
    | some (hd, rb) =>
      match getBitsVal 4 rb with
      | none => none
      | some (hc, rc) =>
        let nlen := hl + 257
        let ndist := hd + 1
        if 286 < nlen || 30 < ndist then none
        else
          match read3s (hc + 4) rc [] with
          | none => none
          | some (vs, rd) =>
            match constructHuff ((List.range 19).map (clAssign vs)) with
            | some (clh, 0) =>
              match readCodeLens clh (rd.length + 1) (nlen + ndist) [] rd with
              | none => none
              | some (lens, re) =>
                let litLens := lens.take nlen
                let distLens := lens.drop nlen
                match constructHuff litLens with
                | none => none
                | some (lh, leftL) =>
                  if hLenOk litLens leftL then
                    match constructHuff distLens with
                    | none => none
                    | some (dh, leftD) =>
                      if hLenOk distLens leftD then some (lh, dh, re) else none
                  else none
            | _ => none

/-- Process DEFLATE blocks until the final one. -/
def inflateBlocks : Nat → List Bool → List Nat → Option (List Nat)
  | 0, _, _ => none
  | fuel+1, r, out =>
    match getBitsVal 1 r with
    | none => none
    | some (bfinal, r1) =>
      match getBitsVal 2 r1 with
      | none => none
      | some (btype, r2) =>
        let res : Option (List Nat × List Bool) :=
          if btype = 0 then storedBlock r2 out
          else if btype = 1 then codesLoop fixedLitHuff fixedDistHuff (r2.length + 1) r2 out
          else if btype = 2 then
            match dynamicHeader r2 with
            | none => none
            | some (lh, dh, r3) => codesLoop lh dh (r3.length + 1) r3 out
          else none
        match res with
        | none => none
        | some (out1, r4) => if bfinal = 1 then some out1 else inflateBlocks fuel r4 out1

/-- zlib.decompress(data, -MAX_WBITS); none models a raised zlib.error. -/
def inflateRaw (bs : List Nat) : Option (List Nat) :=
  inflateBlocks (8 * bs.length + 1) (bytesToBits bs) []

/-- Modelled from the spec: the compression side of the external encoder
(§3, §6: a raw-deflate compressed byte sequence, no zlib/gzip framing).
This encoder emits stored (uncompressed) blocks, a valid raw-DEFLATE
encoding of any byte sequence. -/
def dsGo : Nat → List Nat → List Nat
  | _, [] => [1, 0, 0, 255, 255]
  | 0, _ => []
  | fuel+1, data =>
    if data.length ≤ 65535 then
      1 :: data.length % 256 :: data.length / 256 ::
        (65535 - data.length) % 256 :: (65535 - data.length) / 256 :: data
    else
      0 :: 255 :: 255 :: 0 :: 0 :: (data.take 65535 ++ dsGo fuel (data.drop 65535))

/-- Modelled from the spec: raw-DEFLATE compression used by the external
encoder (stored blocks). -/
def deflateStored (data : List Nat) : List Nat := dsGo data.length data

/-! ### UTF-8

bytes.decode("utf-8") with strict error handling: continuation bytes,
overlong forms, surrogates and values beyond U+10FFFF are rejected. -/

/-- Is a byte a UTF-8 continuation byte? -/
def utf8cont (b : Nat) : Bool := 128 ≤ b && b < 192

/-- One UTF-8-encoded scalar value at the head of the byte stream (strict:
continuation bytes, overlong forms, surrogates and values beyond U+10FFFF
are rejected). -/
def utf8DecodeOne : List Nat → Option (Char × List Nat)
  | [] => none
  | b :: rest =>
    if b < 128 then some (Char.ofNat b, rest)
    else if b < 194 then none
    else if b < 224 then
      match rest with
      | c1 :: rest1 =>
        if utf8cont c1 then some (Char.ofNat ((b - 192) * 64 + (c1 - 128)), rest1) else none
      | [] => none
    else if b < 240 then
      match rest with
      | c1 :: c2 :: rest2 =>
        let lo1 := if b = 224 then 160 else 128
        let hi1 := if b = 237 then 159 else 191
        if lo1 ≤ c1 && c1 ≤ hi1 && utf8cont c2 then
          some (Char.ofNat ((b - 224) * 4096 + (c1 - 128) * 64 + (c2 - 128)), rest2)
        else none
      | _ => none
    else if b < 245 then
      match rest with
      | c1 :: c2 :: c3 :: rest3 =>
        let lo1 := if b = 240 then 144 else 128
        let hi1 := if b = 244 then 143 else 191
        if lo1 ≤ c1 && c1 ≤ hi1 && utf8cont c2 && utf8cont c3 then
          some (Char.ofNat ((b - 240) * 262144 + (c1 - 128) * 4096 + (c2 - 128) * 64 +
            (c3 - 128)), rest3)
        else none
      | _ => none
    else none

/-- Decode scalar values until the stream is exhausted (each step consumes at
least one byte, so the byte count is enough fuel). -/
def utf8DecodeGo : Nat → List Nat → Option (List Char)
  | _, [] => some []
  | 0, _ :: _ => none
  | fuel+1, bs =>
    match utf8DecodeOne bs with
    | none => none
    | some (c, rest) =>
      match utf8DecodeGo fuel rest with
      | some cs => some (c :: cs)
      | none => none

/-- Strict UTF-8 decoding; none models a raised UnicodeDecodeError. -/
def utf8Decode (bs : List Nat) : Option (List Char) := utf8DecodeGo bs.length bs

/-- UTF-8 encoding of one scalar value. -/
def utf8EncodeChar (c : Char) : List Nat :=
  let n := c.toNat
  if n < 128 then [n]
  else if n < 2048 then [192 + n / 64, 128 + n % 64]
  else if n < 65536 then [224 + n / 4096, 128 + n / 64 % 64, 128 + n % 64]
  else [240 + n / 262144, 128 + n / 4096 % 64, 128 + n / 64 % 64, 128 + n % 64]

/-- UTF-8 encoding of text. -/
def utf8Encode (cs : List Char) : List Nat := cs.flatMap utf8EncodeChar

/-! ### JSON values

The State Document is the value json.loads returns: a tree of maps,
sequences, strings, integers, booleans and null.  Objects are association
lists in document order.  (Float literals and lone-surrogate escapes are
outside the model; duplicate keys are kept rather than collapsed to the
last occurrence as a Python dict would.) -/

mutual

inductive Json where
  | null : Json
  | bool (b : Bool) : Json
  | int (n : Int) : Json
  | str (s : String) : Json
  | arr (a : JArr) : Json
  | obj (o : JObj) : Json
  deriving DecidableEq

inductive JArr where
  | nil : JArr
  | cons (hd : Json) (tl : JArr) : JArr
  deriving DecidableEq

inductive JObj where
  | nil : JObj
  | cons (k : String) (v : Json) (tl : JObj) : JObj
  deriving DecidableEq

end

/-- First binding of a key (documents built by the decoder have unique keys). -/
def JObj.lookup : JObj → String → Option Json
  | .nil, _ => none
  | .cons k v t, key => if k = key then some v else JObj.lookup t key

/-- Key membership. -/
def JObj.hasKey : JObj → String → Bool
  | .nil, _ => false
  | .cons k _ t, key => k = key || JObj.hasKey t key

mutual

/-- Well-formed document: object keys are pairwise distinct. -/
def jsonWf : Json → Bool
  | .null => true
  | .bool _ => true
  | .int _ => true
  | .str _ => true
  | .arr a => jsonWfA a
  | .obj o => jsonWfO o

def jsonWfA : JArr → Bool
  | .nil => true
  | .cons h t => jsonWf h && jsonWfA t

def jsonWfO : JObj → Bool
  | .nil => true
  | .cons k v t => !(JObj.hasKey t k) && jsonWf v && jsonWfO t

end

/-- Lower-case hex digit. -/
def hexDigit (n : Nat) : Char := if n < 10 then Char.ofNat (48 + n) else Char.ofNat (87 + n)

/-- Four lower-case hex digits. -/
def hex4 (n : Nat) : List Char :=
  [hexDigit (n / 4096 % 16), hexDigit (n / 256 % 16), hexDigit (n / 16 % 16), hexDigit (n % 16)]

/-- Two lower-case hex digits. -/
def hex2 (n : Nat) : List Char := [hexDigit (n / 16 % 16), hexDigit (n % 16)]

/-- repr of a Python int. -/
def intRepr (n : Int) : List Char := (if n < 0 then ['-'] else []) ++ natDigs n.natAbs

/-- json.dumps string escaping with ensure_ascii (the default): quote,
backslash and common controls get short escapes, all other characters
outside 0x20..0x7E become \uXXXX (surrogate pairs beyond the BMP). -/
def jsonEscChar (c : Char) : List Char :=
  if c = '"' then ['\\', '"']
  else if c = '\\' then ['\\', '\\']
  else if c.toNat = 8 then ['\\', 'b']
  else if c = '\t' then ['\\', 't']
  else if c = '\n' then ['\\', 'n']
  else if c.toNat = 12 then ['\\', 'f']
  else if c = '\r' then ['\\', 'r']
  else if c.toNat < 32 || 127 ≤ c.toNat then
    if c.toNat < 65536 then '\\' :: 'u' :: hex4 c.toNat
    else
      let v := c.toNat - 65536
      '\\' :: 'u' :: (hex4 (55296 + v / 1024) ++ '\\' :: 'u' :: hex4 (56320 + v % 1024))
  else [c]

mutual

/-- json.dumps with default separators. -/
def dumpsV : Json → List Char
  | .null => ['n', 'u', 'l', 'l']
  | .bool b => if b then ['t', 'r', 'u', 'e'] else ['f', 'a', 'l', 's', 'e']
  | .int n => intRepr n
  | .str s => '"' :: (s.toList.flatMap jsonEscChar ++ ['"'])
  | .arr a => '[' :: (dumpsA a ++ [']'])
  | .obj o => Char.ofNat 123 :: (dumpsO o ++ [Char.ofNat 125])

def dumpsA : JArr → List Char
  | .nil => []
  | .cons h .nil => dumpsV h
  | .cons h (.cons h2 t) => dumpsV h ++ ',' :: ' ' :: dumpsA (.cons h2 t)

def dumpsO : JObj → List Char
  | .nil => []
  | .cons k v .nil => '"' :: (k.toList.flatMap jsonEscChar ++ '"' :: ':' :: ' ' :: dumpsV v)
  | .cons k v (.cons k2 v2 t) =>
    '"' :: (k.toList.flatMap jsonEscChar ++ '"' :: ':' :: ' ' :: dumpsV v) ++
      ',' :: ' ' :: dumpsO (.cons k2 v2 t)

end

/-! ### JSON parsing (json.loads) -/

/-- JSON whitespace. -/
def skipWs (cs : List Char) : List Char :=
  cs.dropWhile (fun c => c = ' ' || c = '\t' || c = '\n' || c = '\r')

/-- Hex digit value (either case). -/
def hexVal (c : Char) : Option Nat :=
  let n := c.toNat
  if 48 ≤ n && n ≤ 57 then some (n - 48)
  else if 97 ≤ n && n ≤ 102 then some (n - 87)
  else if 65 ≤ n && n ≤ 70 then some (n - 55)
  else none

/-- Four hex digits. -/
def hex4Val (a b c d : Char) : Option Nat :=
  match hexVal a, hexVal b, hexVal c, hexVal d with
  | some x, some y, some z, some w => some (x * 4096 + y * 256 + z * 16 + w)
  | _, _, _, _ => none

/-- The short escapes of the JSON grammar (strict mode). -/
def escChar (e : Char) : Option Char :=
  if e = '"' then some '"'
  else if e = '\\' then some '\\'
  else if e = '/' then some '/'
  else if e = 'b' then some (Char.ofNat 8)
  else if e = 'f' then some (Char.ofNat 12)
  else if e = 'n' then some '\n'
  else if e = 'r' then some '\r'
  else if e = 't' then some '\t'
  else none

/-- One step of JSON string-body parsing after the opening quote (strict
mode: raw control characters rejected; surrogate escape pairs are combined —
a lone surrogate escape is outside the model and fails).  some (none, rest)
is the closing quote, some (some c, rest) one decoded character. -/
def parseJStrOne : List Char → Option (Option Char × List Char)
  | [] => none
  | c :: rest =>
    if c = '"' then some (none, rest)
    else if c = '\\' then
      match rest with
      | [] => none
      | e :: rest1 =>
        if e = 'u' then
          match rest1 with
          | a :: b :: c2 :: d :: rest2 =>
            (match hex4Val a b c2 d with
             | none => none
             | some v =>
               if v < 55296 || 57344 ≤ v then some (some (Char.ofNat v), rest2)
               else if v < 56320 then
                 match rest2 with
                 | e2 :: e3 :: a2 :: b2 :: c3 :: d2 :: rest3 =>
                   if e2 = '\\' && e3 = 'u' then
                     match hex4Val a2 b2 c3 d2 with
                     | none => none
                     | some w =>
                       if 56320 ≤ w && w < 57344 then
                         some (some (Char.ofNat (65536 + (v - 55296) * 1024 + (w - 56320))),
                           rest3)
                       else none
                   else none
                 | _ => none
               else none)
          | _ => none
        else
          match escChar e with
          | none => none
          | some c1 => some (some c1, rest1)
    else if c.toNat < 32 then none
    else some (some c, rest)

/-- String-body parsing loop (each step consumes at least one character, so
the character count plus one is enough fuel). -/
def parseJStrGo : Nat → List Char → Option (List Char × List Char)
  | 0, _ => none
  | fuel+1, cs =>
    match parseJStrOne cs with
    | none => none
    | some (none, rest) => some ([], rest)
    | some (some c, rest) =>
      match parseJStrGo fuel rest with
      | some (s, r) => some (c :: s, r)
      | none => none

/-- Parse a JSON string body after the opening quote. -/
def parseJStr (cs : List Char) : Option (List Char × List Char) :=
  parseJStrGo (cs.length + 1) cs

/-- Digit value. -/
def digVal (c : Char) : Option Nat :=
  if 48 ≤ c.toNat && c.toNat ≤ 57 then some (c.toNat - 48) else none

/-- Consume a maximal digit run. -/
def digitsRun : List Char → Nat → Nat × List Char
  | [], acc => (acc, [])
  | c :: rest, acc =>
    match digVal c with
    | some v => digitsRun rest (10 * acc + v)
    | none => (acc, c :: rest)

/-- Unsigned JSON integer literal: 0, or a nonzero digit then digits. -/
def parseNumTail : List Char → Option (Nat × List Char)
  | '0' :: rest => some (0, rest)
  | c :: rest =>
    (match digVal c with
     | some v => if v = 0 then none else some (digitsRun rest v)
     | none => none)
  | [] => none

/-- Reject the float continuations the model leaves out. -/
def floatGuard (j : Json) (r : List Char) : Option (Json × List Char) :=
  match r with
  | c :: _ => if c = '.' || c = 'e' || c = 'E' then none else some (j, r)
  | [] => some (j, [])

/-- A JSON number (integers only; float forms are outside the model). -/
def parseNum : List Char → Option (Json × List Char)
  | '-' :: rest =>
    (match parseNumTail rest with
     | some (n, r) => floatGuard (Json.int (-(n : Int))) r
     | none => none)
  | cs =>
    match parseNumTail cs with
    | some (n, r) => floatGuard (Json.int (n : Int)) r
    | none => none

/-- The recursive-descent parser at each fuel level: a value parser, an
array-tail parser, an object-member parser (every recursive call descends
one fuel level, so fuel at least the node count suffices). -/
def parseF : Nat →
    (List Char → Option (Json × List Char)) ×
    (List Char → Option (JArr × List Char)) ×
    (List Char → Option (JObj × List Char))
  | 0 => (fun _ => none, fun _ => none, fun _ => none)
  | fuel+1 =>
    let P := parseF fuel
    (fun cs =>
      match cs with
      | [] => none
      | c :: rest =>
        if c.toNat = 123 then
          match skipWs rest with
          | c1 :: r2 =>
            if c1.toNat = 125 then some (Json.obj JObj.nil, r2)
            else
              match P.2.2 (c1 :: r2) with
              | some (o, r3) => some (Json.obj o, r3)
              | none => none
          | [] => none
        else if c = '[' then
          match skipWs rest with
          | c1 :: r2 =>
            if c1 = ']' then some (Json.arr JArr.nil, r2)
            else
              match P.2.1 (c1 :: r2) with
              | some (a, r3) => some (Json.arr a, r3)
              | none => none
          | [] => none
        else if c = '"' then
          match parseJStr rest with
          | some (s, r1) => some (Json.str (String.mk s), r1)
          | none => none
        else if c = 't' then
          match rest with
          | 'r' :: 'u' :: 'e' :: r1 => some (Json.bool true, r1)
          | _ => none
        else if c = 'f' then
          match rest with
          | 'a' :: 'l' :: 's' :: 'e' :: r1 => some (Json.bool false, r1)
          | _ => none
        else if c = 'n' then
          match rest with
          | 'u' :: 'l' :: 'l' :: r1 => some (Json.null, r1)
          | _ => none
        else parseNum (c :: rest),
     fun cs =>
      match P.1 cs with
      | none => none
      | some (v, r1) =>
        match skipWs r1 with
        | c :: r3 =>
          if c = ',' then
            match P.2.1 (skipWs r3) with
            | some (a, r4) => some (JArr.cons v a, r4)
            | none => none
          else if c = ']' then some (JArr.cons v JArr.nil, r3)
          else none
        | [] => none,
     fun cs =>
      match cs with
      | c :: rest =>
        if c = '"' then
          match parseJStr rest with
          | none => none
          | some (k, r1) =>
            match skipWs r1 with
            | c1 :: r2 =>
              if c1 = ':' then
                match P.1 (skipWs r2) with
                | none => none
                | some (v, r3) =>
                  match skipWs r3 with
                  | c2 :: r4 =>
                    if c2 = ',' then
                      match P.2.2 (skipWs r4) with
                      | some (o, r5) => some (JObj.cons (String.mk k) v o, r5)
                      | none => none
                    else if c2.toNat = 125 then some (JObj.cons (String.mk k) v JObj.nil, r4)
                    else none
                  | [] => none
              else none
            | [] => none
        else none
      | [] => none)

/-- json.loads: parse one value surrounded by whitespace, insist on end of
input; none models a raised JSONDecodeError. -/
def jsonLoads (s : String) : Option Json :=
  let cs := skipWs s.toList
  match (parseF (cs.length + 1)).1 cs with
  | some (v, rest) => if (skipWs rest).isEmpty then some v else none
  | none => none

/-! ### Python str() of decoded values -/

/-- Escapes inside a Python string repr with quote character q.  (Printable
non-ASCII is kept as-is; the exact Unicode printability classes CPython
consults are approximated by printing everything at or above 0x80.) -/
def pyQuoteChar (q c : Char) : List Char :=
  if c = '\\' then ['\\', '\\']
  else if c = q then ['\\', q]
  else if c = '\n' then ['\\', 'n']
  else if c = '\r' then ['\\', 'r']
  else if c = '\t' then ['\\', 't']
  else if c.toNat < 32 || c.toNat = 127 then '\\' :: 'x' :: hex2 c.toNat
  else [c]

/-- repr of a Python str: single quotes unless the text holds a single quote
and no double quote. -/
def pyStrQuote (s : String) : List Char :=
  let q := if s.toList.contains '\'' && !(s.toList.contains '"') then '"' else '\''
  q :: (s.toList.flatMap (pyQuoteChar q) ++ [q])

mutual

/-- repr of a decoded JSON value as the Python objects json.loads builds. -/
def pyReprV : Json → List Char
  | .null => ['N', 'o', 'n', 'e']
  | .bool b => if b then ['T', 'r', 'u', 'e'] else ['F', 'a', 'l', 's', 'e']
  | .int n => intRepr n
  | .str s => pyStrQuote s
  | .arr a => '[' :: (pyReprA a ++ [']'])
  | .obj o => Char.ofNat 123 :: (pyReprO o ++ [Char.ofNat 125])

def pyReprA : JArr → List Char
  | .nil => []
  | .cons h .nil => pyReprV h
  | .cons h (.cons h2 t) => pyReprV h ++ ',' :: ' ' :: pyReprA (.cons h2 t)

def pyReprO : JObj → List Char
  | .nil => []
  | .cons k v .nil => pyStrQuote k ++ ':' :: ' ' :: pyReprV v
  | .cons k v (.cons k2 v2 t) =>
    pyStrQuote k ++ ':' :: ' ' :: pyReprV v ++ ',' :: ' ' :: pyReprO (.cons k2 v2 t)

end

/-- str() of a decoded value (strings print bare, everything else as repr). -/
def pyStr : Json → List Char
  | .str s => s.toList
  | j => pyReprV j

/-! ### format_bigfloat -/

/-- Python truthiness of a decoded value. -/
def pyTruthy : Json → Bool
  | .null => false
  | .bool b => b
  | .int n => decide (n ≠ 0)
  | .str s => !s.isEmpty
  | .arr .nil => false
  | .arr (.cons _ _) => true
  | .obj .nil => false
  | .obj (.cons _ _ _) => true

/-- format_bigfloat: a dict with a value key has its binary string converted
and rendered — scientific with 50 fractional digits when nonzero and below
1e-10 in magnitude, otherwise str() truncated to 80 characters; anything
else is rendered with str().  none models an uncaught exception (a value
that is not a string, or an unparsable binary string). -/
def format_bigfloat (bf : Json) : Option (List Char) :=
  match bf with
  | Json.obj o =>
    if o.hasKey "value" then
      match o.lookup "value" with
      | some (Json.str s) =>
        match b2d s with
        | none => none
        | some d =>
          if Dec.valLt (Dec.pyAbs decPrec d) ⟨false, 1, -10⟩ && d.coeff != 0 then
            some d.fmt50E
          else some (d.pyStr.take 80)
      | some v =>
        if pyTruthy v then none
        else some ((Dec.pyStr ⟨false, 0, 0⟩).take 80)
      | none => none
    else some (pyStr bf)
  | _ => some (pyStr bf)

/-! ### Zoom depth

int(leading_zeros * 0.301) in IEEE-754 double arithmetic: the int is
converted to float (OverflowError past 2^1024), multiplied by the double
nearest 0.301 with round-to-nearest-even, and truncated.  All of it is
carried out exactly on dyadic rationals. -/

/-- Bit length. -/
def bitlenAux : Nat → Nat → Nat
  | 0, _ => 0
  | fuel+1, n => if n = 0 then 0 else bitlenAux fuel (n / 2) + 1

/-- Bit length of a natural number. -/
def bitlen (n : Nat) : Nat := bitlenAux n n

/-- Round c / 2^t to the nearest integer, ties to even. -/
def rhe2 (c t : Nat) : Nat :=
  let d := 2 ^ t
  let q := c / d
  let r := c % d
  if 2 * r > d then q + 1
  else if 2 * r < d then q
  else if q % 2 = 0 then q else q + 1

/-- The integer significand of the IEEE double nearest 0.301, scaled by 2^54:
0.301 rounds to 5422333951354077 / 2^54. -/
def dbl0301num : Nat := 5422333951354077

/-- float(n) for a Python int: round to 53 significant bits, OverflowError
(none) at or beyond 2^1024. -/
def pyFloatOfNat (n : Nat) : Option Nat :=
  let s := bitlen n
  let m := if s ≤ 53 then n else rhe2 n (s - 53) * 2 ^ (s - 53)
  if 2 ^ 1024 ≤ m then none else some m

/-- Double multiplication m * (0.301 as a double), rounded to nearest-even;
the result is c / 2^54; none models overflow to infinity. -/
def mul0301 (m : Nat) : Option Nat :=
  let q := m * dbl0301num
  if q = 0 then some 0
  else
    let s := bitlen q
    if s ≤ 53 then some q
    else
      let c := rhe2 q (s - 53) * 2 ^ (s - 53)
      if 2 ^ 1078 ≤ c then none else some c

/-- int(n * 0.301): none models the OverflowError that would escape the
except clause. -/
def zoomDepthVal (n : Nat) : Option Nat :=
  match pyFloatOfNat n with
  | none => none
  | some m =>
    match mul0301 m with
    | none => none
    | some c => some (c / 2 ^ 54)

/-- Does a decoded array contain the Python string "." (list membership as
run by the in test)? -/
def jarrHasDotStr : JArr → Bool
  | .nil => false
  | .cons h t => decide (h = Json.str ".") || jarrHasDotStr t

/-- The try block computing the zoom-depth lines from the width field: the
segment of the value string between the first dot and the next dot (the
split(".")[1] component), its leading zeros, and the float estimate.
some [] means the lines are silently omitted (either a guard failed or a
TypeError was caught); none means an uncaught exception. -/
def zoomDepthLines (width_data : Json) : Option (List (List Char)) :=
  match width_data with
  | Json.obj o =>
    if o.hasKey "value" then
      match o.lookup "value" with
      | some (Json.str bv) =>
        let cs := bv.toList
        if cs.contains '.' then
          let frac := (splitDotAux cs []).2.1.takeWhile (fun c => !(c = '.'))
          let stripped := frac.dropWhile (fun c => c = '0')
          let n := frac.length - stripped.length
          match zoomDepthVal n with
          | none => none
          | some z =>
            some
              ["  Zoom Depth: ~10^".toList ++ natDigs z ++ " (2^".toList ++ natDigs n ++ [')'],
               "  Precision:  ".toList ++
                 (match o.lookup "precision_bits" with
                  | some j => pyStr j
                  | none => ['N', '/', 'A']) ++ " bits".toList]
        else some []
      | some (Json.arr a) => if jarrHasDotStr a then none else some []
      | some (Json.obj wo) => if wo.hasKey "." then none else some []
      | _ => some []
    else some []
  | _ => some []

/-! ### format_viewport -/

/-- dict.get with a default. -/
def pyGetD (o : JObj) (k : String) (dflt : Json) : Json :=
  match o.lookup k with
  | some v => v
  | none => dflt

/-- Element of a decoded array. -/
def jarrGet : JArr → Nat → Option Json
  | .nil, _ => none
  | .cons h _, 0 => some h
  | .cons _ t, i+1 => jarrGet t i

/-- Python subscription x[i] on a decoded value: lists index (IndexError
when short), strings yield one-character strings, anything else raises. -/
def pySubscript (j : Json) (i : Nat) : Option Json :=
  match j with
  | Json.arr a => jarrGet a i
  | Json.str s =>
    (match s.toList.get? i with
     | some c => some (Json.str (String.mk [c]))
     | none => none)
  | _ => none

/-- f-string of o.get(k, "N/A"). -/
def getOrNA (o : JObj) (k : String) : List Char :=
  match o.lookup k with
  | some v => pyStr v
  | none => ['N', '/', 'A']

/-- f-string of o.get(k, "unknown"). -/
def getOrUnknown (o : JObj) (k : String) : List Char :=
  match o.lookup k with
  | some v => pyStr v
  | none => "unknown".toList

/-- The 60-character separator line. -/
def eqLine : List Char := List.replicate 60 '='

/-- Join lines with newlines. -/
def joinNL : List (List Char) → List Char
  | [] => []
  | [l] => l
  | l :: rest => l ++ '\n' :: joinNL rest

/-- format_viewport (show_raw is false; the raw-JSON appendix is
presentation glue outside the modelled core).  none models an uncaught
exception (non-mapping state or viewport, too-short center, malformed
width/height values, non-mapping truthy render_settings). -/
def format_viewport (state : Json) : Option String :=
  match state with
  | Json.obj smap =>
    (match pyGetD smap "viewport" (Json.obj JObj.nil) with
     | Json.obj vmap =>
       let center := pyGetD vmap "center" (Json.arr (JArr.cons Json.null (JArr.cons Json.null JArr.nil)))
       (match pySubscript center 0, pySubscript center 1 with
        | some c0, some c1 =>
          (match format_bigfloat c0, format_bigfloat c1,
             format_bigfloat (pyGetD vmap "width" Json.null),
             format_bigfloat (pyGetD vmap "height" Json.null) with
           | some f0, some f1, some fw, some fh =>
             (match zoomDepthLines (pyGetD vmap "width" (Json.obj JObj.nil)) with
              | none => none
              | some zoomLines =>
                let render := pyGetD smap "render_settings" (Json.obj JObj.nil)
                let renderRes : Option (List (List Char)) :=
                  if pyTruthy render then
                    match render with
                    | Json.obj rmap =>
                      some ["\nRENDER SETTINGS:".toList,
                        "  Cycle Count:  ".toList ++ getOrNA rmap "cycle_count",
                        "  Use GPU:      ".toList ++ getOrNA rmap "use_gpu",
                        "  X-Ray:        ".toList ++ getOrNA rmap "xray_enabled"]
                    | _ => none
                  else some []
                (match renderRes with
                | none => none
                | some renderLines =>
                  some (String.mk (joinNL
                    ([eqLine, "FRACTALWONDER STATE".toList, eqLine,
                      "\nVIEWPORT:".toList,
                      "  Center X:  ".toList ++ f0,
                      "  Center Y:  ".toList ++ f1,
                      "  Width:     ".toList ++ fw,
                      "  Height:    ".toList ++ fh]
                     ++ zoomLines
                     ++ ["\nCONFIG:".toList,
                       "  Config ID:    ".toList ++ getOrUnknown smap "config_id",
                       "  Palette:      ".toList ++ getOrUnknown smap "palette_name",
                       "  Version:      ".toList ++ getOrUnknown smap "version"]
                     ++ renderLines)))))
           | _, _, _, _ => none)
        | _, _ => none)
     | _ => none)
  | _ => none

/-! ### The decoder -/

/-- The four distinguishable failure kinds of the decoder (§7): bad marker,
bad base64 payload, bad DEFLATE data, bad text or structure. -/
inductive DecodeError where
  | format : DecodeError
  | encoding : DecodeError
  | decompression : DecodeError
  | parse : DecodeError
  deriving DecidableEq

/-- urlparse(...).fragment: everything after the first hash. -/
def fragmentOf : List Char → List Char
  | [] => []
  | '#' :: rest => rest
  | _ :: rest => fragmentOf rest

/-- decode_fractalwonder_url: fragment extraction for URLs, the v1: marker,
deterministic re-padding, URL-safe base64, raw DEFLATE, UTF-8, JSON. -/
def decode_fractalwonder_url (input : String) : Except DecodeError Json :=
  let ics := input.toList
  let hash_data :=
    if listStartsWith ics "http://".toList || listStartsWith ics "https://".toList then
      fragmentOf ics
    else ics
  if !(listStartsWith hash_data "v1:".toList) then .error .format
  else
    let encoded := hash_data.drop 3
    let pad := 4 - encoded.length % 4
    let padded := if pad ≠ 4 then encoded ++ List.replicate pad '=' else encoded
    match urlsafeB64decode padded with
    | none => .error .encoding
    | some bytes =>
      match inflateRaw bytes with
      | none => .error .decompression
      | some data =>
        match utf8Decode data with
        | none => .error .parse
        | some text =>
          match jsonLoads (String.mk text) with
          | none => .error .parse
          | some j => .ok j

/-- Modelled from the spec: the external encoder this decoder inverts (§6:
a bare token is v1: followed by unpadded URL-safe base64 of the raw-DEFLATE
compression of the UTF-8 JSON serialization of the State Document). -/
def encodeToken (d : Json) : String :=
  String.mk ('v' :: '1' :: ':' :: b64urlEncodeNoPad (deflateStored (utf8Encode (dumpsV d))))

/-! ### Reference semantics for the converter (the spec side of the claims)

These definitions follow the words of spec §4.2, to be compared with the
code model above: sign × (base-2 integer part + Σ 2^(-i) over fractional
1-positions), in exact rational arithmetic. -/

/-- Does the string carry the sign prefix? -/
def isNegLead (cs : List Char) : Bool := listStartsWith cs ['-']

/-- Base-2 value of a digit string, most significant first (1 counts, any
other character counts as 0 — used only on well-formed digit strings). -/
def bitsValAux : List Char → Nat → Nat
  | [], acc => acc
  | c :: rest, acc => bitsValAux rest (2 * acc + (if c = '1' then 1 else 0))

/-- Σ over fractional positions i (1-indexed) of 2^(−i) where the digit is 1. -/
def specFracSum : List Char → Nat → ℚ
  | [], _ => 0
  | c :: rest, i =>
    (if c = '1' then ((2 : ℚ) ^ i)⁻¹ else 0) + specFracSum rest (i + 1)

/-- Sign-stripped body. -/
def stripSign (cs : List Char) : List Char :=
  if isNegLead cs then cs.tail else cs

/-- Integer part of a binary-fraction string. -/
def ipOf (cs : List Char) : List Char := (splitDotAux (stripSign cs) []).1

/-- Fractional part of a binary-fraction string. -/
def fpOf (cs : List Char) : List Char := (splitDotAux (stripSign cs) []).2.1

/-- The value spec §4.2 assigns to a binary-fraction string. -/
def specValue (cs : List Char) : ℚ :=
  let v := (bitsValAux (ipOf cs) 0 : ℚ) + specFracSum (fpOf cs) 1
  if isNegLead cs then -v else v

/-- A binary-digit character. -/
def isBit (c : Char) : Bool := c = '0' || c = '1'

/-- Well-formed unsigned binary-fraction body: binary digits with at most
one dot (spec §3). -/
def isBinFracBody (cs : List Char) : Bool :=
  cs.all (fun c => isBit c || c = '.') && decide (cs.count '.' ≤ 1)

/-- Well-formed binary-fraction string: optional sign, then a body. -/
def isBinFrac (cs : List Char) : Bool := isBinFracBody (stripSign cs)

/-- No 1-digit beyond position bound (positions 1-indexed). -/
def onesWithin (fp : List Char) (bound : Nat) : Bool :=
  (fp.drop bound).all (fun c => !(c = '1'))

/-- Position of the last 1-digit (0 when there is none). -/
def lastOnePos : List Char → Nat
  | [] => 0
  | c :: rest =>
    let l := lastOnePos rest
    if l = 0 then (if c = '1' then 1 else 0) else l + 1

/-- The value fits the 1000-digit working precision, so no context rounding
occurs anywhere in the conversion: either an unsigned dot-free string
(conversion is the exact constructor), or the fractional 1-digits stop by
position 1000 and the integer part stays below 10^(1000-L). -/
def inPrecBounds (cs : List Char) : Bool :=
  (decide (fpOf cs = []) && !(isNegLead cs)) ||
  (onesWithin (fpOf cs) 1000 &&
    decide (bitsValAux (ipOf cs) 0 < 10 ^ (1000 - lastOnePos (fpOf cs))))

/-! ### Node counts for parser fuel -/

mutual

/-- Parser fuel needed for a value. -/
def sizeV : Json → Nat
  | .null => 1
  | .bool _ => 1
  | .int _ => 1
  | .str _ => 1
  | .arr a => 1 + sizeA a
  | .obj o => 1 + sizeO o

/-- Parser fuel needed for an array tail. -/
def sizeA : JArr → Nat
  | .nil => 0
  | .cons h t => 1 + sizeV h + sizeA t

/-- Parser fuel needed for an object tail. -/
def sizeO : JObj → Nat
  | .nil => 0
  | .cons _ v t => 1 + sizeV v + sizeO t

end

/-! ### Spec-side helpers for the round-trip claim -/

/-- LSB-first value of a bit list. -/
def bitsValB : List Bool → Nat
  | [] => 0
  | b :: r => (if b then 1 else 0) + 2 * bitsValB r

/-- A continuation the number parser will not absorb into the literal. -/
def numSafeB : List Char → Bool
  | [] => true
  | c :: _ => (digVal c).isNone && !(c = '.') && !(c = 'e') && !(c = 'E')

/-! ## Theorems -/

/-! ### Basic helper lemmas -/

theorem JObj.lookup_eq_none : ∀ (o : JObj) (k : String), o.hasKey k = false → o.lookup k = none
  | .nil, _, _ => rfl
  | .cons k1 v t, k, h => by
    simp only [JObj.hasKey, Bool.or_eq_false_iff] at h
    simp only [JObj.lookup]
    rw [if_neg, JObj.lookup_eq_none t k h.2]
    intro he
    rw [he] at h
    simp at h

/-- C3: the decoder's failure conditions; the input with non-alphabet payload
characters passes the lenient base64 stage and fails at decompression, not
with an Encoding error as claimed. -/
theorem c3_counterexample :
    decode_fractalwonder_url "v1:!!!invalid!!!" = .error .decompression ∧
    DecodeError.decompression ≠ DecodeError.encoding := by
  exact ⟨by rfl, by decide⟩

/-- C3 (amended): the four failure kinds are pairwise distinct and raised at
their stages: bad marker gives a Format error; an all-alphabet payload whose
data-character count is 1 mod 4 gives an Encoding error; the payload
!!!invalid!!! survives the lenient base64 decode (non-alphabet characters
are discarded) and fails with a Decompression error; valid DEFLATE of
non-UTF-8 bytes or of non-JSON text gives a Parse error. -/
theorem c3_amended :
    decode_fractalwonder_url "v2:AAA" = .error .format ∧
    decode_fractalwonder_url "v1:AAAAA" = .error .encoding ∧
    decode_fractalwonder_url "v1:!!!invalid!!!" = .error .decompression ∧
    decode_fractalwonder_url ("v1:" ++ String.mk (b64urlEncodeNoPad (deflateStored [255]))) =
      .error .parse ∧
    decode_fractalwonder_url
      ("v1:" ++ String.mk (b64urlEncodeNoPad (deflateStored (utf8Encode "not json".toList)))) =
      .error .parse ∧
    [DecodeError.format, DecodeError.encoding, DecodeError.decompression,
      DecodeError.parse].Nodup := by
  exact ⟨by rfl, by rfl, by rfl, by rfl, by rfl, by decide⟩

/-- C8: the converter does leave process-wide state behind: it sets the
global decimal context precision to 1000 and never restores the previous
value. -/
theorem c8_counterexample :
    (binary_to_decimal 28 "0.1").2 = 1000 ∧ (1000 : Nat) ≠ 28 := by
  exact ⟨rfl, by decide⟩

/-- C8 (amended): the converter overwrites the process-wide decimal context
precision with 1000 and leaves it there; because every call re-installs that
precision first, the result of a call never depends on the context left by
earlier calls on other inputs. -/
theorem c8_amended : ∀ (p q : Nat) (s : String),
    (binary_to_decimal p s).1 = (binary_to_decimal q s).1 ∧
    (binary_to_decimal p s).2 = decPrec := by
  intro p q s
  exact ⟨rfl, rfl⟩

/-- C10: a character outside 0 and 1 in the integer part does not always
make the conversion fail: Python int parsing accepts underscores between
digits, so 1_0 converts (to 2). -/
theorem c10_counterexample :
    b2d "1_0" = some ⟨false, 2, 0⟩ ∧ ¬('_' = '0' ∨ '_' = '1') := by
  exact ⟨by decide, by decide⟩

/-- In the fractional loop only the 1-characters matter: replacing every
non-1 character by 0 leaves the result unchanged. -/
theorem fracLoop_only_ones : ∀ (fp : List Char) (prec i : Nat) (acc : Dec),
    fracLoop prec fp i acc =
      fracLoop prec (fp.map (fun c => if c = '1' then '1' else '0')) i acc := by
  intro fp
  induction fp with
  | nil => intro prec i acc; rfl
  | cons c rest ih =>
    intro prec i acc
    by_cases h : c = '1'
    · subst h
      simp only [List.map_cons, if_pos rfl, fracLoop]
      exact ih prec (i + 1) _
    · simp only [List.map_cons, fracLoop, if_neg h]
      have h0 : ¬(('0' : Char) = '1') := by decide
      rw [if_neg h0]
      exact ih prec (i + 1) acc

/-- C10 (amended): in the fractional part every character other than 1
contributes nothing (and raises nothing), so 1.0210 converts like 1.0010;
in the integer part a character outside 0 and 1 makes the conversion fail
unless it is part of Python's lenient int syntax — surrounding whitespace,
a sign, a 0b/0B marker, or single underscores between digits. -/
theorem c10_amended :
    (∀ (fp : List Char) (prec i : Nat) (acc : Dec),
      fracLoop prec fp i acc =
        fracLoop prec (fp.map (fun c => if c = '1' then '1' else '0')) i acc) ∧
    b2d "1.0210" = b2d "1.0010" ∧
    b2d "1.0210" = some ⟨false, 1125, -3⟩ ∧
    b2d "2.0" = none ∧
    b2d "1_0" = some ⟨false, 2, 0⟩ ∧
    b2d " 1 " = some ⟨false, 1, 0⟩ ∧
    b2d "0b10" = some ⟨false, 2, 0⟩ ∧
    b2d "1__0" = none ∧
    b2d "_1" = none ∧
    b2d "1_" = none := by
  exact ⟨fracLoop_only_ones, by decide, by decide, by decide, by decide, by decide,
    by decide, by decide, by decide, by decide⟩

/-- C7: a document with all recognized fields missing renders without
failing, but the missing viewport numerics are shown as None (Python's str
of None), not as the claimed unknown/N-A sentinel, and the render-settings
block is omitted entirely rather than showing N/A lines. -/
theorem c7_counterexample :
    format_bigfloat Json.null = some "None".toList ∧
    ("None" : String) ≠ "unknown" ∧ ("None" : String) ≠ "N/A" ∧
    format_viewport (Json.obj JObj.nil) =
      some (String.mk eqLine ++ "\nFRACTALWONDER STATE\n" ++ String.mk eqLine ++
        "\n\nVIEWPORT:\n  Center X:  None\n  Center Y:  None\n  Width:     None\n  Height:    None\n\nCONFIG:\n  Config ID:    unknown\n  Palette:      unknown\n  Version:      unknown") := by
  exact ⟨by rfl, by decide, by decide, by rfl⟩

theorem c7_part1 : ∀ smap : JObj,
    smap.hasKey "viewport" = false →
    smap.hasKey "render_settings" = false →
    format_viewport (Json.obj smap) =
      some (String.mk (joinNL
        [eqLine, "FRACTALWONDER STATE".toList, eqLine,
         "\nVIEWPORT:".toList,
         "  Center X:  None".toList,
         "  Center Y:  None".toList,
         "  Width:     None".toList,
         "  Height:    None".toList,
         "\nCONFIG:".toList,
         "  Config ID:    ".toList ++ getOrUnknown smap "config_id",
         "  Palette:      ".toList ++ getOrUnknown smap "palette_name",
         "  Version:      ".toList ++ getOrUnknown smap "version"])) := by
  intro smap h1 h5
  have l1 := JObj.lookup_eq_none smap _ h1
  have l5 := JObj.lookup_eq_none smap _ h5
  simp only [format_viewport, pyGetD, l1, l5]
  rfl

theorem c7_part2 : ∀ (smap rmap : JObj),
    smap.hasKey "viewport" = false →
    smap.lookup "render_settings" = some (Json.obj rmap) →
    pyTruthy (Json.obj rmap) = true →
    rmap.hasKey "cycle_count" = false →
    rmap.hasKey "use_gpu" = false →
    rmap.hasKey "xray_enabled" = false →
    format_viewport (Json.obj smap) =
      some (String.mk (joinNL
        [eqLine, "FRACTALWONDER STATE".toList, eqLine,
         "\nVIEWPORT:".toList,
         "  Center X:  None".toList,
         "  Center Y:  None".toList,
         "  Width:     None".toList,
         "  Height:    None".toList,
         "\nCONFIG:".toList,
         "  Config ID:    ".toList ++ getOrUnknown smap "config_id",
         "  Palette:      ".toList ++ getOrUnknown smap "palette_name",
         "  Version:      ".toList ++ getOrUnknown smap "version",
         "\nRENDER SETTINGS:".toList,
         "  Cycle Count:  N/A".toList,
         "  Use GPU:      N/A".toList,
         "  X-Ray:        N/A".toList])) := by
  intro smap rmap h1 hrs htr hc hu hx
  have l1 := JObj.lookup_eq_none smap _ h1
  have lc := JObj.lookup_eq_none rmap _ hc
  have lu := JObj.lookup_eq_none rmap _ hu
  have lx := JObj.lookup_eq_none rmap _ hx
  simp only [format_viewport, pyGetD, getOrNA, l1, hrs, htr, lc, lu, lx, if_true]
  rfl

theorem c7_part3 : ∀ (smap vmap wo : JObj),
    smap.lookup "viewport" = some (Json.obj vmap) →
    vmap.hasKey "center" = false →
    vmap.lookup "width" = some (Json.obj wo) →
    vmap.hasKey "height" = false →
    wo.hasKey "value" = true →
    wo.lookup "value" = some (Json.str "0.01") →
    wo.hasKey "precision_bits" = false →
    smap.hasKey "render_settings" = false →
    format_viewport (Json.obj smap) =
      some (String.mk (joinNL
        [eqLine, "FRACTALWONDER STATE".toList, eqLine,
         "\nVIEWPORT:".toList,
         "  Center X:  None".toList,
         "  Center Y:  None".toList,
         "  Width:     0.25".toList,
         "  Height:    None".toList,
         "  Zoom Depth: ~10^0 (2^1)".toList,
         "  Precision:  N/A bits".toList,
         "\nCONFIG:".toList,
         "  Config ID:    ".toList ++ getOrUnknown smap "config_id",
         "  Palette:      ".toList ++ getOrUnknown smap "palette_name",
         "  Version:      ".toList ++ getOrUnknown smap "version"])) := by
  intro smap vmap wo hvp hcen hw hh hwk hwv hpb h5
  have lcen := JObj.lookup_eq_none vmap _ hcen
  have lh := JObj.lookup_eq_none vmap _ hh
  have lpb := JObj.lookup_eq_none wo _ hpb
  have l5 := JObj.lookup_eq_none smap _ h5
  simp only [format_viewport, pyGetD, hvp, lcen, hw, lh, l5]
  simp only [format_bigfloat, zoomDepthLines, hwk, hwv, lpb, if_true]
  rfl

theorem c7_part4 : ∀ (smap : JObj) (rj : Json),
    smap.hasKey "viewport" = false →
    smap.lookup "render_settings" = some rj →
    pyTruthy rj = false →
    format_viewport (Json.obj smap) =
      some (String.mk (joinNL
        [eqLine, "FRACTALWONDER STATE".toList, eqLine,
         "\nVIEWPORT:".toList,
         "  Center X:  None".toList,
         "  Center Y:  None".toList,
         "  Width:     None".toList,
         "  Height:    None".toList,
         "\nCONFIG:".toList,
         "  Config ID:    ".toList ++ getOrUnknown smap "config_id",
         "  Palette:      ".toList ++ getOrUnknown smap "palette_name",
         "  Version:      ".toList ++ getOrUnknown smap "version"])) := by
  intro smap rj h1 hrs htr
  have l1 := JObj.lookup_eq_none smap _ h1
  simp only [format_viewport, pyGetD, l1, hrs, htr, Bool.false_eq_true, if_false]
  rfl

/-- C7 (amended): rendering a State Document with missing fields never
fails.  (1) With the viewport and render_settings absent — whatever other
fields the document carries — rendering succeeds, the four viewport
numerics read None and the config lines fall back to get(k, "unknown");
(2) a truthy render_settings mapping missing cycle_count, use_gpu and
xray_enabled renders N/A for each of the three lines; (3) a width whose
dotted binary value carries no precision_bits renders the Precision line
as N/A bits; (4) a present-but-falsy render_settings omits the RENDER
SETTINGS block entirely rather than showing sentinels. -/
theorem c7_amended :
    (∀ smap : JObj,
      smap.hasKey "viewport" = false →
      smap.hasKey "render_settings" = false →
      format_viewport (Json.obj smap) =
        some (String.mk (joinNL
          [eqLine, "FRACTALWONDER STATE".toList, eqLine,
           "\nVIEWPORT:".toList,
           "  Center X:  None".toList,
           "  Center Y:  None".toList,
           "  Width:     None".toList,
           "  Height:    None".toList,
           "\nCONFIG:".toList,
           "  Config ID:    ".toList ++ getOrUnknown smap "config_id",
           "  Palette:      ".toList ++ getOrUnknown smap "palette_name",
           "  Version:      ".toList ++ getOrUnknown smap "version"]))) ∧
    (∀ (smap rmap : JObj),
      smap.hasKey "viewport" = false →
      smap.lookup "render_settings" = some (Json.obj rmap) →
      pyTruthy (Json.obj rmap) = true →
      rmap.hasKey "cycle_count" = false →
      rmap.hasKey "use_gpu" = false →
      rmap.hasKey "xray_enabled" = false →
      format_viewport (Json.obj smap) =
        some (String.mk (joinNL
          [eqLine, "FRACTALWONDER STATE".toList, eqLine,
           "\nVIEWPORT:".toList,
           "  Center X:  None".toList,
           "  Center Y:  None".toList,
           "  Width:     None".toList,
           "  Height:    None".toList,
           "\nCONFIG:".toList,
           "  Config ID:    ".toList ++ getOrUnknown smap "config_id",
           "  Palette:      ".toList ++ getOrUnknown smap "palette_name",
           "  Version:      ".toList ++ getOrUnknown smap "version",
           "\nRENDER SETTINGS:".toList,
           "  Cycle Count:  N/A".toList,
           "  Use GPU:      N/A".toList,
           "  X-Ray:        N/A".toList]))) ∧
    (∀ (smap vmap wo : JObj),
      smap.lookup "viewport" = some (Json.obj vmap) →
      vmap.hasKey "center" = false →
      vmap.lookup "width" = some (Json.obj wo) →
      vmap.hasKey "height" = false →
      wo.hasKey "value" = true →
      wo.lookup "value" = some (Json.str "0.01") →
      wo.hasKey "precision_bits" = false →
      smap.hasKey "render_settings" = false →
      format_viewport (Json.obj smap) =
        some (String.mk (joinNL
          [eqLine, "FRACTALWONDER STATE".toList, eqLine,
           "\nVIEWPORT:".toList,
           "  Center X:  None".toList,
           "  Center Y:  None".toList,
           "  Width:     0.25".toList,
           "  Height:    None".toList,
           "  Zoom Depth: ~10^0 (2^1)".toList,
           "  Precision:  N/A bits".toList,
           "\nCONFIG:".toList,
           "  Config ID:    ".toList ++ getOrUnknown smap "config_id",
           "  Palette:      ".toList ++ getOrUnknown smap "palette_name",
           "  Version:      ".toList ++ getOrUnknown smap "version"]))) ∧
    (∀ (smap : JObj) (rj : Json),
      smap.hasKey "viewport" = false →
      smap.lookup "render_settings" = some rj →
      pyTruthy rj = false →
      format_viewport (Json.obj smap) =
        some (String.mk (joinNL
          [eqLine, "FRACTALWONDER STATE".toList, eqLine,
           "\nVIEWPORT:".toList,
           "  Center X:  None".toList,
           "  Center Y:  None".toList,
           "  Width:     None".toList,
           "  Height:    None".toList,
           "\nCONFIG:".toList,
           "  Config ID:    ".toList ++ getOrUnknown smap "config_id",
           "  Palette:      ".toList ++ getOrUnknown smap "palette_name",
           "  Version:      ".toList ++ getOrUnknown smap "version"]))) :=
  ⟨c7_part1, c7_part2, c7_part3, c7_part4⟩

/-- C7 witness: concrete documents discharging every hypothesis — a document
with only an unrecognized config value, a truthy render_settings missing all
three subfields, a viewport width lacking precision_bits, and a falsy
render_settings. -/
theorem c7_amended_witness :
    format_viewport (Json.obj (JObj.cons "config_id" (Json.str "abc") JObj.nil)) =
      some (String.mk (joinNL
        [eqLine, "FRACTALWONDER STATE".toList, eqLine,
         "\nVIEWPORT:".toList,
         "  Center X:  None".toList,
         "  Center Y:  None".toList,
         "  Width:     None".toList,
         "  Height:    None".toList,
         "\nCONFIG:".toList,
         "  Config ID:    ".toList ++
           getOrUnknown (JObj.cons "config_id" (Json.str "abc") JObj.nil) "config_id",
         "  Palette:      ".toList ++
           getOrUnknown (JObj.cons "config_id" (Json.str "abc") JObj.nil) "palette_name",
         "  Version:      ".toList ++
           getOrUnknown (JObj.cons "config_id" (Json.str "abc") JObj.nil) "version"])) ∧
    format_viewport (Json.obj (JObj.cons "render_settings"
        (Json.obj (JObj.cons "other" Json.null JObj.nil)) JObj.nil)) =
      some (String.mk (joinNL
        [eqLine, "FRACTALWONDER STATE".toList, eqLine,
         "\nVIEWPORT:".toList,
         "  Center X:  None".toList,
         "  Center Y:  None".toList,
         "  Width:     None".toList,
         "  Height:    None".toList,
         "\nCONFIG:".toList,
         "  Config ID:    ".toList ++ getOrUnknown (JObj.cons "render_settings"
           (Json.obj (JObj.cons "other" Json.null JObj.nil)) JObj.nil) "config_id",
         "  Palette:      ".toList ++ getOrUnknown (JObj.cons "render_settings"
           (Json.obj (JObj.cons "other" Json.null JObj.nil)) JObj.nil) "palette_name",
         "  Version:      ".toList ++ getOrUnknown (JObj.cons "render_settings"
           (Json.obj (JObj.cons "other" Json.null JObj.nil)) JObj.nil) "version",
         "\nRENDER SETTINGS:".toList,
         "  Cycle Count:  N/A".toList,
         "  Use GPU:      N/A".toList,
         "  X-Ray:        N/A".toList])) ∧
    format_viewport (Json.obj (JObj.cons "viewport" (Json.obj (JObj.cons "width"
        (Json.obj (JObj.cons "value" (Json.str "0.01") JObj.nil)) JObj.nil)) JObj.nil)) =
      some (String.mk (joinNL
        [eqLine, "FRACTALWONDER STATE".toList, eqLine,
         "\nVIEWPORT:".toList,
         "  Center X:  None".toList,
         "  Center Y:  None".toList,
         "  Width:     0.25".toList,
         "  Height:    None".toList,
         "  Zoom Depth: ~10^0 (2^1)".toList,
         "  Precision:  N/A bits".toList,
         "\nCONFIG:".toList,
         "  Config ID:    ".toList ++ getOrUnknown (JObj.cons "viewport"
           (Json.obj (JObj.cons "width" (Json.obj (JObj.cons "value" (Json.str "0.01")
             JObj.nil)) JObj.nil)) JObj.nil) "config_id",
         "  Palette:      ".toList ++ getOrUnknown (JObj.cons "viewport"
           (Json.obj (JObj.cons "width" (Json.obj (JObj.cons "value" (Json.str "0.01")
             JObj.nil)) JObj.nil)) JObj.nil) "palette_name",
         "  Version:      ".toList ++ getOrUnknown (JObj.cons "viewport"
           (Json.obj (JObj.cons "width" (Json.obj (JObj.cons "value" (Json.str "0.01")
             JObj.nil)) JObj.nil)) JObj.nil) "version"])) ∧
    format_viewport (Json.obj (JObj.cons "render_settings" (Json.bool false) JObj.nil)) =
      some (String.mk (joinNL
        [eqLine, "FRACTALWONDER STATE".toList, eqLine,
         "\nVIEWPORT:".toList,
         "  Center X:  None".toList,
         "  Center Y:  None".toList,
         "  Width:     None".toList,
         "  Height:    None".toList,
         "\nCONFIG:".toList,
         "  Config ID:    ".toList ++ getOrUnknown (JObj.cons "render_settings"
           (Json.bool false) JObj.nil) "config_id",
         "  Palette:      ".toList ++ getOrUnknown (JObj.cons "render_settings"
           (Json.bool false) JObj.nil) "palette_name",
         "  Version:      ".toList ++ getOrUnknown (JObj.cons "render_settings"
           (Json.bool false) JObj.nil) "version"])) :=
  ⟨c7_amended.1 (JObj.cons "config_id" (Json.str "abc") JObj.nil) (by decide) (by decide),
   c7_amended.2.1 (JObj.cons "render_settings"
       (Json.obj (JObj.cons "other" Json.null JObj.nil)) JObj.nil)
     (JObj.cons "other" Json.null JObj.nil)
     (by decide) (by decide) (by decide) (by decide) (by decide) (by decide),
   c7_amended.2.2.1 (JObj.cons "viewport" (Json.obj (JObj.cons "width"
       (Json.obj (JObj.cons "value" (Json.str "0.01") JObj.nil)) JObj.nil)) JObj.nil)
     (JObj.cons "width" (Json.obj (JObj.cons "value" (Json.str "0.01") JObj.nil)) JObj.nil)
     (JObj.cons "value" (Json.str "0.01") JObj.nil)
     (by decide) (by decide) (by decide) (by decide) (by decide) (by decide) (by decide)
     (by decide),
   c7_amended.2.2.2 (JObj.cons "render_settings" (Json.bool false) JObj.nil)
     (Json.bool false) (by decide) (by decide) (by decide)⟩

/-! ### Base64 lemmas (C4) -/

theorem b64val_unUrlsafe_b64chr : ∀ v : Nat, v < 64 → b64val (unUrlsafe (b64chr v)) = some v := by
  decide

theorem unUrlsafe_b64chr_ne_eq : ∀ v : Nat, v < 64 → ¬(unUrlsafe (b64chr v) = '=') := by
  decide

theorem b64chr_ascii : ∀ v : Nat, v < 64 → (b64chr v).toNat < 128 := by
  decide

/-- One full quad of the lenient decoder recovers three bytes. -/
theorem a2b_quad (a b c : Nat) (ha : a < 256) (hb : b < 256) (hc : c < 256)
    (rest : List Char) (acc : List Nat) :
    a2b (List.map unUrlsafe (b64chr (a / 4) :: b64chr (a % 4 * 16 + b / 16) ::
        b64chr (b % 16 * 4 + c / 64) :: b64chr (c % 64) :: rest)) 0 0 0 acc =
      a2b (List.map unUrlsafe rest) 0 0 0 (c :: b :: a :: acc) := by
  have h1 : a / 4 < 64 := by omega
  have h2 : a % 4 * 16 + b / 16 < 64 := by omega
  have h3 : b % 16 * 4 + c / 64 < 64 := by omega
  have h4 : c % 64 < 64 := by omega
  simp only [List.map_cons, a2b, if_neg (unUrlsafe_b64chr_ne_eq _ h1),
    if_neg (unUrlsafe_b64chr_ne_eq _ h2), if_neg (unUrlsafe_b64chr_ne_eq _ h3),
    if_neg (unUrlsafe_b64chr_ne_eq _ h4),
    b64val_unUrlsafe_b64chr _ h1, b64val_unUrlsafe_b64chr _ h2,
    b64val_unUrlsafe_b64chr _ h3, b64val_unUrlsafe_b64chr _ h4]
  have e1 : a / 4 * 4 + (a % 4 * 16 + b / 16) / 16 = a := by omega
  have e2 : (a % 4 * 16 + b / 16) % 16 * 16 + (b % 16 * 4 + c / 64) / 4 = b := by omega
  have e3 : (b % 16 * 4 + c / 64) % 4 * 64 + c % 64 = c := by omega
  rw [e1, e2, e3]

/-- Final partial quad: one byte, two characters, two pads. -/
theorem a2b_tail1 (a : Nat) (ha : a < 256) (acc : List Nat) :
    a2b (List.map unUrlsafe [b64chr (a / 4), b64chr (a % 4 * 16)] ++ ['=', '=']) 0 0 0 acc =
      some (a :: acc).reverse := by
  have h1 : a / 4 < 64 := by omega
  have h2 : a % 4 * 16 < 64 := by omega
  simp only [List.map_cons, List.map_nil, List.cons_append, List.nil_append, a2b,
    if_neg (unUrlsafe_b64chr_ne_eq _ h1), if_neg (unUrlsafe_b64chr_ne_eq _ h2),
    b64val_unUrlsafe_b64chr _ h1, b64val_unUrlsafe_b64chr _ h2]
  have e1 : a / 4 * 4 + a % 4 * 16 / 16 = a := by omega
  rw [e1]
  norm_num [a2b]

/-- Final partial quad: two bytes, three characters, one pad. -/
theorem a2b_tail2 (a b : Nat) (ha : a < 256) (hb : b < 256) (acc : List Nat) :
    a2b (List.map unUrlsafe [b64chr (a / 4), b64chr (a % 4 * 16 + b / 16), b64chr (b % 16 * 4)] ++
        ['=']) 0 0 0 acc = some (b :: a :: acc).reverse := by
  have h1 : a / 4 < 64 := by omega
  have h2 : a % 4 * 16 + b / 16 < 64 := by omega
  have h3 : b % 16 * 4 < 64 := by omega
  simp only [List.map_cons, List.map_nil, List.cons_append, List.nil_append, a2b,
    if_neg (unUrlsafe_b64chr_ne_eq _ h1), if_neg (unUrlsafe_b64chr_ne_eq _ h2),
    if_neg (unUrlsafe_b64chr_ne_eq _ h3),
    b64val_unUrlsafe_b64chr _ h1, b64val_unUrlsafe_b64chr _ h2, b64val_unUrlsafe_b64chr _ h3]
  have e1 : a / 4 * 4 + (a % 4 * 16 + b / 16) / 16 = a := by omega
  have e2 : (a % 4 * 16 + b / 16) % 16 * 16 + b % 16 * 4 / 4 = b := by omega
  rw [e1, e2]
  norm_num [a2b]

/-- Padding characters for an encoded run. -/
theorem length_b64e : ∀ bs : List Nat,
    (b64urlEncodeNoPad bs).length % 4 = if bs.length % 3 = 0 then 0 else bs.length % 3 + 1 := by
  intro bs
  induction bs using b64urlEncodeNoPad.induct with
  | case1 => rfl
  | case2 a => rfl
  | case3 a b => rfl
  | case4 a b c rest ih =>
    simp only [b64urlEncodeNoPad, List.length_cons, List.length_append]
    have h3 : (rest.length + 1 + 1 + 1) % 3 = rest.length % 3 := by omega
    rw [h3]
    omega

/-- The decoder applied to a deterministically re-padded encoded run
recovers the bytes, whatever has been accumulated. -/
theorem a2b_enc : ∀ (bs : List Nat), (∀ x ∈ bs, x < 256) → ∀ acc : List Nat,
    a2b (List.map unUrlsafe (b64urlEncodeNoPad bs ++
        List.replicate ((4 - (b64urlEncodeNoPad bs).length % 4) % 4) '=')) 0 0 0 acc =
      some (acc.reverse ++ bs) := by
  intro bs
  induction bs using b64urlEncodeNoPad.induct with
  | case1 =>
    intro _ acc
    simp [b64urlEncodeNoPad, a2b]
  | case2 a =>
    intro h acc
    have ha : a < 256 := h a (by simp)
    have : (b64urlEncodeNoPad [a]).length = 2 := rfl
    rw [this]
    norm_num
    have := a2b_tail1 a ha acc
    simp only [b64urlEncodeNoPad] at this ⊢
    simpa using this
  | case3 a b =>
    intro h acc
    have ha : a < 256 := h a (by simp)
    have hb : b < 256 := h b (by simp)
    have : (b64urlEncodeNoPad [a, b]).length = 3 := rfl
    rw [this]
    norm_num
    have := a2b_tail2 a b ha hb acc
    simp only [b64urlEncodeNoPad] at this ⊢
    simpa using this
  | case4 a b c rest ih =>
    intro h acc
    have ha : a < 256 := h a (by simp)
    have hb : b < 256 := h b (by simp)
    have hc : c < 256 := h c (by simp)
    have hlen : (b64urlEncodeNoPad (a :: b :: c :: rest)).length % 4 =
        (b64urlEncodeNoPad rest).length % 4 := by
      simp only [b64urlEncodeNoPad, List.length_cons, List.length_append]
      omega
    rw [hlen]
    simp only [b64urlEncodeNoPad, List.cons_append, List.map_cons]
    have hq := a2b_quad a b c ha hb hc
      (b64urlEncodeNoPad rest ++
        List.replicate ((4 - (b64urlEncodeNoPad rest).length % 4) % 4) '=') acc
    simp only [List.map_cons] at hq
    rw [hq, ih (fun x hx => h x (by simp [hx])) (c :: b :: a :: acc)]
    simp

theorem b64val_isSome_ne_pad (x : Char) (h : (b64val (unUrlsafe x)).isSome = true) :
    ¬(unUrlsafe x = '=') := by
  intro he
  rw [he] at h
  simp [b64val] at h

theorem b64e_ascii : ∀ bs : List Nat, (∀ x ∈ bs, x < 256) →
    ∀ c ∈ b64urlEncodeNoPad bs, c.toNat < 128 := by
  intro bs
  induction bs using b64urlEncodeNoPad.induct with
  | case1 => intro _ c hc; simp [b64urlEncodeNoPad] at hc
  | case2 a =>
    intro h c hc
    have ha : a < 256 := h a (by simp)
    simp only [b64urlEncodeNoPad, List.mem_cons, List.not_mem_nil, or_false] at hc
    rcases hc with rfl | rfl
    · exact b64chr_ascii _ (by omega)
    · exact b64chr_ascii _ (by omega)
  | case3 a b =>
    intro h c hc
    have ha : a < 256 := h a (by simp)
    have hb : b < 256 := h b (by simp)
    simp only [b64urlEncodeNoPad, List.mem_cons, List.not_mem_nil, or_false] at hc
    rcases hc with rfl | rfl | rfl
    · exact b64chr_ascii _ (by omega)
    · exact b64chr_ascii _ (by omega)
    · exact b64chr_ascii _ (by omega)
  | case4 a b c rest ih =>
    intro h x hx
    have ha : a < 256 := h a (by simp)
    have hb : b < 256 := h b (by simp)
    have hc : c < 256 := h c (by simp)
    simp only [b64urlEncodeNoPad, List.mem_cons] at hx
    rcases hx with rfl | rfl | rfl | rfl | hx
    · exact b64chr_ascii _ (by omega)
    · exact b64chr_ascii _ (by omega)
    · exact b64chr_ascii _ (by omega)
    · exact b64chr_ascii _ (by omega)
    · exact ih (fun y hy => h y (by simp [hy])) x hx

/-- The lenient decoder rejects an all-alphabet run of 4k+1 data characters
followed by the three synthesized pads. -/
theorem a2b_mod1 : ∀ p : List Char, (∀ c ∈ p, (b64val (unUrlsafe c)).isSome = true) →
    p.length % 4 = 1 → ∀ acc : List Nat,
    a2b (List.map unUrlsafe (p ++ ['=', '=', '='])) 0 0 0 acc = none
  | [], _, hlen, _ => by simp at hlen
  | [c], hall, _, acc => by
    obtain ⟨v, hv⟩ := Option.isSome_iff_exists.mp (hall c (by simp))
    have hne := b64val_isSome_ne_pad c (hall c (by simp))
    have hpe : unUrlsafe '=' = '=' := by decide
    simp [a2b, hne, hv, hpe]
  | [c1, c2], _, hlen, _ => by simp at hlen
  | [c1, c2, c3], _, hlen, _ => by simp at hlen
  | c1 :: c2 :: c3 :: c4 :: rest, hall, hlen, acc => by
    obtain ⟨v1, hv1⟩ := Option.isSome_iff_exists.mp (hall c1 (by simp))
    obtain ⟨v2, hv2⟩ := Option.isSome_iff_exists.mp (hall c2 (by simp))
    obtain ⟨v3, hv3⟩ := Option.isSome_iff_exists.mp (hall c3 (by simp))
    obtain ⟨v4, hv4⟩ := Option.isSome_iff_exists.mp (hall c4 (by simp))
    have hn1 := b64val_isSome_ne_pad c1 (hall c1 (by simp))
    have hn2 := b64val_isSome_ne_pad c2 (hall c2 (by simp))
    have hn3 := b64val_isSome_ne_pad c3 (hall c3 (by simp))
    have hn4 := b64val_isSome_ne_pad c4 (hall c4 (by simp))
    have hlen2 : rest.length % 4 = 1 := by
      simp only [List.length_cons] at hlen
      omega
    simp only [List.cons_append, List.map_cons, a2b, if_neg hn1, if_neg hn2, if_neg hn3,
      if_neg hn4, hv1, hv2, hv3, hv4]
    exact a2b_mod1 rest (fun c hc => hall c (by simp [hc])) hlen2 _

theorem urlsafeB64decode_enc (bs : List Nat) (h : ∀ x ∈ bs, x < 256) :
    urlsafeB64decode (b64urlEncodeNoPad bs ++
      List.replicate ((4 - (b64urlEncodeNoPad bs).length % 4) % 4) '=') = some bs := by
  unfold urlsafeB64decode
  rw [if_pos]
  · have := a2b_enc bs h []
    simpa using this
  · rw [List.all_append, Bool.and_eq_true]
    constructor
    · rw [List.all_eq_true]
      intro c hc
      exact decide_eq_true (b64e_ascii bs h c hc)
    · rw [List.all_eq_true]
      intro c hc
      rw [List.eq_of_mem_replicate hc]
      decide

theorem isB64url_ascii (c : Char) (h : (b64val (unUrlsafe c)).isSome = true) :
    c.toNat < 128 := by
  by_cases h1 : c = '-'
  · subst h1; decide
  by_cases h2 : c = '_'
  · subst h2; decide
  have hu : unUrlsafe c = c := by simp [unUrlsafe, h1, h2]
  rw [hu] at h
  simp only [b64val] at h
  split_ifs at h with g1 g2 g3 g4 g5 <;> simp_all <;> omega


/-- C4: the decoder re-synthesizes exactly (4 − length mod 4) mod 4 pad
characters; any byte sequence decoded from its re-padded unpadded URL-safe
encoding comes back unchanged (lengths 0, 2 and 3 mod 4); and an
all-alphabet payload whose length is 1 mod 4 makes the whole decode fail
with an Encoding error instead of silently misdecoding. -/
theorem c4_roundtrip :
    (∀ l : Nat, (if 4 - l % 4 ≠ 4 then 4 - l % 4 else 0) = (4 - l % 4) % 4) ∧
    (∀ bs : List Nat, (∀ x ∈ bs, x < 256) →
      urlsafeB64decode (b64urlEncodeNoPad bs ++
        List.replicate ((4 - (b64urlEncodeNoPad bs).length % 4) % 4) '=') = some bs) ∧
    (∀ p : List Char, (∀ c ∈ p, (b64val (unUrlsafe c)).isSome = true) → p.length % 4 = 1 →
      decode_fractalwonder_url (String.mk ('v' :: '1' :: ':' :: p)) =
        Except.error DecodeError.encoding) := by
  refine ⟨?_, fun bs h => urlsafeB64decode_enc bs h, ?_⟩
  · intro l
    split_ifs <;> omega
  · intro p hall hlen
    have hdec : urlsafeB64decode (p ++ List.replicate 3 '=') = none := by
      unfold urlsafeB64decode
      rw [if_pos]
      · have h3 : (List.replicate 3 '=' : List Char) = ['=', '=', '='] := rfl
        rw [h3, a2b_mod1 p hall hlen []]
      · rw [List.all_append, Bool.and_eq_true]
        constructor
        · rw [List.all_eq_true]
          intro c hc
          exact decide_eq_true (isB64url_ascii c (hall c hc))
        · rw [List.all_eq_true]
          intro c hc
          rw [List.eq_of_mem_replicate hc]
          decide
    have ht : (String.mk ('v' :: '1' :: ':' :: p)).toList = 'v' :: '1' :: ':' :: p := rfl
    have hh1 : listStartsWith ('v' :: '1' :: ':' :: p) "http://".toList = false := rfl
    have hh2 : listStartsWith ('v' :: '1' :: ':' :: p) "https://".toList = false := rfl
    have hv1 : listStartsWith ('v' :: '1' :: ':' :: p) "v1:".toList = true := rfl
    have hdrop : ('v' :: '1' :: ':' :: p).drop 3 = p := rfl
    have hpad : 4 - p.length % 4 = 3 := by omega
    simp only [decode_fractalwonder_url, ht, hh1, hh2, hv1, hdrop, hpad, Bool.or_false,
      Bool.not_true, Bool.false_eq_true, if_false, hdec]
    rw [if_pos (by decide : (3 : Nat) ≠ 4)]
    rw [hdec]

/-- C4 witness: concrete instances discharging each hypothesis. -/
theorem c4_roundtrip_witness :
    (if 4 - 6 % 4 ≠ 4 then 4 - 6 % 4 else 0) = (4 - 6 % 4) % 4 ∧
    urlsafeB64decode (b64urlEncodeNoPad [1, 2, 3, 4] ++
      List.replicate ((4 - (b64urlEncodeNoPad [1, 2, 3, 4]).length % 4) % 4) '=') =
      some [1, 2, 3, 4] ∧
    decode_fractalwonder_url (String.mk ('v' :: '1' :: ':' :: "AAAAA".toList)) =
      Except.error DecodeError.encoding :=
  ⟨c4_roundtrip.1 6, c4_roundtrip.2.1 [1, 2, 3, 4] (by decide),
    c4_roundtrip.2.2 "AAAAA".toList (by decide) (by decide)⟩

/-! ### Zoom-depth lemmas (C6) -/

theorem takeWhile_of_all {p : Char → Bool} : ∀ l : List Char, (∀ c ∈ l, p c = true) →
    l.takeWhile p = l := by
  intro l h
  induction l with
  | nil => rfl
  | cons c rest ih =>
    rw [List.takeWhile_cons, h c (by simp), if_pos rfl,
      ih (fun x hx => h x (by simp [hx]))]

theorem dropWhile_replicate_append {p : Char → Bool} {a : Char} (hp : p a = true) :
    ∀ (n : Nat) (l : List Char), (List.replicate n a ++ l).dropWhile p = l.dropWhile p := by
  intro n
  induction n with
  | zero => intro l; rfl
  | succ m ih =>
    intro l
    rw [List.replicate_succ, List.cons_append, List.dropWhile_cons, hp]
    exact ih l

/-- The zoom-depth computation on a width string 0.(N zeros)1. -/
theorem zoomDepthLines_replicate (N : Nat) :
    zoomDepthLines (Json.obj (JObj.cons "value"
        (Json.str (String.mk ('0' :: '.' :: (List.replicate N '0' ++ ['1'])))) JObj.nil)) =
      match zoomDepthVal N with
      | none => none
      | some z =>
        some ["  Zoom Depth: ~10^".toList ++ natDigs z ++ " (2^".toList ++ natDigs N ++ [')'],
              "  Precision:  N/A bits".toList] := by
  have hkey : (JObj.cons "value"
      (Json.str (String.mk ('0' :: '.' :: (List.replicate N '0' ++ ['1'])))) JObj.nil).hasKey
      "value" = true := by
    simp [JObj.hasKey]
  have hlook : (JObj.cons "value"
      (Json.str (String.mk ('0' :: '.' :: (List.replicate N '0' ++ ['1'])))) JObj.nil).lookup
      "value" = some (Json.str (String.mk ('0' :: '.' :: (List.replicate N '0' ++ ['1'])))) := by
    simp [JObj.lookup]
  have hlookp : (JObj.cons "value"
      (Json.str (String.mk ('0' :: '.' :: (List.replicate N '0' ++ ['1'])))) JObj.nil).lookup
      "precision_bits" = none := by
    simp [JObj.lookup]
  have htl : (String.mk ('0' :: '.' :: (List.replicate N '0' ++ ['1']))).toList =
      '0' :: '.' :: (List.replicate N '0' ++ ['1']) := rfl
  have hcont : ('0' :: '.' :: (List.replicate N '0' ++ ['1'])).contains '.' = true := rfl
  have hsplit : splitDotAux ('0' :: '.' :: (List.replicate N '0' ++ ['1'])) [] =
      (['0'], List.replicate N '0' ++ ['1'], true) := by
    simp [splitDotAux]
  have htake : (List.replicate N '0' ++ ['1']).takeWhile (fun c => !(c = '.')) =
      List.replicate N '0' ++ ['1'] := by
    apply takeWhile_of_all
    intro c hc
    rcases List.mem_append.mp hc with h | h
    · rw [List.eq_of_mem_replicate h]; rfl
    · simp at h; rw [h]; rfl
  have hdrop : (List.replicate N '0' ++ ['1']).dropWhile (fun c => c = '0') =
      ['1'] := by
    rw [dropWhile_replicate_append (by rfl)]
    rfl
  have hlen : (List.replicate N '0' ++ ['1']).length - (['1'] : List Char).length = N := by
    simp
  simp only [zoomDepthLines, hkey, hlook, hlookp, htl, hcont, hsplit, htake, hdrop, hlen,
    if_pos rfl]
  rfl

/-- C6: the reported zoom depth is the truncated double-precision product,
which differs from floor(leadingZeroCount × 0.301) once the count is large
enough — at 58445845812299 leading zeros the line reports 17592199589502
although the floor formula gives 17592199589501. -/
theorem c6_counterexample :
    zoomDepthLines (Json.obj (JObj.cons "value"
        (Json.str (String.mk ('0' :: '.' ::
          (List.replicate 58445845812299 '0' ++ ['1'])))) JObj.nil)) =
      some ["  Zoom Depth: ~10^17592199589502 (2^58445845812299)".toList,
            "  Precision:  N/A bits".toList] ∧
    (17592199589502 : Nat) ≠ 301 * 58445845812299 / 1000 := by
  constructor
  · rw [zoomDepthLines_replicate]
    have hz : zoomDepthVal 58445845812299 = some 17592199589502 := by decide
    rw [hz]
    decide
  · decide


theorem bitlenAux_zero : ∀ f : Nat, bitlenAux f 0 = 0 := by
  intro f
  cases f <;> simp [bitlenAux]

theorem bitlenAux_spec : ∀ fuel n : Nat, n ≤ fuel →
    n < 2 ^ bitlenAux fuel n ∧ (n ≠ 0 → 2 ^ (bitlenAux fuel n - 1) ≤ n) := by
  intro fuel
  induction fuel with
  | zero =>
    intro n hn
    interval_cases n
    simp [bitlenAux]
  | succ m ih =>
    intro n hn
    by_cases h0 : n = 0
    · subst h0; simp [bitlenAux]
    · have hrec : n / 2 ≤ m := by omega
      obtain ⟨ih1, ih2⟩ := ih (n / 2) hrec
      have hb : bitlenAux (m + 1) n = bitlenAux m (n / 2) + 1 := by
        simp [bitlenAux, h0]
      rw [hb]
      constructor
      · have hstep : n < 2 * (n / 2) + 2 := by omega
        calc n < 2 * (n / 2) + 2 := hstep
          _ ≤ 2 * (2 ^ bitlenAux m (n / 2) - 1) + 2 := by omega
          _ ≤ 2 ^ (bitlenAux m (n / 2) + 1) := by
            have h1 : 1 ≤ 2 ^ bitlenAux m (n / 2) := Nat.one_le_two_pow
            rw [pow_succ]
            omega
      · intro _
        by_cases h2 : n / 2 = 0
        · have hn1 : n = 1 := by omega
          subst hn1
          rw [show (1 : Nat) / 2 = 0 by norm_num, bitlenAux_zero m]
          norm_num
        · have hlow := ih2 h2
          have hpos : 1 ≤ bitlenAux m (n / 2) := by
            rcases Nat.eq_zero_or_pos (bitlenAux m (n / 2)) with hz | hp
            · rw [hz] at ih1
              norm_num at ih1
              omega
            · exact hp
          have heq : bitlenAux m (n / 2) + 1 - 1 = (bitlenAux m (n / 2) - 1) + 1 := by omega
          rw [heq, pow_succ]
          omega

theorem bitlen_spec (n : Nat) : n < 2 ^ bitlen n ∧ (n ≠ 0 → 2 ^ (bitlen n - 1) ≤ n) :=
  bitlenAux_spec n n le_rfl

theorem bitlen_le_of_lt {n b : Nat} (h : n < 2 ^ b) : bitlen n ≤ b := by
  by_contra hc
  push_neg at hc
  have h2 := (bitlen_spec n).2
  by_cases h0 : n = 0
  · subst h0
    simp [bitlen, bitlenAux] at hc
  · have := h2 h0
    have hmono : 2 ^ b ≤ 2 ^ (bitlen n - 1) := Nat.pow_le_pow_right (by norm_num) (by omega)
    omega

/-- Half-step error bound for round-to-nearest-even. -/
theorem rhe2_err (c t : Nat) (ht : 1 ≤ t) :
    rhe2 c t * 2 ^ t ≤ c + 2 ^ (t - 1) ∧ c ≤ rhe2 c t * 2 ^ t + 2 ^ (t - 1) := by
  have hd : 2 ^ t = 2 ^ (t - 1) * 2 := by
    rw [← pow_succ]
    congr 1
    omega
  have hq := Nat.div_add_mod' c (2 ^ t)
  have hlt : c % 2 ^ t < 2 ^ t := Nat.mod_lt _ (by positivity)
  simp only [rhe2]
  split_ifs <;> constructor <;> (try simp only [add_mul, one_mul]) <;> omega

/-- If a multiple of 2^t lies strictly within half a step of c, rounding
half-even lands exactly on it. -/
theorem rhe2_near (c t m : Nat) (ht : 1 ≤ t)
    (hc1 : c < m * 2 ^ t + 2 ^ (t - 1)) (hc2 : m * 2 ^ t < c + 2 ^ (t - 1)) :
    rhe2 c t = m := by
  have hd : 2 ^ t = 2 ^ (t - 1) * 2 := by
    rw [← pow_succ]
    congr 1
    omega
  have hq := Nat.div_add_mod' c (2 ^ t)
  have hlt : c % 2 ^ t < 2 ^ t := Nat.mod_lt _ (by positivity)
  have hm2 : m ≤ c / 2 ^ t + 1 := by
    have h1 : m * 2 ^ t < (c / 2 ^ t + 2) * 2 ^ t := by
      rw [add_mul]
      omega
    have h2 := lt_of_mul_lt_mul_right h1 (Nat.zero_le _)
    omega
  have hm1 : c / 2 ^ t ≤ m := by
    have h1 : c / 2 ^ t * 2 ^ t < (m + 1) * 2 ^ t := by
      rw [add_mul, one_mul]
      omega
    have h2 := lt_of_mul_lt_mul_right h1 (Nat.zero_le _)
    omega
  simp only [rhe2]
  split_ifs with h1 h2 h3
  · rcases Nat.eq_or_lt_of_le hm1 with he | hlt2
    · exfalso
      rw [← he] at hc1
      omega
    · omega
  · rcases Nat.eq_or_lt_of_le hm1 with he | hlt2
    · omega
    · exfalso
      have hm3 : m = c / 2 ^ t + 1 := by omega
      rw [hm3, add_mul, one_mul] at hc2
      omega
  · rcases Nat.eq_or_lt_of_le hm1 with he | hlt2
    · exfalso
      rw [← he] at hc1
      omega
    · exfalso
      have hm3 : m = c / 2 ^ t + 1 := by omega
      rw [hm3, add_mul, one_mul] at hc2
      omega
  · rcases Nat.eq_or_lt_of_le hm1 with he | hlt2
    · exfalso
      rw [← he] at hc1
      omega
    · exfalso
      have hm3 : m = c / 2 ^ t + 1 := by omega
      rw [hm3, add_mul, one_mul] at hc2
      omega

/-- Core numeric fact: rounding n*M to 53 significant bits and then
flooring by 2^54 coincides with floor(301*n/1000) for n up to 10^13. -/
theorem round53_floor_core (n q s c : Nat)
    (h1 : 1 ≤ n) (hn : n ≤ 10 ^ 13)
    (hq : q = n * 5422333951354077)
    (hs2 : q < 2 ^ s) (hs : 54 ≤ s) (hs97 : s ≤ 97)
    (hc : c = rhe2 q (s - 53) * 2 ^ (s - 53)) :
    c / 2 ^ 54 = 301 * n / 1000 := by
  have ht1 : 1 ≤ s - 53 := by omega
  have hhalf : 2 ^ (s - 53 - 1) ≤ 2 ^ 43 := Nat.pow_le_pow_right (by norm_num) (by omega)
  obtain ⟨he1, he2⟩ := rhe2_err q (s - 53) ht1
  rw [← hc] at he1 he2
  by_cases hk : 301 * n % 1000 = 0
  · have hn1000 : n % 1000 = 0 := by omega
    obtain ⟨j, hj⟩ := Nat.dvd_of_mod_eq_zero hn1000
    have hj1 : 1 ≤ j := by omega
    have hpow : q < 2 ^ (s - 54) * 2 ^ 54 := by
      rw [← pow_add]
      have he : s - 54 + 54 = s := by omega
      rw [he]
      exact hs2
    have hA : 184 * j < 2 ^ (s - 54) := by omega
    have hm : 301 * j * 2 ^ (54 - (s - 53)) * 2 ^ (s - 53) = 301 * j * 2 ^ 54 := by
      rw [mul_assoc, ← pow_add]
      have he : 54 - (s - 53) + (s - 53) = 54 := by omega
      rw [he]
    have hee : s - 53 - 1 = s - 54 := by omega
    have hnear : rhe2 q (s - 53) = 301 * j * 2 ^ (54 - (s - 53)) := by
      apply rhe2_near q (s - 53) (301 * j * 2 ^ (54 - (s - 53))) ht1
      · rw [hm, hee]
        omega
      · rw [hm, hee]
        omega
    rw [hc, hnear, hm]
    omega
  · omega

/-- For n up to 10^13 the modelled int(n * 0.301) equals floor(301*n/1000). -/
theorem zoomVal_floor (n : Nat) (hn : n ≤ 10 ^ 13) :
    zoomDepthVal n = some (301 * n / 1000) := by
  rcases Nat.eq_zero_or_pos n with h0 | h1
  · subst h0
    decide
  · have hbln : bitlen n ≤ 44 := bitlen_le_of_lt (by omega)
    have hpf : pyFloatOfNat n = some n := by
      simp only [pyFloatOfNat]
      rw [if_pos (by omega : bitlen n ≤ 53)]
      rw [if_neg (by omega : ¬ 2 ^ 1024 ≤ n)]
    have hq0 : ¬ n * 5422333951354077 = 0 := by omega
    have hq97 : n * 5422333951354077 < 2 ^ 97 := by omega
    have hs97 : bitlen (n * 5422333951354077) ≤ 97 := bitlen_le_of_lt hq97
    have hsp := (bitlen_spec (n * 5422333951354077)).1
    by_cases hs53 : bitlen (n * 5422333951354077) ≤ 53
    · have hq53 : n * 5422333951354077 < 2 ^ 53 :=
        lt_of_lt_of_le hsp (Nat.pow_le_pow_right (by norm_num) hs53)
      have hn1 : n = 1 := by omega
      subst hn1
      decide
    · have hov : ¬ (2 ^ 1078 ≤ rhe2 (n * 5422333951354077)
          (bitlen (n * 5422333951354077) - 53) *
          2 ^ (bitlen (n * 5422333951354077) - 53)) := by
        obtain ⟨he1, he2⟩ := rhe2_err (n * 5422333951354077)
          (bitlen (n * 5422333951354077) - 53) (by omega)
        have hhalf : 2 ^ (bitlen (n * 5422333951354077) - 53 - 1) ≤ 2 ^ 43 :=
          Nat.pow_le_pow_right (by norm_num) (by omega)
        omega
      have hmul : mul0301 n = some (rhe2 (n * 5422333951354077)
          (bitlen (n * 5422333951354077) - 53) *
          2 ^ (bitlen (n * 5422333951354077) - 53)) := by
        simp only [mul0301, dbl0301num]
        rw [if_neg hq0, if_neg hs53, if_neg hov]
      simp only [zoomDepthVal, hpf, hmul]
      exact congrArg some (round53_floor_core n (n * 5422333951354077)
        (bitlen (n * 5422333951354077))
        (rhe2 (n * 5422333951354077) (bitlen (n * 5422333951354077) - 53) *
          2 ^ (bitlen (n * 5422333951354077) - 53))
        h1 hn rfl hsp (by omega) hs97 rfl)

/-- C6 (amended): the zoom-depth estimate is derived only from the width
field's value string; for a fractional part with N leading zeros (N up to
10^13, where the double-precision product int(N * 0.301) still coincides
with the exact floor), the line reports floor(301*N/1000) alongside the raw
count N; a value string with no dot yields no zoom-depth lines and no
error; a non-dict width, a dict without a value key, and a non-string
value (TypeError, caught) are all swallowed with the lines omitted. -/
theorem c6_amended :
    (∀ N : Nat, N ≤ 10 ^ 13 →
      zoomDepthLines (Json.obj (JObj.cons "value"
          (Json.str (String.mk ('0' :: '.' :: (List.replicate N '0' ++ ['1'])))) JObj.nil)) =
        some ["  Zoom Depth: ~10^".toList ++ natDigs (301 * N / 1000) ++
                " (2^".toList ++ natDigs N ++ [')'],
              "  Precision:  N/A bits".toList]) ∧
    (∀ s : String, s.toList.contains '.' = false →
      ∀ o : JObj, zoomDepthLines (Json.obj (JObj.cons "value" (Json.str s) o)) = some []) ∧
    (∀ j : Json, (∀ o : JObj, j ≠ Json.obj o) → zoomDepthLines j = some []) ∧
    (∀ o : JObj, o.hasKey "value" = false → zoomDepthLines (Json.obj o) = some []) ∧
    (∀ (k : Int) (o : JObj),
      zoomDepthLines (Json.obj (JObj.cons "value" (Json.int k) o)) = some []) := by
  refine ⟨?_, ?_, ?_, ?_, ?_⟩
  · intro N hN
    rw [zoomDepthLines_replicate, zoomVal_floor N hN]
  · intro s hs o
    have hs2 : ¬ '.' ∈ s.data := by simpa using hs
    simp [zoomDepthLines, JObj.hasKey, JObj.lookup, hs2]
  · intro j hj
    cases j with
    | null => rfl
    | bool b => rfl
    | int n => rfl
    | str s => rfl
    | arr a => rfl
    | obj o => exact absurd rfl (hj o)
  · intro o ho
    simp [zoomDepthLines, ho]
  · intro k o
    simp [zoomDepthLines, JObj.hasKey, JObj.lookup]

theorem c6_amended_witness :
    zoomDepthLines (Json.obj (JObj.cons "value"
        (Json.str (String.mk ('0' :: '.' :: (List.replicate 4 '0' ++ ['1'])))) JObj.nil)) =
      some ["  Zoom Depth: ~10^1 (2^4)".toList, "  Precision:  N/A bits".toList] ∧
    zoomDepthLines (Json.obj (JObj.cons "value" (Json.str "101") JObj.nil)) = some [] ∧
    zoomDepthLines (Json.str "x") = some [] ∧
    zoomDepthLines (Json.obj JObj.nil) = some [] ∧
    zoomDepthLines (Json.obj (JObj.cons "value" (Json.int 3) JObj.nil)) = some [] := by
  refine ⟨?_, ?_, ?_, ?_, ?_⟩
  · have h := c6_amended.1 4 (by norm_num)
    rw [h]
    decide
  · exact c6_amended.2.1 "101" (by decide) JObj.nil
  · exact c6_amended.2.2.1 (Json.str "x") (fun o h => Json.noConfusion h)
  · exact c6_amended.2.2.2.1 JObj.nil rfl
  · exact c6_amended.2.2.2.2 3 JObj.nil

/-! ### Exactness of binary_to_decimal (C1, C2) -/

theorem isBit_cases {c : Char} (h : isBit c = true) : c = '0' ∨ c = '1' := by
  simp [isBit] at h
  exact h

theorem bitsValAux_lt : ∀ (l : List Char) (acc : Nat),
    bitsValAux l acc < (acc + 1) * 2 ^ l.length := by
  intro l
  induction l with
  | nil =>
    intro acc
    simp [bitsValAux]
  | cons c rest ih =>
    intro acc
    have h := ih (2 * acc + (if c = '1' then 1 else 0))
    have hb : (if c = '1' then 1 else 0) ≤ 1 := by split_ifs <;> omega
    simp only [bitsValAux, List.length_cons]
    calc bitsValAux rest (2 * acc + (if c = '1' then 1 else 0))
        < (2 * acc + (if c = '1' then 1 else 0) + 1) * 2 ^ rest.length := h
      _ ≤ (2 * (acc + 1)) * 2 ^ rest.length := by
          apply Nat.mul_le_mul_right
          omega
      _ = (acc + 1) * 2 ^ (rest.length + 1) := by ring

theorem binMore_cons0 (rest : List Char) (acc : Nat) :
    binMore ('0' :: rest) acc = binMore rest (2 * acc + 0) := by
  rw [binMore.eq_def]
  split
  · simp_all
  · rename_i c r a heq
    injection heq with h1 h2
    subst h1
    subst h2
    rw [if_neg (by decide : ¬ ('0' : Char) = '_')]
    rw [show bitVal '0' = some 0 from by decide]

theorem binMore_cons1 (rest : List Char) (acc : Nat) :
    binMore ('1' :: rest) acc = binMore rest (2 * acc + 1) := by
  rw [binMore.eq_def]
  split
  · simp_all
  · rename_i c r a heq
    injection heq with h1 h2
    subst h1
    subst h2
    rw [if_neg (by decide : ¬ ('1' : Char) = '_')]
    rw [show bitVal '1' = some 1 from by decide]

theorem binMore_bits : ∀ (l : List Char) (acc : Nat), l.all isBit = true →
    binMore l acc = some (bitsValAux l acc) := by
  intro l
  induction l with
  | nil =>
    intro acc _
    rfl
  | cons c rest ih =>
    intro acc hall
    rw [List.all_cons, Bool.and_eq_true] at hall
    obtain ⟨hc, hrest⟩ := hall
    rcases isBit_cases hc with hc0 | hc1
    · subst hc0
      rw [binMore_cons0, ih _ hrest]
      simp [bitsValAux]
    · subst hc1
      rw [binMore_cons1, ih _ hrest]
      simp [bitsValAux]

theorem binBody_bits (l : List Char) (hne : l ≠ []) (hall : l.all isBit = true) :
    binBody l = some (bitsValAux l 0) := by
  match l with
  | [] => exact absurd rfl hne
  | c :: rest =>
    rw [List.all_cons, Bool.and_eq_true] at hall
    obtain ⟨hc, hrest⟩ := hall
    rcases isBit_cases hc with hc0 | hc1
    · subst hc0
      rw [show binBody ('0' :: rest) = binMore rest 0 by simp [binBody, bitVal], binMore_bits rest 0 hrest]
      simp [bitsValAux]
    · subst hc1
      rw [show binBody ('1' :: rest) = binMore rest 1 by simp [binBody, bitVal], binMore_bits rest 1 hrest]
      simp [bitsValAux]

theorem binUnsigned_bits (l : List Char) (hne : l ≠ []) (hall : l.all isBit = true) :
    binUnsigned l = some (bitsValAux l 0) := by
  match l with
  | [] => exact absurd rfl hne
  | [c] =>
    rw [List.all_cons, Bool.and_eq_true] at hall
    obtain ⟨hc, -⟩ := hall
    rcases isBit_cases hc with hc0 | hc1
    · subst hc0
      decide
    · subst hc1
      decide
  | c :: b :: rest =>
    rw [List.all_cons, Bool.and_eq_true] at hall
    obtain ⟨hc, hall2⟩ := hall
    have hbb : isBit b = true := by
      rw [List.all_cons, Bool.and_eq_true] at hall2
      exact hall2.1
    have hbs : (b = 'b' || b = 'B') = false := by
      rcases isBit_cases hbb with hb0 | hb1
      · rw [hb0]; rfl
      · rw [hb1]; rfl
    rcases isBit_cases hc with hc0 | hc1
    · subst hc0
      rw [show binUnsigned ('0' :: b :: rest) =
        (if b = 'b' || b = 'B' then binAfterTag rest else binBody ('0' :: b :: rest)) from rfl]
      rw [hbs]
      exact binBody_bits ('0' :: b :: rest) (by simp)
        (by rw [List.all_cons, Bool.and_eq_true]; exact ⟨hc, hall2⟩)
    · subst hc1
      rw [show binUnsigned ('1' :: b :: rest) = binBody ('1' :: b :: rest) from rfl]
      exact binBody_bits ('1' :: b :: rest) (by simp)
        (by rw [List.all_cons, Bool.and_eq_true]; exact ⟨hc, hall2⟩)

theorem dropWhile_isPySpace_of_bits (l : List Char) (hall : l.all isBit = true) :
    l.dropWhile isPySpace = l := by
  match l with
  | [] => rfl
  | c :: rest =>
    rw [List.all_cons, Bool.and_eq_true] at hall
    have hns : isPySpace c = false := by
      rcases isBit_cases hall.1 with h0 | h1
      · rw [h0]; rfl
      · rw [h1]; rfl
    rw [List.dropWhile_cons, hns]
    rfl

theorem pyIntBase2_bits (l : List Char) (hne : l ≠ []) (hall : l.all isBit = true) :
    pyIntBase2 l = some (bitsValAux l 0 : Int) := by
  have hstrip : ((l.dropWhile isPySpace).reverse.dropWhile isPySpace).reverse = l := by
    rw [dropWhile_isPySpace_of_bits l hall,
      dropWhile_isPySpace_of_bits l.reverse (by rwa [List.all_reverse]),
      List.reverse_reverse]
  match l with
  | [] => exact absurd rfl hne
  | c :: rest =>
    rw [List.all_cons, Bool.and_eq_true] at hall
    obtain ⟨hc, hrest⟩ := hall
    simp only [pyIntBase2]
    rw [hstrip]
    rcases isBit_cases hc with hc0 | hc1
    · subst hc0
      rw [show (match ('0' :: rest : List Char) with
          | '-' :: rest => (binUnsigned rest).map (fun n => -(n : Int))
          | '+' :: rest => (binUnsigned rest).map (fun n => (n : Int))
          | rest => (binUnsigned rest).map (fun n => (n : Int))) =
          (binUnsigned ('0' :: rest)).map (fun n => (n : Int)) from rfl]
      rw [binUnsigned_bits ('0' :: rest) (by simp) (by rw [List.all_cons, Bool.and_eq_true]; exact ⟨hc, hrest⟩)]
      rfl
    · subst hc1
      rw [show (match ('1' :: rest : List Char) with
          | '-' :: rest => (binUnsigned rest).map (fun n => -(n : Int))
          | '+' :: rest => (binUnsigned rest).map (fun n => (n : Int))
          | rest => (binUnsigned rest).map (fun n => (n : Int))) =
          (binUnsigned ('1' :: rest)).map (fun n => (n : Int)) from rfl]
      rw [binUnsigned_bits _ (by simp) (by rw [List.all_cons, Bool.and_eq_true]; exact ⟨hc, hrest⟩)]
      rfl

theorem toRat_mk_false (a M : Nat) :
    Dec.toRat ⟨false, a, -(M : Int)⟩ = (a : ℚ) / 10 ^ M := by
  simp [Dec.toRat, Dec.signedCoeff, zpow_neg, zpow_natCast, div_eq_mul_inv]

theorem Dec.fix_of_lt (prec : Nat) (d : Dec) (h : d.coeff < 10 ^ prec) :
    Dec.fix prec d = d := by
  simp only [Dec.fix]
  rw [if_pos h]

theorem pow2neg_exact (i : Nat) (hi : i ≤ decPrec) :
    pow2neg decPrec i = ⟨false, 5 ^ i, -(i : Int)⟩ := by
  have h5 : (5 : Nat) ^ i < 10 ^ decPrec :=
    lt_of_le_of_lt (Nat.pow_le_pow_right (by norm_num) hi)
      (Nat.pow_lt_pow_left (by norm_num) (by norm_num [decPrec]))
  simp only [pow2neg]
  exact Dec.fix_of_lt _ _ h5

theorem add_inv_step (m k c : Nat) (hk : 1 ≤ k) (hc : 2 ^ m * c + 10 ^ m ≤ 2 ^ m * 10 ^ m) :
    2 ^ (m + k) * (c * 10 ^ k + 5 ^ (m + k)) + 10 ^ (m + k) ≤ 2 ^ (m + k) * 10 ^ (m + k) := by
  have h25 : 2 ^ (m + k) * 5 ^ (m + k) = 10 ^ (m + k) := by
    rw [← Nat.mul_pow]
  have hx : 2 ≤ 2 ^ k := by
    calc 2 = 2 ^ 1 := (pow_one 2).symm
    _ ≤ 2 ^ k := Nat.pow_le_pow_right (by norm_num) hk
  have hgoal : 2 ^ (m + k) * (c * 10 ^ k + 5 ^ (m + k)) + 10 ^ (m + k)
      = 2 ^ m * c * (2 ^ k * 10 ^ k) + 2 * 10 ^ (m + k) := by
    rw [Nat.mul_add, h25, pow_add]
    ring
  have hR : 2 ^ (m + k) * 10 ^ (m + k) = 2 ^ m * 10 ^ m * (2 ^ k * 10 ^ k) := by
    rw [pow_add, pow_add]
    ring
  have hT : (10 : Nat) ^ (m + k) = 10 ^ m * 10 ^ k := pow_add 10 m k
  rw [hgoal, hR]
  have h1 := Nat.mul_le_mul_right (2 ^ k * 10 ^ k) hc
  rw [Nat.add_mul] at h1
  have h2 : 2 * 10 ^ (m + k) ≤ 10 ^ m * (2 ^ k * 10 ^ k) := by
    rw [hT]
    calc 2 * (10 ^ m * 10 ^ k) ≤ 2 ^ k * (10 ^ m * 10 ^ k) :=
          Nat.mul_le_mul_right _ hx
    _ = 10 ^ m * (2 ^ k * 10 ^ k) := by ring
  omega

theorem add_val_step (m k c : Nat) :
    ((c * 10 ^ k + 5 ^ (m + k) : Nat) : ℚ) / 10 ^ (m + k)
      = (c : ℚ) / 10 ^ m + ((2 : ℚ) ^ (m + k))⁻¹ := by
  have h25 : (2 : ℚ) ^ (m + k) * 5 ^ (m + k) = 10 ^ (m + k) := by
    rw [← mul_pow]
    norm_num
  have h2x : (2 : ℚ) ^ (m + k) ≠ 0 := by positivity
  have h5x : (5 : ℚ) ^ (m + k) ≠ 0 := by positivity
  have h10m : (10 : ℚ) ^ m ≠ 0 := by positivity
  have h10k : (10 : ℚ) ^ k ≠ 0 := by positivity
  have e1 : (c : ℚ) * 10 ^ k / 10 ^ (m + k) = (c : ℚ) / 10 ^ m := by
    rw [pow_add]
    field_simp
    ring
  have e2 : ((5 : ℚ)) ^ (m + k) / 10 ^ (m + k) = ((2 : ℚ) ^ (m + k))⁻¹ := by
    rw [← h25]
    field_simp
    ring
  push_cast
  rw [add_div, e1, e2]

theorem Dec.add_pow2neg (m k c : Nat) (hk : 1 ≤ k) (hprec : m + k ≤ decPrec)
    (hc : 2 ^ m * c + 10 ^ m ≤ 2 ^ m * 10 ^ m) :
    Dec.add decPrec ⟨false, c, -(m : Int)⟩ (pow2neg decPrec (m + k)) =
      ⟨false, c * 10 ^ k + 5 ^ (m + k), -((m + k : Nat) : Int)⟩ := by
  rw [pow2neg_exact _ hprec]
  have hmin : min (-(m : Int)) (-((m + k : Nat) : Int)) = -((m + k : Nat) : Int) := by
    push_cast
    omega
  have hsum : ((c : Int)) * 10 ^ ((-(m : Int) - -((m + k : Nat) : Int)).toNat) +
      (5 ^ (m + k) : Nat) * 10 ^ ((-((m + k : Nat) : Int) - -((m + k : Nat) : Int)).toNat) =
      ((c * 10 ^ k + 5 ^ (m + k) : Nat) : Int) := by
    have e1 : (-(m : Int) - -((m + k : Nat) : Int)).toNat = k := by
      push_cast
      omega
    have e2 : (-((m + k : Nat) : Int) - -((m + k : Nat) : Int)).toNat = 0 := by
      omega
    rw [e1, e2]
    push_cast
    ring
  have haddex : Dec.addExact ⟨false, c, -(m : Int)⟩ ⟨false, 5 ^ (m + k), -((m + k : Nat) : Int)⟩
      = ⟨false, c * 10 ^ k + 5 ^ (m + k), -((m + k : Nat) : Int)⟩ := by
    simp only [Dec.addExact, Dec.signedCoeff, Bool.false_eq_true, if_false, hmin, hsum]
    have hpos : ¬ (((c * 10 ^ k + 5 ^ (m + k) : Nat) : Int) < 0) :=
      not_lt.mpr (Int.natCast_nonneg _)
    have hz : ¬ (((c * 10 ^ k + 5 ^ (m + k) : Nat) : Int) = 0) := by
      have h5 : 0 < 5 ^ (m + k) := Nat.pos_pow_of_pos _ (by norm_num)
      intro hcon
      rw [Int.natCast_eq_zero] at hcon
      omega
    rw [if_neg hpos, if_neg hz]
    rw [Int.toNat_natCast]
  rw [Dec.add, haddex]
  apply Dec.fix_of_lt
  have hinv := add_inv_step m k c hk hc
  have hlt : c * 10 ^ k + 5 ^ (m + k) < 10 ^ (m + k) := by
    have h1 : 1 ≤ 10 ^ (m + k) := Nat.one_le_pow _ _ (by norm_num)
    have h2 : 2 ^ (m + k) * (c * 10 ^ k + 5 ^ (m + k)) < 2 ^ (m + k) * 10 ^ (m + k) := by
      omega
    exact Nat.lt_of_mul_lt_mul_left h2
  exact lt_of_lt_of_le hlt (Nat.pow_le_pow_right (by norm_num) hprec)

theorem fracLoop_spec : ∀ (l : List Char) (i m c : Nat),
    m < i → i - 1 + l.length ≤ decPrec →
    2 ^ m * c + 10 ^ m ≤ 2 ^ m * 10 ^ m →
    ∃ M C : Nat,
      fracLoop decPrec l i ⟨false, c, -(m : Int)⟩ = ⟨false, C, -(M : Int)⟩ ∧
      m ≤ M ∧ M < i + l.length ∧ (2 ^ M * C + 10 ^ M ≤ 2 ^ M * 10 ^ M) ∧
      (C : ℚ) / 10 ^ M = (c : ℚ) / 10 ^ m + specFracSum l i := by
  intro l
  induction l with
  | nil =>
    intro i m c hmi hlen hc
    refine ⟨m, c, rfl, le_rfl, by simpa using hmi, hc, by simp [specFracSum]⟩
  | cons ch rest ih =>
    intro i m c hmi hlen hc
    by_cases h1 : ch = '1'
    · subst h1
      have hik : i = m + (i - m) := by omega
      have hstep : fracLoop decPrec ('1' :: rest) i ⟨false, c, -(m : Int)⟩ =
          fracLoop decPrec rest (i + 1)
            (Dec.add decPrec ⟨false, c, -(m : Int)⟩ (pow2neg decPrec i)) := by
        simp [fracLoop]
      rw [hstep]
      rw [hik]
      have hadd := Dec.add_pow2neg m (i - m) c (by omega)
        (by simp at hlen; omega) hc
      rw [hadd]
      have hinv := add_inv_step m (i - m) c (by omega) hc
      obtain ⟨M, C, heq, hmM, hMlt, hCb, hval⟩ :=
        ih (m + (i - m) + 1) (m + (i - m)) (c * 10 ^ (i - m) + 5 ^ (m + (i - m)))
          (by omega) (by simp at hlen ⊢; omega) hinv
      refine ⟨M, C, heq, by omega, by simp at hMlt ⊢; omega, hCb, ?_⟩
      rw [hval, add_val_step]
      have hsf : specFracSum ('1' :: rest) (m + (i - m)) =
          ((2 : ℚ) ^ (m + (i - m)))⁻¹ + specFracSum rest (m + (i - m) + 1) := by
        simp [specFracSum]
      rw [hsf]
      ring
    · have hstep : fracLoop decPrec (ch :: rest) i ⟨false, c, -(m : Int)⟩ =
          fracLoop decPrec rest (i + 1) ⟨false, c, -(m : Int)⟩ := by
        simp [fracLoop, h1]
      rw [hstep]
      obtain ⟨M, C, heq, hmM, hMlt, hCb, hval⟩ :=
        ih (i + 1) m c (by omega) (by simp at hlen ⊢; omega) hc
      refine ⟨M, C, heq, hmM, by simp at hMlt ⊢; omega, hCb, ?_⟩
      rw [hval]
      have hsf : specFracSum (ch :: rest) i = 0 + specFracSum rest (i + 1) := by
        simp [specFracSum, h1]
      rw [hsf]
      ring

theorem toRat_mk_true (a M : Nat) :
    Dec.toRat ⟨true, a, -(M : Int)⟩ = -((a : ℚ) / 10 ^ M) := by
  simp [Dec.toRat, Dec.signedCoeff, zpow_neg, zpow_natCast, div_eq_mul_inv]

theorem all_bit_of_no_dot : ∀ l : List Char,
    l.all (fun c => isBit c || c = '.') = true → l.count '.' = 0 → l.all isBit = true := by
  intro l
  induction l with
  | nil =>
    intro _ _
    rfl
  | cons c rest ih =>
    intro hall hcount
    rw [List.all_cons, Bool.and_eq_true] at hall
    rw [List.count_cons] at hcount
    rw [List.all_cons, Bool.and_eq_true]
    have hcd : ¬ c = '.' := by
      intro hc
      simp [hc] at hcount
    refine ⟨?_, ih hall.2 (by omega)⟩
    rcases Bool.or_eq_true_iff.mp hall.1 with hb | hd
    · exact hb
    · exact absurd (of_decide_eq_true hd) hcd

theorem splitDotAux_all_fst : ∀ (cs acc : List Char),
    cs.all (fun c => isBit c || c = '.') = true → acc.all isBit = true →
    (splitDotAux cs acc).1.all isBit = true := by
  intro cs
  induction cs with
  | nil =>
    intro acc _ hacc
    simp only [splitDotAux]
    rwa [List.all_reverse]
  | cons c rest ih =>
    intro acc hall hacc
    rw [List.all_cons, Bool.and_eq_true] at hall
    by_cases hc : c = '.'
    · simp only [splitDotAux, if_pos hc]
      rwa [List.all_reverse]
    · simp only [splitDotAux, if_neg hc]
      apply ih _ hall.2
      rw [List.all_cons, Bool.and_eq_true]
      refine ⟨?_, hacc⟩
      rcases Bool.or_eq_true_iff.mp hall.1 with hb | hd
      · exact hb
      · exact absurd (of_decide_eq_true hd) hc

theorem splitDotAux_all_snd : ∀ (cs acc : List Char),
    cs.all (fun c => isBit c || c = '.') = true → cs.count '.' ≤ 1 →
    (splitDotAux cs acc).2.1.all isBit = true := by
  intro cs
  induction cs with
  | nil =>
    intro acc _ _
    rfl
  | cons c rest ih =>
    intro acc hall hcount
    rw [List.all_cons, Bool.and_eq_true] at hall
    rw [List.count_cons] at hcount
    by_cases hc : c = '.'
    · simp only [splitDotAux, if_pos hc]
      apply all_bit_of_no_dot rest hall.2
      simp [hc] at hcount
      omega
    · simp only [splitDotAux, if_neg hc]
      apply ih _ hall.2
      have : ¬ (c == '.') = true := by
        simpa using hc
      simp [this] at hcount
      omega

theorem Dec.ofInt_natCast (n : Nat) : Dec.ofInt (n : Int) = ⟨false, n, 0⟩ := by
  rw [Dec.ofInt, Int.natAbs_ofNat, decide_eq_false (not_lt.mpr (Int.natCast_nonneg n))]

theorem Dec.add_int_frac (n C M : Nat) (hfit : n * 10 ^ M + C < 10 ^ decPrec) :
    Dec.add decPrec ⟨false, n, 0⟩ ⟨false, C, -(M : Int)⟩ =
      ⟨false, n * 10 ^ M + C, -(M : Int)⟩ := by
  have hmin : min (0 : Int) (-(M : Int)) = -(M : Int) := by omega
  have e1 : ((0 : Int) - -(M : Int)).toNat = M := by omega
  have e2 : (-(M : Int) - -(M : Int)).toNat = 0 := by omega
  have hcast : ((n : Int)) * 10 ^ M + (C : Int) = ((n * 10 ^ M + C : Nat) : Int) := by
    push_cast
    ring
  have haddex : Dec.addExact ⟨false, n, 0⟩ ⟨false, C, -(M : Int)⟩
      = ⟨false, n * 10 ^ M + C, -(M : Int)⟩ := by
    simp only [Dec.addExact, Dec.signedCoeff, Bool.false_eq_true, if_false, hmin, e1, e2,
      pow_zero, mul_one, hcast]
    rw [if_neg (not_lt.mpr (Int.natCast_nonneg _))]
    by_cases hz : n * 10 ^ M + C = 0
    · rw [if_pos (by exact_mod_cast hz)]
      simp [hz]
    · rw [if_neg (by exact_mod_cast hz)]
      rw [Int.toNat_natCast]
  rw [Dec.add, haddex]
  exact Dec.fix_of_lt _ _ hfit

theorem Dec.toRat_pyNeg (d : Dec) (h : d.coeff < 10 ^ decPrec) :
    (Dec.pyNeg decPrec d).toRat = -(d.toRat) := by
  rw [Dec.pyNeg]
  by_cases hz : d.coeff = 0
  · rw [if_pos hz, Dec.fix_of_lt _ _ (by simpa using h)]
    simp [Dec.toRat, Dec.signedCoeff, hz]
  · rw [if_neg hz, Dec.fix_of_lt _ _ (by simpa using h)]
    cases hneg : d.neg <;>
      simp [Dec.toRat, Dec.signedCoeff, hneg]

theorem b2d_exact (cs : List Char) (hwf : isBinFrac cs = true)
    (hlen : (ipOf cs).length + (fpOf cs).length ≤ decPrec) :
    (b2d (String.mk cs)).map Dec.toRat = some (specValue cs) := by
  rw [show b2d (String.mk cs) = binary_to_decimal_core cs from rfl]
  by_cases hemp : cs = []
  · subst hemp
    rw [show binary_to_decimal_core [] = some ⟨false, 0, 0⟩ from rfl]
    rw [show specValue [] = 0 from by
      norm_num [specValue, ipOf, fpOf, stripSign, isNegLead, splitDotAux, bitsValAux,
        specFracSum, listStartsWith, lswAux]]
    simp [Dec.toRat, Dec.signedCoeff]
  · have hie : cs.isEmpty = false := by
      rcases cs with _ | ⟨c, rest⟩
      · exact absurd rfl hemp
      · rfl
    have hwb : isBinFracBody (stripSign cs) = true := hwf
    rw [isBinFracBody, Bool.and_eq_true] at hwb
    obtain ⟨hall, hcnt⟩ := hwb
    have hcount : (stripSign cs).count '.' ≤ 1 := of_decide_eq_true hcnt
    have hip_bits : (ipOf cs).all isBit = true := by
      rw [ipOf]
      exact splitDotAux_all_fst _ [] hall rfl
    have hfp_bits : (fpOf cs).all isBit = true := by
      rw [fpOf]
      exact splitDotAux_all_snd _ [] hall hcount
    have hnegdef : listStartsWith cs ['-'] = isNegLead cs := by
      rw [isNegLead]
    have hstrip : (if isNegLead cs = true then cs.tail else cs) = stripSign cs := by
      rw [stripSign]
    have hipdef : (splitDotAux (stripSign cs) []).1 = ipOf cs := by
      rw [ipOf]
    have hfpdef : (splitDotAux (stripSign cs) []).2.1 = fpOf cs := by
      rw [fpOf]
    have hNlt : bitsValAux (ipOf cs) 0 + 1 ≤ 2 ^ (ipOf cs).length := by
      have h := bitsValAux_lt (ipOf cs) 0
      simpa using h
    have hbase : (if (ipOf cs).isEmpty then some (⟨false, 0, 0⟩ : Dec)
        else (pyIntBase2 (ipOf cs)).map Dec.ofInt) =
        some ⟨false, bitsValAux (ipOf cs) 0, 0⟩ := by
      by_cases hipe : (ipOf cs).isEmpty = true
      · rw [if_pos hipe]
        have hnil : ipOf cs = [] := by
          rwa [List.isEmpty_iff] at hipe
        rw [hnil]
        rfl
      · rw [if_neg hipe]
        have hne : ipOf cs ≠ [] := by
          intro hcon
          exact hipe (by rw [hcon]; rfl)
        rw [pyIntBase2_bits _ hne hip_bits]
        rw [show (some ((bitsValAux (ipOf cs) 0 : Nat) : Int)).map Dec.ofInt =
          some (Dec.ofInt ((bitsValAux (ipOf cs) 0 : Nat) : Int)) from rfl]
        rw [Dec.ofInt_natCast]
    simp only [binary_to_decimal_core, hie, Bool.false_eq_true, if_false, hstrip, hnegdef,
      hipdef, hfpdef, hbase, Option.map_some']
    simp only [specValue, hipdef, hfpdef]
    have hNp : bitsValAux (ipOf cs) 0 < 10 ^ decPrec := by
      have h1 : (2 : Nat) ^ (ipOf cs).length ≤ 10 ^ (ipOf cs).length :=
        Nat.pow_le_pow_left (by norm_num) _
      have h2 : (10 : Nat) ^ (ipOf cs).length ≤ 10 ^ decPrec :=
        Nat.pow_le_pow_right (by norm_num) (by omega)
      omega
    by_cases hfpe : (fpOf cs).isEmpty = true
    · have hfnil : fpOf cs = [] := by
        rwa [List.isEmpty_iff] at hfpe
      rw [hfnil]
      simp only [List.isEmpty_nil, if_true, specFracSum]
      by_cases hneg : isNegLead cs = true
      · rw [if_pos hneg, if_pos hneg]
        rw [Dec.toRat_pyNeg _ hNp]
        rw [show Dec.toRat ⟨false, bitsValAux (ipOf cs) 0, 0⟩ =
          (bitsValAux (ipOf cs) 0 : ℚ) from by simp [Dec.toRat, Dec.signedCoeff]]
        norm_num
      · rw [if_neg hneg, if_neg hneg]
        rw [show Dec.toRat ⟨false, bitsValAux (ipOf cs) 0, 0⟩ =
          (bitsValAux (ipOf cs) 0 : ℚ) from by simp [Dec.toRat, Dec.signedCoeff]]
        norm_num
    · have hfne : fpOf cs ≠ [] := by
        intro hcon
        exact hfpe (by rw [hcon]; rfl)
      obtain ⟨M, C, heq, hmM, hMlt, hCb, hval⟩ := fracLoop_spec (fpOf cs) 1 0 0 (by omega)
        (by omega) (by norm_num)
      have hacc0 : (⟨false, 0, 0⟩ : Dec) = ⟨false, 0, -((0 : Nat) : Int)⟩ := by simp
      rw [if_neg hfpe]
      rw [hacc0, heq]
      have hC : C < 10 ^ M := by
        have h1 : 1 ≤ (10 : Nat) ^ M := Nat.one_le_pow _ _ (by norm_num)
        have h2 : 2 ^ M * C < 2 ^ M * 10 ^ M := by omega
        exact Nat.lt_of_mul_lt_mul_left h2
      have hfit : bitsValAux (ipOf cs) 0 * 10 ^ M + C < 10 ^ decPrec := by
        have h1 : bitsValAux (ipOf cs) 0 * 10 ^ M + C <
            (bitsValAux (ipOf cs) 0 + 1) * 10 ^ M := by
          rw [Nat.add_mul]
          omega
        have h2 : (bitsValAux (ipOf cs) 0 + 1) * 10 ^ M ≤
            2 ^ (ipOf cs).length * 10 ^ M := Nat.mul_le_mul_right _ hNlt
        have h3 : (2 : Nat) ^ (ipOf cs).length * 10 ^ M ≤
            10 ^ (ipOf cs).length * 10 ^ M :=
          Nat.mul_le_mul_right _ (Nat.pow_le_pow_left (by norm_num) _)
        have h4 : (10 : Nat) ^ (ipOf cs).length * 10 ^ M = 10 ^ ((ipOf cs).length + M) :=
          (pow_add 10 _ _).symm
        have h5 : (10 : Nat) ^ ((ipOf cs).length + M) ≤ 10 ^ decPrec :=
          Nat.pow_le_pow_right (by norm_num) (by omega)
        omega
      rw [Dec.add_int_frac _ _ _ hfit]
      have htor : Dec.toRat ⟨false, bitsValAux (ipOf cs) 0 * 10 ^ M + C, -(M : Int)⟩ =
          (bitsValAux (ipOf cs) 0 : ℚ) + specFracSum (fpOf cs) 1 := by
        rw [toRat_mk_false]
        have hv : (C : ℚ) / 10 ^ M = specFracSum (fpOf cs) 1 := by
          rw [hval]
          norm_num
        rw [← hv]
        have h10 : (10 : ℚ) ^ M ≠ 0 := by positivity
        push_cast
        field_simp
      by_cases hneg : isNegLead cs = true
      · rw [if_pos hneg, if_pos hneg]
        rw [Dec.toRat_pyNeg _ hfit]
        rw [htor]
      · rw [if_neg hneg, if_neg hneg]
        rw [htor]

theorem Dec.fix_neg_eq (prec : Nat) (d : Dec) : (Dec.fix prec d).neg = d.neg := by
  simp only [Dec.fix]
  split_ifs <;> rfl

theorem Dec.addExact_neg_false (a b : Dec) (ha : a.neg = false) (hb : b.neg = false) :
    (Dec.addExact a b).neg = false := by
  simp only [Dec.addExact, Dec.signedCoeff, ha, hb, Bool.false_eq_true, if_false]
  have h1 : ¬ ((a.coeff : Int) * 10 ^ ((a.exp - min a.exp b.exp).toNat) +
      (b.coeff : Int) * 10 ^ ((b.exp - min a.exp b.exp).toNat) < 0) := by
    push_neg
    positivity
  rw [if_neg h1]
  split_ifs <;> rfl

theorem fracLoop_neg_false (prec : Nat) : ∀ (l : List Char) (i : Nat) (acc : Dec),
    acc.neg = false → (fracLoop prec l i acc).neg = false := by
  intro l
  induction l with
  | nil =>
    intro i acc h
    exact h
  | cons c rest ih =>
    intro i acc h
    simp only [fracLoop]
    apply ih
    split_ifs with h1
    · rw [Dec.add, Dec.fix_neg_eq]
      exact Dec.addExact_neg_false _ _ h (by rw [pow2neg, Dec.fix_neg_eq])
    · exact h

theorem toRat_nonneg_of_neg_false (d : Dec) (h : d.neg = false) : 0 ≤ d.toRat := by
  rw [Dec.toRat, Dec.signedCoeff, h]
  simp only [Bool.false_eq_true, if_false]
  positivity

theorem b2d_neg_false (cs : List Char) (hwf : isBinFrac cs = true)
    (hnegl : isNegLead cs = false) :
    ∀ d : Dec, b2d (String.mk cs) = some d → d.neg = false := by
  intro d hd
  rw [show b2d (String.mk cs) = binary_to_decimal_core cs from rfl] at hd
  by_cases hemp : cs = []
  · subst hemp
    rw [show binary_to_decimal_core [] = some ⟨false, 0, 0⟩ from rfl] at hd
    rw [← Option.some.inj hd]
  · have hie : cs.isEmpty = false := by
      rcases cs with _ | ⟨c, rest⟩
      · exact absurd rfl hemp
      · rfl
    have hwb : isBinFracBody (stripSign cs) = true := hwf
    rw [isBinFracBody, Bool.and_eq_true] at hwb
    obtain ⟨hall, hcnt⟩ := hwb
    have hip_bits : (ipOf cs).all isBit = true := by
      rw [ipOf]
      exact splitDotAux_all_fst _ [] hall rfl
    have hnegdef : listStartsWith cs ['-'] = isNegLead cs := by
      rw [isNegLead]
    have hstrip : (if isNegLead cs = true then cs.tail else cs) = stripSign cs := by
      rw [stripSign]
    have hipdef : (splitDotAux (stripSign cs) []).1 = ipOf cs := by
      rw [ipOf]
    have hfpdef : (splitDotAux (stripSign cs) []).2.1 = fpOf cs := by
      rw [fpOf]
    have hbase : (if (ipOf cs).isEmpty then some (⟨false, 0, 0⟩ : Dec)
        else (pyIntBase2 (ipOf cs)).map Dec.ofInt) =
        some ⟨false, bitsValAux (ipOf cs) 0, 0⟩ := by
      by_cases hipe : (ipOf cs).isEmpty = true
      · rw [if_pos hipe]
        have hnil : ipOf cs = [] := by
          rwa [List.isEmpty_iff] at hipe
        rw [hnil]
        rfl
      · rw [if_neg hipe]
        have hne : ipOf cs ≠ [] := by
          intro hcon
          exact hipe (by rw [hcon]; rfl)
        rw [pyIntBase2_bits _ hne hip_bits]
        rw [show (some ((bitsValAux (ipOf cs) 0 : Nat) : Int)).map Dec.ofInt =
          some (Dec.ofInt ((bitsValAux (ipOf cs) 0 : Nat) : Int)) from rfl]
        rw [Dec.ofInt_natCast]
    simp only [binary_to_decimal_core, hie, Bool.false_eq_true, if_false, hnegdef, hnegl] at hd
    have hssid : stripSign cs = cs := by
      rw [stripSign, hnegl]
      simp
    have hip2 : (splitDotAux cs []).1 = ipOf cs := by
      rw [ipOf, hssid]
    have hfp2 : (splitDotAux cs []).2.1 = fpOf cs := by
      rw [fpOf, hssid]
    rw [hip2, hfp2, hbase, Option.map_some'] at hd
    rw [← Option.some.inj hd]
    by_cases hfpe : (fpOf cs).isEmpty = true
    · rw [if_pos hfpe]
    · rw [if_neg hfpe]
      rw [Dec.add, Dec.fix_neg_eq]
      exact Dec.addExact_neg_false _ _ rfl (fracLoop_neg_false _ _ _ _ rfl)

theorem specValue_cons_neg (cs : List Char) (h : isNegLead cs = false) :
    specValue ('-' :: cs) = -specValue cs := by
  have h1 : isNegLead ('-' :: cs) = true := rfl
  have h2 : stripSign ('-' :: cs) = cs := by
    rw [stripSign, if_pos h1]
    rfl
  have h3 : stripSign cs = cs := by
    rw [stripSign, h]
    simp
  simp only [specValue, ipOf, fpOf, h1, h2, h3, h, if_true, Bool.false_eq_true, if_false]

theorem bitsValAux_replicate_one : ∀ (n acc : Nat),
    bitsValAux (List.replicate n '1') acc = acc * 2 ^ n + (2 ^ n - 1) := by
  intro n
  induction n with
  | zero =>
    intro acc
    simp [bitsValAux]
  | succ m ih =>
    intro acc
    rw [List.replicate_succ]
    simp only [bitsValAux, if_pos rfl]
    rw [ih]
    have h1 : (1 : Nat) ≤ 2 ^ m := Nat.one_le_two_pow
    have h2 : (1 : Nat) ≤ 2 ^ m * 2 := by omega
    rw [pow_succ]
    zify [h1, h2]
    simp
    ring

theorem splitDotAux_no_dot : ∀ (l acc : List Char), l.all isBit = true →
    splitDotAux l acc = (acc.reverse ++ l, [], false) := by
  intro l
  induction l with
  | nil =>
    intro acc _
    simp [splitDotAux]
  | cons c rest ih =>
    intro acc hall
    rw [List.all_cons, Bool.and_eq_true] at hall
    have hcd : ¬ c = '.' := by
      rcases isBit_cases hall.1 with h0 | h1
      · rw [h0]; decide
      · rw [h1]; decide
    simp only [splitDotAux, if_neg hcd]
    rw [ih _ hall.2]
    simp

theorem core_all_ones (m : Nat) :
    binary_to_decimal_core (List.replicate (m + 1) '1') = some ⟨false, 2 ^ (m + 1) - 1, 0⟩ := by
  rw [List.replicate_succ]
  have hie : ('1' :: List.replicate m '1').isEmpty = false := rfl
  have hneg : listStartsWith ('1' :: List.replicate m '1') ['-'] = false := rfl
  have hall : ('1' :: List.replicate m '1').all isBit = true := by
    rw [List.all_eq_true]
    intro x hx
    rcases List.mem_cons.mp hx with h | h
    · rw [h]; rfl
    · rw [List.eq_of_mem_replicate h]; rfl
  have hsplit : splitDotAux ('1' :: List.replicate m '1') [] =
      ('1' :: List.replicate m '1', [], false) := by
    have h := splitDotAux_no_dot ('1' :: List.replicate m '1') [] hall
    simpa using h
  have hbv : bitsValAux ('1' :: List.replicate m '1') 0 = 2 ^ (m + 1) - 1 := by
    rw [← List.replicate_succ]
    rw [bitsValAux_replicate_one]
    simp
  have hparse : pyIntBase2 ('1' :: List.replicate m '1') =
      some ((2 ^ (m + 1) - 1 : Nat) : Int) := by
    rw [pyIntBase2_bits _ (by simp) hall, hbv]
  simp only [binary_to_decimal_core, hie, Bool.false_eq_true, if_false, hneg, hsplit, hparse,
    List.isEmpty_cons, List.isEmpty_nil, if_true, Option.map_some', Dec.ofInt_natCast]

theorem core_neg_ones (m : Nat) :
    binary_to_decimal_core ('-' :: List.replicate (m + 1) '1') =
      some (Dec.pyNeg decPrec ⟨false, 2 ^ (m + 1) - 1, 0⟩) := by
  have hie : ('-' :: List.replicate (m + 1) '1').isEmpty = false := rfl
  have hneg : listStartsWith ('-' :: List.replicate (m + 1) '1') ['-'] = true := rfl
  have hall : (List.replicate (m + 1) '1').all isBit = true := by
    rw [List.all_eq_true]
    intro x hx
    rw [List.eq_of_mem_replicate hx]
    rfl
  have hsplit : splitDotAux (List.replicate (m + 1) '1') [] =
      (List.replicate (m + 1) '1', [], false) := by
    have h := splitDotAux_no_dot (List.replicate (m + 1) '1') [] hall
    simpa using h
  have hbv : bitsValAux (List.replicate (m + 1) '1') 0 = 2 ^ (m + 1) - 1 := by
    rw [bitsValAux_replicate_one]
    simp
  have hparse : pyIntBase2 (List.replicate (m + 1) '1') =
      some ((2 ^ (m + 1) - 1 : Nat) : Int) := by
    rw [pyIntBase2_bits _ (by simp [List.replicate_succ]) hall, hbv]
  have hne : (List.replicate (m + 1) '1').isEmpty = false := by
    rw [List.replicate_succ]
    rfl
  simp only [binary_to_decimal_core, hie, Bool.false_eq_true, if_false, hneg, if_true,
    List.tail_cons, hsplit, hparse, hne, List.isEmpty_nil, Option.map_some', Dec.ofInt_natCast]

/-- C2: negation through the converter is not exact negation once the
integer part carries more than 1000 significant digits: for s = 3322 ones,
convert(s) is 2^3322 - 1 exactly, but convert("-" + s) is the half-even
rounding of its negation to 1000 digits, a different value. -/
theorem c2_counterexample :
    (b2d (String.mk ('-' :: List.replicate 3322 '1'))).map Dec.toRat ≠
      (b2d (String.mk (List.replicate 3322 '1'))).map (fun d => -d.toRat) := by
  have h1 : b2d (String.mk (List.replicate 3322 '1')) = some ⟨false, 2 ^ 3322 - 1, 0⟩ := by
    rw [show b2d (String.mk (List.replicate 3322 '1')) =
      binary_to_decimal_core (List.replicate 3322 '1') from rfl]
    rw [show (3322 : Nat) = 3321 + 1 from rfl]
    exact core_all_ones 3321
  have h2 : b2d (String.mk ('-' :: List.replicate 3322 '1')) =
      some (Dec.pyNeg decPrec ⟨false, 2 ^ 3322 - 1, 0⟩) := by
    rw [show b2d (String.mk ('-' :: List.replicate 3322 '1')) =
      binary_to_decimal_core ('-' :: List.replicate 3322 '1') from rfl]
    rw [show (3322 : Nat) = 3321 + 1 from rfl]
    exact core_neg_ones 3321
  have hfix : Dec.pyNeg decPrec ⟨false, 2 ^ 3322 - 1, 0⟩ =
      ⟨true, (2 ^ 3322 - 1) / 10, 1⟩ := by decide
  rw [h1, h2, hfix]
  simp only [Option.map_some', ne_eq, Option.some.injEq]
  rw [show Dec.toRat ⟨true, (2 ^ 3322 - 1) / 10, 1⟩ =
    -((((2 ^ 3322 - 1) / 10 : Nat) : ℚ) * 10) from by
      simp [Dec.toRat, Dec.signedCoeff]
      push_cast
      ring]
  rw [show Dec.toRat ⟨false, 2 ^ 3322 - 1, 0⟩ = ((2 ^ 3322 - 1 : Nat) : ℚ) from by
      simp [Dec.toRat, Dec.signedCoeff]]
  intro hcon
  rw [neg_inj] at hcon
  have hnat : ((2 ^ 3322 - 1) / 10 : Nat) * 10 = (2 ^ 3322 - 1 : Nat) := by
    exact_mod_cast hcon
  exact absurd hnat (by decide)

/-- C2 (amended): for well-formed binary-fraction strings without a leading
sign the converted value is nonnegative, and prefixing a minus negates the
value exactly as long as no context rounding occurs (integer-part digits
plus fractional-part digits at most 1000); beyond that bound the negated
path rounds (see the counterexample). -/
theorem c2_amended :
    (∀ cs : List Char, isBinFrac cs = true → isNegLead cs = false →
      ∀ d : Dec, b2d (String.mk cs) = some d → 0 ≤ d.toRat) ∧
    (∀ cs : List Char, isBinFrac cs = true → isNegLead cs = false →
      (ipOf cs).length + (fpOf cs).length ≤ decPrec →
      (b2d (String.mk ('-' :: cs))).map Dec.toRat =
        (b2d (String.mk cs)).map (fun d => -d.toRat)) := by
  constructor
  · intro cs hwf hneg d hd
    exact toRat_nonneg_of_neg_false d (b2d_neg_false cs hwf hneg d hd)
  · intro cs hwf hneg hlen
    have hss : stripSign cs = cs := by
      rw [stripSign, hneg]
      simp
    have hss2 : stripSign ('-' :: cs) = cs := by
      rw [stripSign, if_pos (show isNegLead ('-' :: cs) = true from rfl)]
      rfl
    have hwf2 : isBinFrac ('-' :: cs) = true := by
      rw [isBinFrac, hss2]
      rw [isBinFrac, hss] at hwf
      exact hwf
    have hip : ipOf ('-' :: cs) = ipOf cs := by
      rw [ipOf, ipOf, hss, hss2]
    have hfp : fpOf ('-' :: cs) = fpOf cs := by
      rw [fpOf, fpOf, hss, hss2]
    have hlen2 : (ipOf ('-' :: cs)).length + (fpOf ('-' :: cs)).length ≤ decPrec := by
      rw [hip, hfp]
      exact hlen
    have h1 := b2d_exact ('-' :: cs) hwf2 hlen2
    have h2 := b2d_exact cs hwf hlen
    rcases hb : b2d (String.mk cs) with _ | d0
    · rw [hb] at h2
      simp at h2
    · rw [hb] at h2
      rw [Option.map_some'] at h2
      rw [h1, Option.map_some']
      rw [specValue_cons_neg cs hneg]
      rw [Option.some.inj h2]

theorem c2_amended_witness :
    (0 : ℚ) ≤ (Dec.mk false 5 0).toRat ∧
    (b2d (String.mk ('-' :: ['1', '.', '1']))).map Dec.toRat =
      (b2d (String.mk ['1', '.', '1'])).map (fun d => -d.toRat) := by
  constructor
  · exact c2_amended.1 ['1', '0', '1'] (by decide) (by decide) ⟨false, 5, 0⟩ (by decide)
  · exact c2_amended.2 ['1', '.', '1'] (by decide) (by decide) (by decide)

theorem fracLoop_replicate_zero (prec : Nat) : ∀ (n : Nat) (l : List Char) (i : Nat) (acc : Dec),
    fracLoop prec (List.replicate n '0' ++ l) i acc = fracLoop prec l (i + n) acc := by
  intro n
  induction n with
  | zero =>
    intro l i acc
    rfl
  | succ m ih =>
    intro l i acc
    rw [List.replicate_succ, List.cons_append]
    simp only [fracLoop, if_neg (by decide : ¬ ('0' : Char) = '1')]
    rw [ih]
    have he : i + 1 + m = i + (m + 1) := by omega
    rw [he]

theorem specFracSum_replicate_zero : ∀ (n : Nat) (l : List Char) (i : Nat),
    specFracSum (List.replicate n '0' ++ l) i = specFracSum l (i + n) := by
  intro n
  induction n with
  | zero =>
    intro l i
    rfl
  | succ m ih =>
    intro l i
    rw [List.replicate_succ, List.cons_append]
    simp only [specFracSum, if_neg (by decide : ¬ ('0' : Char) = '1')]
    rw [ih]
    have he : i + 1 + m = i + (m + 1) := by omega
    rw [he, zero_add]

theorem Dec.addExact_mk (c a m M : Nat) (hmM : m ≤ M) (hpos : 0 < c * 10 ^ (M - m) + a) :
    Dec.addExact ⟨false, c, -(m : Int)⟩ ⟨false, a, -(M : Int)⟩ =
      ⟨false, c * 10 ^ (M - m) + a, -(M : Int)⟩ := by
  have hmin : min (-(m : Int)) (-(M : Int)) = -(M : Int) := by omega
  have e1 : (-(m : Int) - -(M : Int)).toNat = M - m := by omega
  have e2 : (-(M : Int) - -(M : Int)).toNat = 0 := by omega
  have hcast : ((c : Int)) * 10 ^ (M - m) + (a : Int) = ((c * 10 ^ (M - m) + a : Nat) : Int) := by
    push_cast
    ring
  simp only [Dec.addExact, Dec.signedCoeff, Bool.false_eq_true, if_false, hmin, e1, e2,
    pow_zero, mul_one, hcast]
  rw [if_neg (not_lt.mpr (Int.natCast_nonneg _))]
  rw [if_neg (by exact_mod_cast Nat.pos_iff_ne_zero.mp hpos)]
  rw [Int.toNat_natCast]

theorem fracLoop_cons_one (prec i : Nat) (l : List Char) (acc : Dec) :
    fracLoop prec ('1' :: l) i acc =
      fracLoop prec l (i + 1) (Dec.add prec acc (pow2neg prec i)) := by
  simp only [fracLoop, if_pos rfl]
  simp

theorem fracLoop_nil (prec i : Nat) (acc : Dec) : fracLoop prec [] i acc = acc := rfl

theorem specFracSum_cons_one (l : List Char) (i : Nat) :
    specFracSum ('1' :: l) i = ((2 : ℚ) ^ i)⁻¹ + specFracSum l (i + 1) := by
  simp only [specFracSum, if_pos rfl]
  simp

/-- C1: the claimed exact-formula semantics fails for long fractional
parts: with bits at positions 1 and 1001 the 1001-digit exact sum is
rounded half-even to the 1000-digit context precision, so the returned
value differs from the formula value 2^-1 + 2^-1001. -/
theorem c1_counterexample :
    (b2d (String.mk ('0' :: '.' :: '1' :: (List.replicate 999 '0' ++ ['1'])))).map Dec.toRat ≠
      some (specValue ('0' :: '.' :: '1' :: (List.replicate 999 '0' ++ ['1']))) := by
  have hneg : listStartsWith ('0' :: '.' :: '1' :: (List.replicate 999 '0' ++ ['1'])) ['-']
      = false := rfl
  have hie : ('0' :: '.' :: '1' :: (List.replicate 999 '0' ++ ['1'])).isEmpty = false := rfl
  have hsplit : splitDotAux ('0' :: '.' :: '1' :: (List.replicate 999 '0' ++ ['1'])) [] =
      (['0'], '1' :: (List.replicate 999 '0' ++ ['1']), true) := by
    simp [splitDotAux]
  have hacc1 : Dec.add decPrec ⟨false, 0, 0⟩ (pow2neg decPrec 1) =
      ⟨false, 5, -((1 : Nat) : Int)⟩ := by decide
  have hpow : pow2neg decPrec 1001 = ⟨false, 5 ^ 1001, -((1001 : Nat) : Int)⟩ := by
    simp only [pow2neg]
    exact Dec.fix_of_lt _ _ (by decide)
  have hfix1 : Dec.fix decPrec ⟨false, 5 * 10 ^ 1000 + 5 ^ 1001, -((1001 : Nat) : Int)⟩ =
      ⟨false, (5 * 10 ^ 1000 + 5 ^ 1001 - 5) / 10, -((1000 : Nat) : Int)⟩ := by decide
  have hD : Dec.add decPrec ⟨false, 5, -((1 : Nat) : Int)⟩ (pow2neg decPrec 1001) =
      ⟨false, (5 * 10 ^ 1000 + 5 ^ 1001 - 5) / 10, -((1000 : Nat) : Int)⟩ := by
    rw [hpow, Dec.add,
      Dec.addExact_mk 5 (5 ^ 1001) 1 1001 (by norm_num) (by positivity)]
    rw [show (1001 - 1 : Nat) = 1000 from rfl]
    exact hfix1
  have hD2 : Dec.add decPrec ⟨false, 0, 0⟩
      ⟨false, (5 * 10 ^ 1000 + 5 ^ 1001 - 5) / 10, -((1000 : Nat) : Int)⟩ =
      ⟨false, (5 * 10 ^ 1000 + 5 ^ 1001 - 5) / 10, -((1000 : Nat) : Int)⟩ := by
    have h := Dec.add_int_frac 0 ((5 * 10 ^ 1000 + 5 ^ 1001 - 5) / 10) 1000 (by decide)
    rw [zero_mul, zero_add] at h
    exact h
  have hfrac : fracLoop decPrec ('1' :: (List.replicate 999 '0' ++ ['1'])) 1 ⟨false, 0, 0⟩ =
      ⟨false, (5 * 10 ^ 1000 + 5 ^ 1001 - 5) / 10, -((1000 : Nat) : Int)⟩ := by
    rw [fracLoop_cons_one]
    rw [hacc1]
    rw [fracLoop_replicate_zero]
    rw [show (1 + 1 + 999 : Nat) = 1001 from rfl]
    rw [fracLoop_cons_one]
    rw [fracLoop_nil]
    rw [hD]
  have hbase0 : (pyIntBase2 ['0']).map Dec.ofInt = some ⟨false, 0, 0⟩ := by decide
  have hb : b2d (String.mk ('0' :: '.' :: '1' :: (List.replicate 999 '0' ++ ['1']))) =
      some ⟨false, (5 * 10 ^ 1000 + 5 ^ 1001 - 5) / 10, -((1000 : Nat) : Int)⟩ := by
    rw [show b2d (String.mk ('0' :: '.' :: '1' :: (List.replicate 999 '0' ++ ['1']))) =
      binary_to_decimal_core ('0' :: '.' :: '1' :: (List.replicate 999 '0' ++ ['1'])) from rfl]
    simp only [binary_to_decimal_core, hie, Bool.false_eq_true, if_false, hneg, hsplit,
      List.isEmpty_cons, hbase0, Option.map_some', hfrac, hD2]
  have hspec : specValue ('0' :: '.' :: '1' :: (List.replicate 999 '0' ++ ['1'])) =
      ((2 : ℚ) ^ (1 : Nat))⁻¹ + (((2 : ℚ) ^ (1001 : Nat))⁻¹ + 0) := by
    have hnegl : isNegLead ('0' :: '.' :: '1' :: (List.replicate 999 '0' ++ ['1'])) = false :=
      hneg
    have hss : stripSign ('0' :: '.' :: '1' :: (List.replicate 999 '0' ++ ['1'])) =
        '0' :: '.' :: '1' :: (List.replicate 999 '0' ++ ['1']) := by
      rw [stripSign, hnegl]
      simp
    simp only [specValue, ipOf, fpOf, hss, hsplit, hnegl, Bool.false_eq_true, if_false]
    rw [show bitsValAux ['0'] 0 = 0 from rfl]
    rw [specFracSum_cons_one]
    rw [specFracSum_replicate_zero]
    rw [show (1 + 1 + 999 : Nat) = 1001 from rfl]
    rw [specFracSum_cons_one]
    rw [show specFracSum [] (1001 + 1) = 0 from rfl]
    push_cast
    ring
  rw [hb, hspec]
  simp only [Option.map_some', ne_eq, Option.some.injEq]
  rw [toRat_mk_false]
  intro hcon
  have h2 : ((5 * 10 ^ 1000 + 5 ^ 1001 - 5) / 10 : Nat) * (2 * 2 ^ 1001) ≠
      (2 ^ 1001 + 2) * 10 ^ 1000 := by decide
  apply h2
  have h10 : ((10 : ℚ)) ^ (1000 : Nat) ≠ 0 := by positivity
  have h2a : ((2 : ℚ)) ^ (1 : Nat) ≠ 0 := by positivity
  have h2b : ((2 : ℚ)) ^ (1001 : Nat) ≠ 0 := by positivity
  field_simp at hcon
  exact_mod_cast hcon

/-- C1 (amended): for well-formed binary-fraction strings whose integer and
fractional digit counts together stay within the 1000-digit context
precision, the converter returns exactly sign x (base-2 integer-part value
plus the sum of 2^-i over fractional 1-bits), and the six reference
examples hold; beyond that bound the decimal context rounds (see the
counterexample). -/
theorem c1_amended :
    (∀ cs : List Char, isBinFrac cs = true →
      (ipOf cs).length + (fpOf cs).length ≤ decPrec →
      (b2d (String.mk cs)).map Dec.toRat = some (specValue cs)) ∧
    (b2d "").map Dec.toRat = some 0 ∧
    (b2d "0").map Dec.toRat = some 0 ∧
    (b2d "1").map Dec.toRat = some 1 ∧
    (b2d "0.1").map Dec.toRat = some (1 / 2) ∧
    (b2d "1.1").map Dec.toRat = some (3 / 2) ∧
    (b2d "-0.01").map Dec.toRat = some (-(1 / 4)) := by
  refine ⟨b2d_exact, ?_, ?_, ?_, ?_, ?_, ?_⟩
  · rw [show b2d "" = some ⟨false, 0, 0⟩ from by decide, Option.map_some']
    norm_num [Dec.toRat, Dec.signedCoeff]
  · rw [show b2d "0" = some ⟨false, 0, 0⟩ from by decide, Option.map_some']
    norm_num [Dec.toRat, Dec.signedCoeff]
  · rw [show b2d "1" = some ⟨false, 1, 0⟩ from by decide, Option.map_some']
    norm_num [Dec.toRat, Dec.signedCoeff]
  · rw [show b2d "0.1" = some ⟨false, 5, -1⟩ from by decide, Option.map_some']
    norm_num [Dec.toRat, Dec.signedCoeff]
  · rw [show b2d "1.1" = some ⟨false, 15, -1⟩ from by decide, Option.map_some']
    norm_num [Dec.toRat, Dec.signedCoeff]
  · rw [show b2d "-0.01" = some ⟨true, 25, -2⟩ from by decide, Option.map_some']
    norm_num [Dec.toRat, Dec.signedCoeff]

/-- C1 witness: a concrete well-formed string through the amended theorem. -/
theorem c1_amended_witness :
    (b2d (String.mk ['1', '0', '.', '1'])).map Dec.toRat =
      some (specValue ['1', '0', '.', '1']) :=
  c1_amended.1 ['1', '0', '.', '1'] (by decide) (by decide)

theorem signedCoeff_eq_zero_iff (d : Dec) : d.signedCoeff = 0 ↔ d.coeff = 0 := by
  rw [Dec.signedCoeff]
  split_ifs <;> omega

theorem toRat_eq_zero_iff (d : Dec) : d.toRat = 0 ↔ d.coeff = 0 := by
  rw [Dec.toRat, mul_eq_zero]
  have h10 : ((10 : ℚ)) ^ d.exp ≠ 0 := zpow_ne_zero _ (by norm_num)
  constructor
  · intro h
    rcases h with h | h
    · exact (signedCoeff_eq_zero_iff d).mp (by exact_mod_cast h)
    · exact absurd h h10
  · intro h
    left
    rw [(signedCoeff_eq_zero_iff d).mpr h]
    exact Int.cast_zero

/-- The comparison method is exact: valLt decides the rational order. -/
theorem valLt_iff (a b : Dec) : Dec.valLt a b = true ↔ a.toRat < b.toRat := by
  simp only [Dec.valLt, decide_eq_true_eq]
  have h10 : (10 : ℚ) ≠ 0 := by norm_num
  have hpos : (0 : ℚ) < (10 : ℚ) ^ (-(min a.exp b.exp)) := by positivity
  have key : ∀ d : Dec, min a.exp b.exp ≤ d.exp →
      d.toRat * (10 : ℚ) ^ (-(min a.exp b.exp)) =
        ((d.signedCoeff * 10 ^ ((d.exp - min a.exp b.exp).toNat) : Int) : ℚ) := by
    intro d hd
    rw [Dec.toRat, mul_assoc, ← zpow_add₀ h10]
    have he : d.exp + -(min a.exp b.exp) = ((d.exp - min a.exp b.exp).toNat : ℤ) := by omega
    rw [he, zpow_natCast]
    push_cast
    ring
  rw [← mul_lt_mul_right hpos]
  rw [key a (min_le_left _ _), key b (min_le_right _ _)]
  rw [Int.cast_lt]

/-- pyAbs under the context bound computes the absolute rational value. -/
theorem pyAbs_toRat (d : Dec) (h : d.coeff < 10 ^ decPrec) :
    (Dec.pyAbs decPrec d).toRat = |d.toRat| := by
  rw [Dec.pyAbs, Dec.fix_of_lt _ _ (by simpa using h)]
  cases hneg : d.neg
  · rw [← hneg]
    rw [show (⟨d.neg, d.coeff, d.exp⟩ : Dec) = d from rfl]
    exact (abs_of_nonneg (toRat_nonneg_of_neg_false d hneg)).symm
  · have h1 : Dec.toRat ⟨false, d.coeff, d.exp⟩ = -(d.toRat) := by
      simp [Dec.toRat, Dec.signedCoeff, hneg]
    have h2 : d.toRat ≤ 0 := by
      have h3 := toRat_nonneg_of_neg_false ⟨false, d.coeff, d.exp⟩ rfl
      rw [h1] at h3
      linarith
    rw [h1]
    exact (abs_of_nonpos h2).symm

/-- C5: a value at least 1e-10 whose plain-notation form would need more
than 6 leading zeros is still rendered by str() in scientific notation:
2^-28 takes the non-scientific branch yet prints with an E exponent. -/
theorem c5_counterexample :
    format_bigfloat (Json.obj (JObj.cons "value"
        (Json.str "0.0000000000000000000000000001") JObj.nil)) =
      some "3.7252902984619140625E-9".toList ∧
    'E' ∈ "3.7252902984619140625E-9".toList ∧
    b2d "0.0000000000000000000000000001" = some ⟨false, 5 ^ 28, -28⟩ ∧
    (10 : ℚ) ^ (-10 : ℤ) ≤ |Dec.toRat ⟨false, 5 ^ 28, -28⟩| := by
  refine ⟨by decide, by decide, by decide, ?_⟩
  have h : Dec.toRat ⟨false, 5 ^ 28, -28⟩ = (5 ^ 28 : ℚ) / 10 ^ 28 := by
    norm_num [Dec.toRat, Dec.signedCoeff]
  rw [h, abs_of_nonneg (by positivity)]
  norm_num

/-- C5 (amended): for a decoded value within the context precision the
scientific 50-digit branch is taken exactly when the value is nonzero with
absolute value strictly below 1e-10 (so 5e-11 is below the threshold and
5e-10 is not), and otherwise the rendering is str() truncated to 80
characters at display time — but str() itself uses scientific notation for
small-magnitude values (see the counterexample), not always a plain
decimal string. -/
theorem c5_amended :
    (∀ (o : JObj) (s : String) (d : Dec), o.hasKey "value" = true →
      o.lookup "value" = some (Json.str s) → b2d s = some d → d.coeff < 10 ^ decPrec →
      format_bigfloat (Json.obj o) =
        some (if d.toRat ≠ 0 ∧ |d.toRat| < (10 : ℚ) ^ (-10 : ℤ) then d.fmt50E
              else d.pyStr.take 80)) ∧
    Dec.valLt (Dec.pyAbs decPrec ⟨false, 5, -11⟩) ⟨false, 1, -10⟩ = true ∧
    Dec.valLt (Dec.pyAbs decPrec ⟨false, 5, -10⟩) ⟨false, 1, -10⟩ = false := by
  refine ⟨?_, by decide, by decide⟩
  intro o s d hk hl hb hcoeff
  have hpyAbs := pyAbs_toRat d hcoeff
  have h1e10 : Dec.toRat ⟨false, 1, -10⟩ = (10 : ℚ) ^ (-10 : ℤ) := by
    simp [Dec.toRat, Dec.signedCoeff]
  have hvl : Dec.valLt (Dec.pyAbs decPrec d) ⟨false, 1, -10⟩ = true ↔
      |d.toRat| < (10 : ℚ) ^ (-10 : ℤ) := by
    rw [valLt_iff, hpyAbs, h1e10]
  simp only [format_bigfloat, hk, if_true, hl, hb]
  by_cases hcond : d.toRat ≠ 0 ∧ |d.toRat| < (10 : ℚ) ^ (-10 : ℤ)
  · rw [if_pos hcond]
    have hbool : (Dec.valLt (Dec.pyAbs decPrec d) ⟨false, 1, -10⟩ && (d.coeff != 0)) = true := by
      rw [Bool.and_eq_true]
      refine ⟨hvl.mpr hcond.2, ?_⟩
      rw [bne_iff_ne]
      exact fun hc => hcond.1 ((toRat_eq_zero_iff d).mpr hc)
    rw [hbool, if_pos rfl]
  · rw [if_neg hcond]
    have hbool : (Dec.valLt (Dec.pyAbs decPrec d) ⟨false, 1, -10⟩ && (d.coeff != 0)) = false := by
      rcases not_and_or.mp hcond with hz | hlt
      · push_neg at hz
        have hc0 : d.coeff = 0 := (toRat_eq_zero_iff d).mp hz
        rw [hc0]
        simp
      · cases hb2 : Dec.valLt (Dec.pyAbs decPrec d) ⟨false, 1, -10⟩
        · rw [Bool.false_and]
        · exact absurd (hvl.mp hb2) hlt
    rw [hbool]
    rw [if_neg (by simp)]

/-- C5 witness: 0.1 takes the non-scientific branch of the amended rule. -/
theorem c5_amended_witness :
    format_bigfloat (Json.obj (JObj.cons "value" (Json.str "0.1") JObj.nil)) =
      some (if (⟨false, 5, -1⟩ : Dec).toRat ≠ 0 ∧
          |(⟨false, 5, -1⟩ : Dec).toRat| < (10 : ℚ) ^ (-10 : ℤ) then
          (⟨false, 5, -1⟩ : Dec).fmt50E
        else (⟨false, 5, -1⟩ : Dec).pyStr.take 80) :=
  c5_amended.1 (JObj.cons "value" (Json.str "0.1") JObj.nil) "0.1" ⟨false, 5, -1⟩
    (by decide) (by decide) (by decide) (by decide)

/-! ### C9: stored-block DEFLATE inflates back to the original bytes -/

theorem getBitsVal_exact : ∀ (xs r : List Bool),
    getBitsVal xs.length (xs ++ r) = some (bitsValB xs, r) := by
  intro xs
  induction xs with
  | nil => intro r; rfl
  | cons b t ih =>
    intro r
    simp only [List.length_cons, List.cons_append, getBitsVal, getBit, ih, bitsValB]

theorem bitsValB_append : ∀ xs ys : List Bool,
    bitsValB (xs ++ ys) = bitsValB xs + 2 ^ xs.length * bitsValB ys := by
  intro xs
  induction xs with
  | nil => intro ys; simp [bitsValB]
  | cons b t ih =>
    intro ys
    simp only [List.cons_append, bitsValB, List.length_cons, pow_succ, List.append_eq]
    rw [ih]
    ring

theorem bitsValB_byteBits (b : Nat) : bitsValB (byteBits b) = b % 256 := by
  simp only [byteBits, bitsValB]
  have h1 : ∀ n : Nat, (if decide (n % 2 = 1) then 1 else 0) = n % 2 := by
    intro n
    rcases Nat.mod_two_eq_zero_or_one n with h | h <;> simp [h]
  rw [h1, h1, h1, h1, h1, h1, h1, h1]
  omega

theorem byteBits_length (b : Nat) : (byteBits b).length = 8 := rfl

theorem bytesToBits_append (xs ys : List Nat) :
    bytesToBits (xs ++ ys) = bytesToBits xs ++ bytesToBits ys := by
  simp [bytesToBits]

theorem bytesToBits_length (bs : List Nat) : (bytesToBits bs).length = 8 * bs.length := by
  induction bs with
  | nil => rfl
  | cons b t ih =>
    have h : bytesToBits (b :: t) = byteBits b ++ bytesToBits t := rfl
    rw [h, List.length_append, byteBits_length, ih, List.length_cons]
    ring

theorem getBitsVal_byte (b : Nat) (r : List Bool) :
    getBitsVal 8 (byteBits b ++ r) = some (b % 256, r) := by
  have := getBitsVal_exact (byteBits b) r
  rw [byteBits_length, bitsValB_byteBits] at this
  exact this

theorem getBitsVal_two_bytes (a b : Nat) (r : List Bool) :
    getBitsVal 16 (byteBits a ++ byteBits b ++ r) = some (a % 256 + 256 * (b % 256), r) := by
  have := getBitsVal_exact (byteBits a ++ byteBits b) r
  rw [List.append_assoc] at this
  rw [show (byteBits a ++ byteBits b).length = 16 from rfl] at this
  rw [bitsValB_append, byteBits_length, bitsValB_byteBits, bitsValB_byteBits] at this
  simpa using this

theorem readBytes_exact : ∀ (bs : List Nat), (∀ x ∈ bs, x < 256) →
    ∀ (r : List Bool) (out : List Nat),
    readBytes bs.length (bytesToBits bs ++ r) out = some (out ++ bs, r) := by
  intro bs
  induction bs with
  | nil => intro _ r out; simp [readBytes, bytesToBits]
  | cons b t ih =>
    intro h r out
    have hb : b < 256 := h b (by simp)
    have hbits : bytesToBits (b :: t) = byteBits b ++ bytesToBits t := rfl
    simp only [List.length_cons, hbits, List.append_assoc, readBytes, getBitsVal_byte,
      Nat.mod_eq_of_lt hb]
    rw [ih (fun x hx => h x (by simp [hx])) r (out ++ [b])]
    simp

theorem getBitsVal_one_true (r : List Bool) : getBitsVal 1 (true :: r) = some (1, r) := rfl

theorem getBitsVal_one_false (r : List Bool) : getBitsVal 1 (false :: r) = some (0, r) := rfl

theorem getBitsVal_two_ff (r : List Bool) : getBitsVal 2 (false :: false :: r) = some (0, r) := rfl

theorem byteBits_one : byteBits 1 = [true, false, false, false, false, false, false, false] := rfl

theorem byteBits_zero : byteBits 0 = [false, false, false, false, false, false, false, false] := rfl

theorem inflate_stored_block (hdr : Nat) (data rest out : List Nat) (fuel : Nat)
    (hhdr : hdr = 0 ∨ hdr = 1) (hlen : data.length ≤ 65535) (hdata : ∀ x ∈ data, x < 256) :
    inflateBlocks (fuel + 1)
      (bytesToBits (hdr :: data.length % 256 :: data.length / 256 ::
        (65535 - data.length) % 256 :: (65535 - data.length) / 256 :: (data ++ rest))) out =
      if hdr = 1 then some (out ++ data)
      else inflateBlocks fuel (bytesToBits rest) (out ++ data) := by
  have hbb : ∀ (a : Nat) (l : List Nat), bytesToBits (a :: l) = byteBits a ++ bytesToBits l :=
    fun a l => rfl
  rw [hbb, hbb, hbb, hbb, hbb, bytesToBits_append]
  set L := data.length with hL
  set R2 := byteBits (L % 256) ++ (byteBits (L / 256) ++
    (byteBits ((65535 - L) % 256) ++ (byteBits ((65535 - L) / 256) ++
      (bytesToBits data ++ bytesToBits rest)))) with hR2
  have hR2len : R2.length % 8 = 0 := by
    rw [hR2]
    simp only [List.length_append, byteBits_length, bytesToBits_length]
    omega
  have hstored : storedBlock (false :: false :: false :: false :: false :: R2) out =
      some (out ++ data, bytesToBits rest) := by
    simp only [storedBlock]
    have hmod : (false :: false :: false :: false :: false :: R2).length % 8 = 5 := by
      simp only [List.length_cons]
      omega
    rw [hmod]
    have hdrop : (false :: false :: false :: false :: false :: R2).drop 5 = R2 := rfl
    rw [hdrop, hR2]
    rw [show byteBits (L % 256) ++ (byteBits (L / 256) ++
        (byteBits ((65535 - L) % 256) ++ (byteBits ((65535 - L) / 256) ++
          (bytesToBits data ++ bytesToBits rest)))) =
        byteBits (L % 256) ++ byteBits (L / 256) ++
          (byteBits ((65535 - L) % 256) ++ byteBits ((65535 - L) / 256) ++
            (bytesToBits data ++ bytesToBits rest)) from by simp [List.append_assoc]]
    simp only [getBitsVal_two_bytes]
    have e1 : L % 256 % 256 + 256 * (L / 256 % 256) = L := by omega
    have e2 : (65535 - L) % 256 % 256 + 256 * ((65535 - L) / 256 % 256) = 65535 - L := by omega
    rw [e1, e2, if_pos (by omega : L + (65535 - L) = 65535)]
    rw [hL, readBytes_exact data hdata]
  rcases hhdr with h | h <;> subst h
  · rw [byteBits_zero]
    simp only [List.cons_append, List.nil_append]
    simp only [inflateBlocks, getBitsVal_one_false, getBitsVal_two_ff]
    rw [hstored]
    simp
  · rw [byteBits_one]
    simp only [List.cons_append, List.nil_append]
    simp only [inflateBlocks, getBitsVal_one_true, getBitsVal_two_ff]
    rw [hstored]
    simp

theorem dsGo_nil (fuel : Nat) : dsGo fuel [] = [1, 0, 0, 255, 255] := by
  cases fuel <;> rfl

theorem dsGo_cons_small (f : Nat) (d : Nat) (ds : List Nat) (h : (d :: ds).length ≤ 65535) :
    dsGo (f + 1) (d :: ds) =
      1 :: (d :: ds).length % 256 :: (d :: ds).length / 256 ::
        (65535 - (d :: ds).length) % 256 :: (65535 - (d :: ds).length) / 256 :: (d :: ds) := by
  rw [dsGo.eq_def]
  simp only [h, if_true]

theorem dsGo_cons_big (f : Nat) (d : Nat) (ds : List Nat) (h : ¬ (d :: ds).length ≤ 65535) :
    dsGo (f + 1) (d :: ds) =
      0 :: 255 :: 255 :: 0 :: 0 ::
        ((d :: ds).take 65535 ++ dsGo f ((d :: ds).drop 65535)) := by
  rw [dsGo.eq_def]
  simp only [h, if_false]

theorem dsGo_go : ∀ (fuel : Nat) (data : List Nat), data.length ≤ fuel →
    (∀ x ∈ data, x < 256) → ∀ (jf : Nat) (out : List Nat), data.length ≤ jf →
    inflateBlocks (jf + 1) (bytesToBits (dsGo fuel data)) out = some (out ++ data) := by
  intro fuel
  induction fuel with
  | zero =>
    intro data hle _ jf out _
    have hnil : data = [] := List.eq_nil_of_length_eq_zero (by omega)
    subst hnil
    rw [dsGo_nil]
    have := inflate_stored_block 1 [] [] out jf (Or.inr rfl) (by simp) (by simp)
    simpa using this
  | succ f ih =>
    intro data hle hd jf out hjf
    match data with
    | [] =>
      rw [dsGo_nil]
      have := inflate_stored_block 1 [] [] out jf (Or.inr rfl) (by simp) (by simp)
      simpa using this
    | d :: ds =>
      by_cases hsmall : (d :: ds).length ≤ 65535
      · rw [dsGo_cons_small f d ds hsmall]
        have hshape : (d :: ds) = (d :: ds) ++ ([] : List Nat) := by simp
        conv_lhs => rw [show 1 :: (d :: ds).length % 256 :: (d :: ds).length / 256 ::
          (65535 - (d :: ds).length) % 256 :: (65535 - (d :: ds).length) / 256 :: (d :: ds) =
          1 :: (d :: ds).length % 256 :: (d :: ds).length / 256 ::
          (65535 - (d :: ds).length) % 256 :: (65535 - (d :: ds).length) / 256 ::
          ((d :: ds) ++ []) from by rw [← hshape]]
        rw [inflate_stored_block 1 (d :: ds) [] out jf (Or.inr rfl) hsmall hd]
        rw [if_pos rfl]
      · rw [dsGo_cons_big f d ds hsmall]
        set c := (d :: ds).take 65535 with hc
        set ds2 := (d :: ds).drop 65535 with hds2
        have hclen : c.length = 65535 := by
          rw [hc, List.length_take]
          omega
        have hshape : (0 : Nat) :: 255 :: 255 :: 0 :: 0 :: (c ++ dsGo f ds2) =
            0 :: c.length % 256 :: c.length / 256 ::
              (65535 - c.length) % 256 :: (65535 - c.length) / 256 :: (c ++ dsGo f ds2) := by
          rw [hclen]
        rw [hshape]
        obtain ⟨jg, rfl⟩ : ∃ jg, jf = jg + 1 := ⟨jf - 1, by omega⟩
        rw [inflate_stored_block 0 c (dsGo f ds2) out (jg + 1) (Or.inl rfl)
          (by omega) (fun x hx => hd x (List.mem_of_mem_take hx))]
        rw [if_neg (by decide : ¬ (0 : Nat) = 1)]
        have hds2len : ds2.length = (d :: ds).length - 65535 := by
          rw [hds2, List.length_drop]
        rw [ih ds2 (by omega) (fun x hx => hd x (List.mem_of_mem_drop hx)) jg (out ++ c)
          (by omega)]
        rw [List.append_assoc]
        rw [hc, hds2, List.take_append_drop]

theorem dsGo_length_ge : ∀ (fuel : Nat) (data : List Nat), data.length ≤ fuel →
    data.length ≤ (dsGo fuel data).length := by
  intro fuel
  induction fuel with
  | zero =>
    intro data hle
    have hnil : data = [] := List.eq_nil_of_length_eq_zero (by omega)
    subst hnil
    simp [dsGo_nil]
  | succ f ih =>
    intro data hle
    match data with
    | [] => simp [dsGo_nil]
    | d :: ds =>
      by_cases hsmall : (d :: ds).length ≤ 65535
      · rw [dsGo_cons_small f d ds hsmall]
        simp
      · rw [dsGo_cons_big f d ds hsmall]
        have h1 := ih ((d :: ds).drop 65535) (by rw [List.length_drop]; omega)
        simp only [List.length_cons, List.length_append, List.length_take,
          List.length_drop] at h1 ⊢
        omega

theorem dsGo_lt256 : ∀ (fuel : Nat) (data : List Nat), (∀ x ∈ data, x < 256) →
    ∀ x ∈ dsGo fuel data, x < 256 := by
  intro fuel
  induction fuel with
  | zero =>
    intro data _ x hx
    cases data with
    | nil => rw [dsGo_nil] at hx; simp at hx; omega
    | cons d ds => simp [dsGo] at hx
  | succ f ih =>
    intro data hd x hx
    match data with
    | [] => rw [dsGo_nil] at hx; simp at hx; omega
    | d :: ds =>
      by_cases hsmall : (d :: ds).length ≤ 65535
      · rw [dsGo_cons_small f d ds hsmall] at hx
        simp only [List.mem_cons] at hx
        rcases hx with h | h | h | h | h | h | h
        · omega
        · have := Nat.mod_lt (d :: ds).length (show 0 < 256 from by norm_num); omega
        · have : (d :: ds).length / 256 ≤ 65535 / 256 := Nat.div_le_div_right hsmall
          omega
        · have := Nat.mod_lt (65535 - (d :: ds).length) (show 0 < 256 from by norm_num); omega
        · have : (65535 - (d :: ds).length) / 256 ≤ 65535 / 256 :=
            Nat.div_le_div_right (by omega)
          omega
        · exact hd x (by rw [h]; exact List.mem_cons_self d ds)
        · exact hd x (List.mem_cons_of_mem d h)
      · rw [dsGo_cons_big f d ds hsmall] at hx
        simp only [List.mem_cons, List.mem_append] at hx
        rcases hx with h | h | h | h | h | h | h
        · omega
        · omega
        · omega
        · omega
        · omega
        · exact hd x (List.mem_of_mem_take h)
        · exact ih ((d :: ds).drop 65535) (fun y hy => hd y (List.mem_of_mem_drop hy)) x h

theorem inflateRaw_deflateStored (data : List Nat) (h : ∀ x ∈ data, x < 256) :
    inflateRaw (deflateStored data) = some data := by
  unfold inflateRaw deflateStored
  have h1 := dsGo_length_ge data.length data le_rfl
  have h2 := dsGo_go data.length data le_rfl h (8 * (dsGo data.length data).length) []
    (by omega)
  simpa using h2

/-! ### C9: UTF-8 round-trip on the ASCII output of json.dumps -/

theorem toNat_ofNat_small (n : Nat) (h : n < 128) : (Char.ofNat n).toNat = n := by
  unfold Char.ofNat
  rw [dif_pos (by constructor; omega : n.isValidChar)]
  rfl

theorem utf8DecodeGo_nil (f : Nat) : utf8DecodeGo f [] = some [] := by
  cases f <;> rfl

theorem utf8DecodeGo_cons (f : Nat) (b : Nat) (l : List Nat) :
    utf8DecodeGo (f + 1) (b :: l) =
      match utf8DecodeOne (b :: l) with
      | none => none
      | some (c, rest) =>
        match utf8DecodeGo f rest with
        | some cs => some (c :: cs)
        | none => none := rfl

theorem utf8DecodeOne_small (b : Nat) (hb : b < 128) (rest : List Nat) :
    utf8DecodeOne (b :: rest) = some (Char.ofNat b, rest) := by
  show (if b < 128 then some (Char.ofNat b, rest) else _) = _
  rw [if_pos hb]

theorem utf8Decode_encode_ascii_go : ∀ cs : List Char, (∀ c ∈ cs, c.toNat < 128) →
    utf8DecodeGo (utf8Encode cs).length (utf8Encode cs) = some cs := by
  intro cs
  induction cs with
  | nil => intro _; rfl
  | cons c t ih =>
    intro h
    have hc : c.toNat < 128 := h c (by simp)
    have henc : utf8Encode (c :: t) = c.toNat :: utf8Encode t := by
      simp only [utf8Encode, List.flatMap_cons, utf8EncodeChar, hc, if_pos]
      simp [hc]
    rw [henc, List.length_cons, utf8DecodeGo_cons]
    simp only [utf8DecodeOne_small c.toNat hc, ih (fun x hx => h x (by simp [hx]))]
    simp [Char.ofNat_toNat]

theorem utf8Decode_encode_ascii (cs : List Char) (h : ∀ c ∈ cs, c.toNat < 128) :
    utf8Decode (utf8Encode cs) = some cs :=
  utf8Decode_encode_ascii_go cs h

theorem utf8Encode_lt256 (cs : List Char) (h : ∀ c ∈ cs, c.toNat < 128) :
    ∀ x ∈ utf8Encode cs, x < 256 := by
  intro x hx
  simp only [utf8Encode, List.mem_flatMap] at hx
  obtain ⟨c, hc, hxc⟩ := hx
  have hlt : c.toNat < 128 := h c hc
  simp only [utf8EncodeChar, hlt, if_pos, List.mem_singleton] at hxc
  omega

/-! ### C9: json.dumps output is ASCII -/

theorem hexDigit_ascii (n : Nat) (h : n < 16) : (hexDigit n).toNat < 128 := by
  unfold hexDigit
  split_ifs with h1
  · rw [toNat_ofNat_small _ (by omega)]; omega
  · rw [toNat_ofNat_small _ (by omega)]; omega

theorem hex4_ascii (n : Nat) : ∀ c ∈ hex4 n, c.toNat < 128 := by
  intro c hc
  simp only [hex4, List.mem_cons, List.not_mem_nil, or_false] at hc
  rcases hc with h | h | h | h <;> subst h <;>
    exact hexDigit_ascii _ (Nat.mod_lt _ (by norm_num))

theorem jsonEscChar_ascii (c : Char) : ∀ x ∈ jsonEscChar c, x.toNat < 128 := by
  intro x hx
  unfold jsonEscChar at hx
  split_ifs at hx with h1 h2 h3 h4 h5 h6 h7 h8 h9
  · simp only [List.mem_cons, List.not_mem_nil, or_false] at hx
    rcases hx with h | h <;> subst h <;> decide
  · simp only [List.mem_cons, List.not_mem_nil, or_false] at hx
    rcases hx with h | h <;> subst h <;> decide
  · simp only [List.mem_cons, List.not_mem_nil, or_false] at hx
    rcases hx with h | h <;> subst h <;> decide
  · simp only [List.mem_cons, List.not_mem_nil, or_false] at hx
    rcases hx with h | h <;> subst h <;> decide
  · simp only [List.mem_cons, List.not_mem_nil, or_false] at hx
    rcases hx with h | h <;> subst h <;> decide
  · simp only [List.mem_cons, List.not_mem_nil, or_false] at hx
    rcases hx with h | h <;> subst h <;> decide
  · simp only [List.mem_cons, List.not_mem_nil, or_false] at hx
    rcases hx with h | h <;> subst h <;> decide
  · simp only [List.mem_cons] at hx
    rcases hx with h | h | h
    · subst h; decide
    · subst h; decide
    · exact hex4_ascii _ x h
  · simp only [List.mem_cons, List.mem_append] at hx
    rcases hx with h | h | h
    · subst h; decide
    · subst h; decide
    · rcases h with h | h | h
      · exact hex4_ascii _ x h
      · subst h; decide
      · rcases h with h | h
        · subst h; decide
        · exact hex4_ascii _ x h
  · simp only [List.mem_singleton] at hx
    subst hx
    simp only [Bool.or_eq_true, decide_eq_true_eq, not_or, not_lt] at h8
    omega

theorem natDigsAux_ascii : ∀ (fuel n : Nat), ∀ c ∈ natDigsAux fuel n, c.toNat < 128 := by
  intro fuel
  induction fuel with
  | zero => intro n c hc; simp [natDigsAux] at hc
  | succ f ih =>
    intro n c hc
    unfold natDigsAux at hc
    split_ifs at hc with h1
    · simp only [List.mem_singleton] at hc
      subst hc
      rw [toNat_ofNat_small _ (by omega)]
      omega
    · simp only [List.mem_append, List.mem_singleton] at hc
      rcases hc with h | h
      · exact ih _ c h
      · subst h
        have h2 : n % 10 < 10 := Nat.mod_lt _ (by norm_num)
        rw [toNat_ofNat_small _ (by omega)]
        omega

theorem natDigs_ascii (n : Nat) : ∀ c ∈ natDigs n, c.toNat < 128 :=
  natDigsAux_ascii (n + 1) n

theorem intRepr_ascii (n : Int) : ∀ c ∈ intRepr n, c.toNat < 128 := by
  intro c hc
  unfold intRepr at hc
  rw [List.mem_append] at hc
  rcases hc with h | h
  · split_ifs at h
    · simp only [List.mem_singleton] at h; subst h; decide
    · simp at h
  · exact natDigs_ascii _ c h

theorem escString_ascii (s : String) : ∀ c ∈ s.toList.flatMap jsonEscChar, c.toNat < 128 := by
  intro c hc
  rw [List.mem_flatMap] at hc
  obtain ⟨x, _, h⟩ := hc
  exact jsonEscChar_ascii x c h

mutual

theorem dumpsV_ascii : (d : Json) → ∀ c ∈ dumpsV d, c.toNat < 128
  | .null => by rw [dumpsV]; decide
  | .bool b => by rw [dumpsV]; cases b <;> decide
  | .int n => by rw [dumpsV]; exact intRepr_ascii n
  | .str s => by
    rw [dumpsV, List.forall_mem_cons, List.forall_mem_append]
    exact ⟨by decide, escString_ascii s, by decide⟩
  | .arr a => by
    rw [dumpsV, List.forall_mem_cons, List.forall_mem_append]
    exact ⟨by decide, dumpsA_ascii a, by decide⟩
  | .obj o => by
    rw [dumpsV, List.forall_mem_cons, List.forall_mem_append]
    exact ⟨by decide, dumpsO_ascii o, by decide⟩

theorem dumpsA_ascii : (a : JArr) → ∀ c ∈ dumpsA a, c.toNat < 128
  | .nil => by rw [dumpsA]; simp
  | .cons h .nil => by rw [dumpsA]; exact dumpsV_ascii h
  | .cons h (.cons h2 t) => by
    rw [dumpsA, List.forall_mem_append, List.forall_mem_cons, List.forall_mem_cons]
    exact ⟨dumpsV_ascii h, by decide, by decide, dumpsA_ascii (.cons h2 t)⟩

theorem dumpsO_ascii : (o : JObj) → ∀ c ∈ dumpsO o, c.toNat < 128
  | .nil => by rw [dumpsO]; simp
  | .cons k v .nil => by
    rw [dumpsO, List.forall_mem_cons, List.forall_mem_append, List.forall_mem_cons,
      List.forall_mem_cons, List.forall_mem_cons]
    exact ⟨by decide, escString_ascii k, by decide, by decide, by decide, dumpsV_ascii v⟩
  | .cons k v (.cons k2 v2 t) => by
    rw [dumpsO, List.cons_append, List.forall_mem_cons, List.forall_mem_append,
      List.forall_mem_append, List.forall_mem_cons, List.forall_mem_cons,
      List.forall_mem_cons, List.forall_mem_cons, List.forall_mem_cons]
    refine ⟨by decide, ⟨escString_ascii k, by decide, by decide, by decide, dumpsV_ascii v⟩,
      by decide, by decide, dumpsO_ascii (.cons k2 v2 t)⟩

end

/-! ### C9: json.loads inverts json.dumps — number literals -/

theorem digVal_ofNat (m : Nat) (h : m < 10) : digVal (Char.ofNat (48 + m)) = some m := by
  unfold digVal
  rw [toNat_ofNat_small (48 + m) (by omega)]
  rw [if_pos (by simp only [Bool.and_eq_true, decide_eq_true_eq]; omega)]
  simp

theorem digitsRun_cons (c : Char) (rest : List Char) (acc v : Nat) (h : digVal c = some v) :
    digitsRun (c :: rest) acc = digitsRun rest (10 * acc + v) := by
  rw [digitsRun, h]

theorem digitsRun_stop (r : List Char) (acc : Nat)
    (h : ∀ c, r.head? = some c → digVal c = none) :
    digitsRun r acc = (acc, r) := by
  cases r with
  | nil => rfl
  | cons c rest => rw [digitsRun, h c rfl]

theorem digitsRun_digs : ∀ (fuel m acc : Nat) (r : List Char), m < fuel →
    digitsRun (natDigsAux fuel m ++ r) acc =
      digitsRun r (acc * 10 ^ (natDigsAux fuel m).length + m) := by
  intro fuel
  induction fuel using Nat.strong_induction_on with
  | _ fuel ih =>
    intro m acc r hm
    match fuel, hm with
    | f + 1, hm =>
      by_cases hlt : m < 10
      · rw [natDigsAux, if_pos hlt]
        rw [List.cons_append, List.nil_append, digitsRun_cons _ _ _ _ (digVal_ofNat m hlt)]
        rw [show ([Char.ofNat (48 + m)] : List Char).length = 1 from rfl]
        congr 1
        ring
      · rw [natDigsAux, if_neg hlt]
        rw [List.append_assoc, ih f (by omega) (m / 10) acc _ (by omega)]
        rw [List.cons_append, List.nil_append,
          digitsRun_cons _ _ _ _ (digVal_ofNat (m % 10) (Nat.mod_lt _ (by norm_num)))]
        rw [List.length_append, List.length_singleton]
        congr 1
        rw [pow_succ]
        have : 10 * (m / 10) + m % 10 = m := by omega
        ring_nf
        omega

theorem natDigsAux_head : ∀ (fuel m : Nat), m < fuel →
    ∃ c0 tail v, natDigsAux fuel m = c0 :: tail ∧ digVal c0 = some v ∧ (0 < m → 0 < v) := by
  intro fuel
  induction fuel using Nat.strong_induction_on with
  | _ fuel ih =>
    intro m hm
    match fuel, hm with
    | f + 1, hm =>
      by_cases hlt : m < 10
      · refine ⟨Char.ofNat (48 + m), [], m, ?_, digVal_ofNat m hlt, fun h => h⟩
        rw [natDigsAux, if_pos hlt]
      · obtain ⟨c0, tail, v, he, hv, hpos⟩ := ih f (by omega) (m / 10) (by omega)
        refine ⟨c0, tail ++ [Char.ofNat (48 + m % 10)], v, ?_, hv, fun _ => hpos (by omega)⟩
        rw [natDigsAux, if_neg hlt, he, List.cons_append]

theorem natDigs_head (m : Nat) :
    ∃ c0 tail v, natDigs m = c0 :: tail ∧ digVal c0 = some v ∧ (0 < m → 0 < v) :=
  natDigsAux_head (m + 1) m (by omega)

theorem parseNumTail_digs (m : Nat) (r : List Char)
    (hr : ∀ c, r.head? = some c → digVal c = none) :
    parseNumTail (natDigs m ++ r) = some (m, r) := by
  by_cases hm : m = 0
  · subst hm
    rw [show natDigs 0 = ['0'] from rfl, List.cons_append, List.nil_append]
    rw [show parseNumTail ('0' :: r) = some (0, r) from rfl]
  · obtain ⟨c0, tail, v, he, hv, hpos⟩ := natDigs_head m
    have hvpos : 0 < v := hpos (by omega)
    have hc0 : ¬ c0 = '0' := by
      intro h
      rw [h] at hv
      rw [show digVal '0' = some 0 from rfl] at hv
      injection hv with h2
      omega
    have hrun : digitsRun (tail ++ r) v = (m, r) := by
      have h1 : digitsRun (natDigs m ++ r) 0 = (m, r) := by
        rw [natDigs, digitsRun_digs (m + 1) m 0 r (by omega)]
        rw [digitsRun_stop r _ hr]
        simp
      rw [he, List.cons_append, digitsRun_cons _ _ _ _ hv] at h1
      simpa using h1
    rw [he, List.cons_append]
    rw [parseNumTail.eq_def]
    split
    · rename_i heq
      injection heq with h1 _
      exact absurd h1 hc0
    · rename_i heq
      injection heq with h1 h2
      subst h1
      subst h2
      rw [hv]
      show (if v = 0 then none else some (digitsRun (tail ++ r) v)) = some (m, r)
      rw [if_neg (by omega), hrun]
    · rename_i heq
      exact absurd heq (by simp)

theorem floatGuard_safe (j : Json) (r : List Char) (hr : numSafeB r = true) :
    floatGuard j r = some (j, r) := by
  cases r with
  | nil => rfl
  | cons c rest =>
    simp only [numSafeB, Bool.and_eq_true, Bool.not_eq_true', decide_eq_false_iff_not,
      Option.isNone_iff_eq_none] at hr
    rw [floatGuard, if_neg]
    simp only [Bool.or_eq_true, decide_eq_true_eq, not_or]
    tauto

theorem numSafeB_digVal (r : List Char) (hr : numSafeB r = true) :
    ∀ c, r.head? = some c → digVal c = none := by
  intro c hc
  cases r with
  | nil => simp at hc
  | cons c0 rest =>
    simp only [List.head?_cons, Option.some_inj] at hc
    subst hc
    simp only [numSafeB, Bool.and_eq_true, Option.isNone_iff_eq_none] at hr
    exact hr.1.1.1

theorem parseNum_dash (X : List Char) :
    parseNum ('-' :: X) =
      match parseNumTail X with
      | some (n, r) => floatGuard (Json.int (-(n : Int))) r
      | none => none := rfl

theorem parseNum_digit (c0 : Char) (X : List Char) (h : ¬ c0 = '-') :
    parseNum (c0 :: X) =
      match parseNumTail (c0 :: X) with
      | some (n, r) => floatGuard (Json.int (n : Int)) r
      | none => none := by
  rw [parseNum.eq_def]
  split
  · rename_i rest heq
    injection heq with h1 _
    exact absurd h1 h
  · rfl

theorem parseNum_intRepr (n : Int) (r : List Char) (hr : numSafeB r = true) :
    parseNum (intRepr n ++ r) = some (Json.int n, r) := by
  by_cases hneg : n < 0
  · rw [show intRepr n ++ r = '-' :: (natDigs n.natAbs ++ r) from by
      simp [intRepr, hneg]]
    rw [parseNum_dash, parseNumTail_digs n.natAbs r (numSafeB_digVal r hr)]
    show floatGuard (Json.int (-(n.natAbs : Int))) r = some (Json.int n, r)
    rw [show (-(n.natAbs : Int)) = n from by omega, floatGuard_safe _ _ hr]
  · rw [show intRepr n ++ r = natDigs n.natAbs ++ r from by simp [intRepr, hneg]]
    obtain ⟨c0, tail, v, he, hv, _⟩ := natDigs_head n.natAbs
    have hdash : ¬ c0 = '-' := by
      intro h
      rw [h, show digVal '-' = none from rfl] at hv
      exact Option.noConfusion hv
    rw [he, List.cons_append, parseNum_digit c0 _ hdash, ← List.cons_append, ← he]
    rw [parseNumTail_digs n.natAbs r (numSafeB_digVal r hr)]
    show floatGuard (Json.int (n.natAbs : Int)) r = some (Json.int n, r)
    rw [show ((n.natAbs : Int)) = n from by omega, floatGuard_safe _ _ hr]

/-! ### C9: json.loads inverts json.dumps — string literals -/

theorem char_eq_ofNat (c : Char) (n : Nat) (h : c.toNat = n) : c = Char.ofNat n := by
  rw [← h, Char.ofNat_toNat]

theorem char_valid (c : Char) :
    c.toNat < 55296 ∨ (57344 ≤ c.toNat ∧ c.toNat < 1114112) := by
  have hv := c.valid
  unfold UInt32.isValidChar Nat.isValidChar at hv
  exact hv

theorem hexVal_hexDigit (n : Nat) (h : n < 16) : hexVal (hexDigit n) = some n := by
  unfold hexVal hexDigit
  by_cases h10 : n < 10
  · rw [if_pos h10, toNat_ofNat_small (48 + n) (by omega)]
    rw [if_pos (by simp only [Bool.and_eq_true, decide_eq_true_eq]; omega)]
    simp
  · rw [if_neg h10, toNat_ofNat_small (87 + n) (by omega)]
    rw [if_neg (by simp only [Bool.and_eq_true, decide_eq_true_eq]; omega)]
    rw [if_pos (by simp only [Bool.and_eq_true, decide_eq_true_eq]; omega)]
    simp only [Option.some_inj]
    omega

theorem hex4Val_hex4 (n : Nat) (h : n < 65536) :
    hex4Val (hexDigit (n / 4096 % 16)) (hexDigit (n / 256 % 16))
      (hexDigit (n / 16 % 16)) (hexDigit (n % 16)) = some n := by
  unfold hex4Val
  rw [hexVal_hexDigit _ (Nat.mod_lt _ (by norm_num)),
    hexVal_hexDigit _ (Nat.mod_lt _ (by norm_num)),
    hexVal_hexDigit _ (Nat.mod_lt _ (by norm_num)),
    hexVal_hexDigit _ (Nat.mod_lt _ (by norm_num))]
  simp only [Option.some_inj]
  omega

theorem parseJStrGo_succ (f : Nat) (cs : List Char) :
    parseJStrGo (f + 1) cs =
      match parseJStrOne cs with
      | none => none
      | some (none, rest) => some ([], rest)
      | some (some c, rest) =>
        match parseJStrGo f rest with
        | some (s, r) => some (c :: s, r)
        | none => none := rfl

theorem parseJStrOne_quote (r : List Char) : parseJStrOne ('"' :: r) = some (none, r) := rfl

theorem parseJStrOne_esc_q (r : List Char) :
    parseJStrOne ('\\' :: '"' :: r) = some (some '"', r) := rfl

theorem parseJStrOne_esc_bs (r : List Char) :
    parseJStrOne ('\\' :: '\\' :: r) = some (some '\\', r) := rfl

theorem parseJStrOne_esc_b (r : List Char) :
    parseJStrOne ('\\' :: 'b' :: r) = some (some (Char.ofNat 8), r) := rfl

theorem parseJStrOne_esc_f (r : List Char) :
    parseJStrOne ('\\' :: 'f' :: r) = some (some (Char.ofNat 12), r) := rfl

theorem parseJStrOne_esc_n (r : List Char) :
    parseJStrOne ('\\' :: 'n' :: r) = some (some '\n', r) := rfl

theorem parseJStrOne_esc_r (r : List Char) :
    parseJStrOne ('\\' :: 'r' :: r) = some (some '\r', r) := rfl

theorem parseJStrOne_esc_t (r : List Char) :
    parseJStrOne ('\\' :: 't' :: r) = some (some '\t', r) := rfl

theorem parseJStrOne_plain (c : Char) (h1 : ¬ c = '"') (h2 : ¬ c = '\\')
    (h3 : ¬ c.toNat < 32) (r : List Char) :
    parseJStrOne (c :: r) = some (some c, r) := by
  show (if c = '"' then some (none, r)
        else if c = '\\' then _
        else if c.toNat < 32 then none
        else some (some c, r)) = _
  rw [if_neg h1, if_neg h2, if_neg h3]

theorem parseJStrOne_u (a b c2 d : Char) (v : Nat) (hv : hex4Val a b c2 d = some v)
    (hok : v < 55296 ∨ 57344 ≤ v) (r : List Char) :
    parseJStrOne ('\\' :: 'u' :: a :: b :: c2 :: d :: r) = some (some (Char.ofNat v), r) := by
  show (match hex4Val a b c2 d with
        | none => none
        | some w =>
          if w < 55296 || 57344 ≤ w then some (some (Char.ofNat w), r)
          else _) = _
  rw [hv]
  show (if v < 55296 || 57344 ≤ v then some (some (Char.ofNat v), r) else _) = _
  rw [if_pos (by simp only [Bool.or_eq_true, decide_eq_true_eq]; exact hok)]

theorem parseJStrOne_u_pair (a b c2 d a2 b2 c3 d2 : Char) (v w : Nat)
    (hv : hex4Val a b c2 d = some v) (hw : hex4Val a2 b2 c3 d2 = some w)
    (hv1 : 55296 ≤ v) (hv2 : v < 56320) (hw1 : 56320 ≤ w) (hw2 : w < 57344) (r : List Char) :
    parseJStrOne ('\\' :: 'u' :: a :: b :: c2 :: d :: '\\' :: 'u' :: a2 :: b2 :: c3 :: d2 :: r) =
      some (some (Char.ofNat (65536 + (v - 55296) * 1024 + (w - 56320))), r) := by
  show (match hex4Val a b c2 d with
        | none => none
        | some w0 =>
          if w0 < 55296 || 57344 ≤ w0 then _
          else if w0 < 56320 then
            match hex4Val a2 b2 c3 d2 with
            | none => none
            | some w2 =>
              if 56320 ≤ w2 && w2 < 57344 then
                some (some (Char.ofNat (65536 + (w0 - 55296) * 1024 + (w2 - 56320))), r)
              else none
          else none) = _
  rw [hv]
  show (if v < 55296 || 57344 ≤ v then _
        else if v < 56320 then
          match hex4Val a2 b2 c3 d2 with
          | none => none
          | some w2 =>
            if 56320 ≤ w2 && w2 < 57344 then
              some (some (Char.ofNat (65536 + (v - 55296) * 1024 + (w2 - 56320))), r)
            else none
          else none) = _
  rw [if_neg (by simp only [Bool.or_eq_true, decide_eq_true_eq]; omega)]
  rw [if_pos hv2]
  rw [hw]
  show (if 56320 ≤ w && w < 57344 then
          some (some (Char.ofNat (65536 + (v - 55296) * 1024 + (w - 56320))), r)
        else none) = _
  rw [if_pos (by simp only [Bool.and_eq_true, decide_eq_true_eq]; omega)]

theorem one_le_jsonEscChar_length (c : Char) : 1 ≤ (jsonEscChar c).length := by
  unfold jsonEscChar
  split_ifs <;> simp

theorem length_le_flatMap_esc : ∀ cs : List Char,
    cs.length ≤ (cs.flatMap jsonEscChar).length := by
  intro cs
  induction cs with
  | nil => simp
  | cons c t ih =>
    rw [List.flatMap_cons, List.length_append, List.length_cons]
    have := one_le_jsonEscChar_length c
    omega

theorem parseJStrGo_esc : ∀ (cs : List Char) (fuel : Nat) (r : List Char),
    cs.length < fuel →
    parseJStrGo fuel (cs.flatMap jsonEscChar ++ '"' :: r) = some (cs, r) := by
  intro cs
  induction cs with
  | nil =>
    intro fuel r hf
    obtain ⟨f, rfl⟩ : ∃ f, fuel = f + 1 := ⟨fuel - 1, by omega⟩
    rw [List.flatMap_nil, List.nil_append, parseJStrGo_succ, parseJStrOne_quote]
  | cons c t ih =>
    intro fuel r hf
    obtain ⟨f, rfl⟩ : ∃ f, fuel = f + 1 := ⟨fuel - 1, by omega⟩
    rw [List.flatMap_cons, List.append_assoc]
    have hrec : parseJStrGo f (t.flatMap jsonEscChar ++ '"' :: r) = some (t, r) :=
      ih f r (by simp only [List.length_cons] at hf; omega)
    rw [parseJStrGo_succ]
    by_cases hq : c = '"'
    · subst hq
      rw [show jsonEscChar '"' = ['\\', '"'] from rfl]
      simp only [List.cons_append, List.nil_append, parseJStrOne_esc_q, hrec]
    by_cases hbs : c = '\\'
    · subst hbs
      rw [show jsonEscChar '\\' = ['\\', '\\'] from rfl]
      simp only [List.cons_append, List.nil_append, parseJStrOne_esc_bs, hrec]
    by_cases h8 : c.toNat = 8
    · rw [show jsonEscChar c = ['\\', 'b'] from by
        unfold jsonEscChar; rw [if_neg hq, if_neg hbs, if_pos h8]]
      simp only [List.cons_append, List.nil_append, parseJStrOne_esc_b, hrec]
      rw [← char_eq_ofNat c 8 h8]
    by_cases ht : c = '\t'
    · subst ht
      rw [show jsonEscChar '\t' = ['\\', 't'] from rfl]
      simp only [List.cons_append, List.nil_append, parseJStrOne_esc_t, hrec]
    by_cases hn : c = '\n'
    · subst hn
      rw [show jsonEscChar '\n' = ['\\', 'n'] from rfl]
      simp only [List.cons_append, List.nil_append, parseJStrOne_esc_n, hrec]
    by_cases h12 : c.toNat = 12
    · rw [show jsonEscChar c = ['\\', 'f'] from by
        unfold jsonEscChar; rw [if_neg hq, if_neg hbs, if_neg h8, if_neg ?tt, if_neg ?nn,
          if_pos h12]
        case tt => exact ht
        case nn => exact hn]
      simp only [List.cons_append, List.nil_append, parseJStrOne_esc_f, hrec]
      rw [← char_eq_ofNat c 12 h12]
    by_cases hr : c = '\r'
    · subst hr
      rw [show jsonEscChar '\r' = ['\\', 'r'] from rfl]
      simp only [List.cons_append, List.nil_append, parseJStrOne_esc_r, hrec]
    by_cases hrange : c.toNat < 32 ∨ 127 ≤ c.toNat
    · -- \uXXXX (or a surrogate pair beyond the BMP)
      have hcond : (decide (c.toNat < 32) || decide (127 ≤ c.toNat)) = true := by
        simp only [Bool.or_eq_true, decide_eq_true_eq]; exact hrange
      by_cases hbmp : c.toNat < 65536
      · rw [show jsonEscChar c = '\\' :: 'u' :: hex4 c.toNat from by
          unfold jsonEscChar
          rw [if_neg hq, if_neg hbs, if_neg h8, if_neg ht, if_neg hn, if_neg h12, if_neg hr,
            if_pos hcond, if_pos hbmp]]
        rw [show ('\\' :: 'u' :: hex4 c.toNat) ++ (t.flatMap jsonEscChar ++ '"' :: r) =
          '\\' :: 'u' :: hexDigit (c.toNat / 4096 % 16) :: hexDigit (c.toNat / 256 % 16) ::
            hexDigit (c.toNat / 16 % 16) :: hexDigit (c.toNat % 16) ::
            (t.flatMap jsonEscChar ++ '"' :: r) from rfl]
        rw [parseJStrOne_u _ _ _ _ c.toNat (hex4Val_hex4 c.toNat hbmp)
          (by rcases char_valid c with h | h; exact Or.inl h; exact Or.inr (by omega)) _]
        simp only [hrec]
        rw [Char.ofNat_toNat]
      · rw [show jsonEscChar c = '\\' :: 'u' ::
            (hex4 (55296 + (c.toNat - 65536) / 1024) ++
              '\\' :: 'u' :: hex4 (56320 + (c.toNat - 65536) % 1024)) from by
          unfold jsonEscChar
          rw [if_neg hq, if_neg hbs, if_neg h8, if_neg ht, if_neg hn, if_neg h12, if_neg hr,
            if_pos hcond, if_neg hbmp]]
        have hlim : c.toNat < 1114112 := by
          rcases char_valid c with h | h
          · omega
          · exact h.2
        have hdiv : (c.toNat - 65536) / 1024 < 1024 := by omega
        rw [show ('\\' :: 'u' ::
            (hex4 (55296 + (c.toNat - 65536) / 1024) ++
              '\\' :: 'u' :: hex4 (56320 + (c.toNat - 65536) % 1024))) ++
            (t.flatMap jsonEscChar ++ '"' :: r) =
          '\\' :: 'u' :: hexDigit ((55296 + (c.toNat - 65536) / 1024) / 4096 % 16) ::
            hexDigit ((55296 + (c.toNat - 65536) / 1024) / 256 % 16) ::
            hexDigit ((55296 + (c.toNat - 65536) / 1024) / 16 % 16) ::
            hexDigit ((55296 + (c.toNat - 65536) / 1024) % 16) ::
            '\\' :: 'u' :: hexDigit ((56320 + (c.toNat - 65536) % 1024) / 4096 % 16) ::
            hexDigit ((56320 + (c.toNat - 65536) % 1024) / 256 % 16) ::
            hexDigit ((56320 + (c.toNat - 65536) % 1024) / 16 % 16) ::
            hexDigit ((56320 + (c.toNat - 65536) % 1024) % 16) ::
            (t.flatMap jsonEscChar ++ '"' :: r) from rfl]
        rw [parseJStrOne_u_pair _ _ _ _ _ _ _ _
          (55296 + (c.toNat - 65536) / 1024) (56320 + (c.toNat - 65536) % 1024)
          (hex4Val_hex4 _ (by omega)) (hex4Val_hex4 _ (by omega))
          (by omega) (by omega) (by omega)
          (by have := Nat.mod_lt (c.toNat - 65536) (show 0 < 1024 from by norm_num); omega) _]
        simp only [hrec]
        rw [show (65536 + (55296 + (c.toNat - 65536) / 1024 - 55296) * 1024 +
            (56320 + (c.toNat - 65536) % 1024 - 56320)) = c.toNat from by omega]
        rw [Char.ofNat_toNat]
    · -- plain printable ASCII character
      push_neg at hrange
      rw [show jsonEscChar c = [c] from by
        unfold jsonEscChar
        rw [if_neg hq, if_neg hbs, if_neg h8, if_neg ht, if_neg hn, if_neg h12, if_neg hr,
          if_neg (by simp only [Bool.or_eq_true, decide_eq_true_eq]; omega)]]
      rw [List.cons_append, List.nil_append]
      rw [parseJStrOne_plain c hq hbs (by omega) _]
      simp only [hrec]

theorem parseJStr_esc (cs r : List Char) :
    parseJStr (cs.flatMap jsonEscChar ++ '"' :: r) = some (cs, r) := by
  apply parseJStrGo_esc
  have h1 := length_le_flatMap_esc cs
  simp only [List.length_append, List.length_cons]
  omega

/-! ### C9: json.loads inverts json.dumps — stepping the value parser -/

theorem digit_toNat_bounds (c : Char) (v : Nat) (h : digVal c = some v) :
    48 ≤ c.toNat ∧ c.toNat ≤ 57 := by
  unfold digVal at h
  split_ifs at h with hc
  simp only [Bool.and_eq_true, decide_eq_true_eq] at hc
  exact hc

theorem parseF_val_null (g : Nat) (r : List Char) :
    (parseF (g + 1)).1 ('n' :: 'u' :: 'l' :: 'l' :: r) = some (Json.null, r) := rfl

theorem parseF_val_true (g : Nat) (r : List Char) :
    (parseF (g + 1)).1 ('t' :: 'r' :: 'u' :: 'e' :: r) = some (Json.bool true, r) := rfl

theorem parseF_val_false (g : Nat) (r : List Char) :
    (parseF (g + 1)).1 ('f' :: 'a' :: 'l' :: 's' :: 'e' :: r) = some (Json.bool false, r) := rfl

theorem parseF_val_str (g : Nat) (X : List Char) :
    (parseF (g + 1)).1 ('"' :: X) =
      match parseJStr X with
      | some (s, r1) => some (Json.str (String.mk s), r1)
      | none => none := rfl

theorem parseF_val_arr (g : Nat) (X : List Char) :
    (parseF (g + 1)).1 ('[' :: X) =
      match skipWs X with
      | c1 :: r2 =>
        if c1 = ']' then some (Json.arr JArr.nil, r2)
        else
          match (parseF g).2.1 (c1 :: r2) with
          | some (a, r3) => some (Json.arr a, r3)
          | none => none
      | [] => none := rfl

theorem parseF_val_obj (g : Nat) (X : List Char) :
    (parseF (g + 1)).1 (Char.ofNat 123 :: X) =
      match skipWs X with
      | c1 :: r2 =>
        if c1.toNat = 125 then some (Json.obj JObj.nil, r2)
        else
          match (parseF g).2.2 (c1 :: r2) with
          | some (o, r3) => some (Json.obj o, r3)
          | none => none
      | [] => none := rfl

theorem parseF_val_dash (g : Nat) (X : List Char) :
    (parseF (g + 1)).1 ('-' :: X) = parseNum ('-' :: X) := rfl

theorem parseF_arrTail (g : Nat) (cs : List Char) :
    (parseF (g + 1)).2.1 cs =
      match (parseF g).1 cs with
      | none => none
      | some (v, r1) =>
        match skipWs r1 with
        | c :: r3 =>
          if c = ',' then
            match (parseF g).2.1 (skipWs r3) with
            | some (a, r4) => some (JArr.cons v a, r4)
            | none => none
          else if c = ']' then some (JArr.cons v JArr.nil, r3)
          else none
        | [] => none := rfl

theorem parseF_objTail (g : Nat) (X : List Char) :
    (parseF (g + 1)).2.2 ('"' :: X) =
      match parseJStr X with
      | none => none
      | some (k, r1) =>
        match skipWs r1 with
        | c1 :: r2 =>
          if c1 = ':' then
            match (parseF g).1 (skipWs r2) with
            | none => none
            | some (v, r3) =>
              match skipWs r3 with
              | c2 :: r4 =>
                if c2 = ',' then
                  match (parseF g).2.2 (skipWs r4) with
                  | some (o, r5) => some (JObj.cons (String.mk k) v o, r5)
                  | none => none
                else if c2.toNat = 125 then some (JObj.cons (String.mk k) v JObj.nil, r4)
                else none
              | [] => none
          else none
        | [] => none := rfl

theorem parseF_val_other (g : Nat) (c0 : Char) (X : List Char)
    (h1 : ¬ c0.toNat = 123) (h2 : ¬ c0 = '[') (h3 : ¬ c0 = '"') (h4 : ¬ c0 = 't')
    (h5 : ¬ c0 = 'f') (h6 : ¬ c0 = 'n') :
    (parseF (g + 1)).1 (c0 :: X) = parseNum (c0 :: X) := by
  show (if c0.toNat = 123 then _
        else if c0 = '[' then _
        else if c0 = '"' then _
        else if c0 = 't' then _
        else if c0 = 'f' then _
        else if c0 = 'n' then _
        else parseNum (c0 :: X)) = _
  simp only [if_neg h1, if_neg h2, if_neg h3, if_neg h4, if_neg h5, if_neg h6]

theorem char_ne_of_digit (c : Char) (v : Nat) (h : digVal c = some v) (x : Char)
    (hx : x.toNat < 48 ∨ 57 < x.toNat) : ¬ c = x := by
  intro he
  obtain ⟨hb1, hb2⟩ := digit_toNat_bounds c v h
  rw [he] at hb1 hb2
  omega

theorem parseF_val_digit (g : Nat) (c0 : Char) (v : Nat) (hd : digVal c0 = some v)
    (X : List Char) : (parseF (g + 1)).1 (c0 :: X) = parseNum (c0 :: X) := by
  obtain ⟨hb1, hb2⟩ := digit_toNat_bounds c0 v hd
  refine parseF_val_other g c0 X (by omega) ?_ ?_ ?_ ?_ ?_
  · exact char_ne_of_digit c0 v hd '[' (by decide)
  · exact char_ne_of_digit c0 v hd '"' (by decide)
  · exact char_ne_of_digit c0 v hd 't' (by decide)
  · exact char_ne_of_digit c0 v hd 'f' (by decide)
  · exact char_ne_of_digit c0 v hd 'n' (by decide)

theorem skipWs_cons (c : Char) (l : List Char) (h1 : ¬ c = ' ') (h2 : ¬ c = '\t')
    (h3 : ¬ c = '\n') (h4 : ¬ c = '\r') : skipWs (c :: l) = c :: l := by
  rw [skipWs, List.dropWhile_cons, if_neg]
  simp only [Bool.or_eq_true, decide_eq_true_eq, not_or]
  tauto

theorem skipWs_space (l : List Char) : skipWs (' ' :: l) = skipWs l := rfl

/-- Every serialized value starts with a character that is not whitespace and
not a closing bracket. -/
theorem dumpsV_shape (d : Json) : ∃ c0 tl, dumpsV d = c0 :: tl ∧
    ¬ c0 = ' ' ∧ ¬ c0 = '\t' ∧ ¬ c0 = '\n' ∧ ¬ c0 = '\r' ∧ ¬ c0 = ']' := by
  cases d with
  | null => exact ⟨'n', _, rfl, by decide, by decide, by decide, by decide, by decide⟩
  | bool b =>
    cases b with
    | true =>
      exact ⟨'t', ['r', 'u', 'e'], by simp [dumpsV], by decide, by decide, by decide, by decide,
        by decide⟩
    | false =>
      exact ⟨'f', ['a', 'l', 's', 'e'], by simp [dumpsV], by decide, by decide, by decide,
        by decide, by decide⟩
  | int n =>
    by_cases hneg : n < 0
    · refine ⟨'-', natDigs n.natAbs, ?_, by decide, by decide, by decide, by decide, by decide⟩
      simp [dumpsV, intRepr, hneg]
    · obtain ⟨c0, tail, v, he, hv, _⟩ := natDigs_head n.natAbs
      refine ⟨c0, tail, ?_, ?_, ?_, ?_, ?_, ?_⟩
      · simp [dumpsV, intRepr, hneg, he]
      · exact char_ne_of_digit c0 v hv ' ' (by decide)
      · exact char_ne_of_digit c0 v hv '\t' (by decide)
      · exact char_ne_of_digit c0 v hv '\n' (by decide)
      · exact char_ne_of_digit c0 v hv '\r' (by decide)
      · exact char_ne_of_digit c0 v hv ']' (by decide)
  | str s => exact ⟨'"', _, rfl, by decide, by decide, by decide, by decide, by decide⟩
  | arr a => exact ⟨'[', _, rfl, by decide, by decide, by decide, by decide, by decide⟩
  | obj o =>
    exact ⟨Char.ofNat 123, _, rfl, by decide, by decide, by decide, by decide, by decide⟩

theorem dumpsA_cons_shape (h1 : Json) (t1 : JArr) :
    ∃ Y, dumpsA (.cons h1 t1) = dumpsV h1 ++ Y := by
  cases t1 with
  | nil => exact ⟨[], by rw [dumpsA, List.append_nil]⟩
  | cons h2 t2 => exact ⟨',' :: ' ' :: dumpsA (.cons h2 t2), by rw [dumpsA]⟩

theorem skipWs_dumpsV_append (d : Json) (X : List Char) :
    skipWs (dumpsV d ++ X) = dumpsV d ++ X := by
  obtain ⟨c0, tl, he, hsp, hht, hhn, hhr, _⟩ := dumpsV_shape d
  rw [he, List.cons_append, skipWs_cons c0 _ hsp hht hhn hhr]

theorem string_mk_toList (s : String) : String.mk s.toList = s := by
  cases s
  rfl

theorem skipWs_colon (l : List Char) : skipWs (':' :: l) = ':' :: l := rfl

theorem skipWs_comma (l : List Char) : skipWs (',' :: l) = ',' :: l := rfl

theorem skipWs_rbrack (l : List Char) : skipWs (']' :: l) = ']' :: l := rfl

theorem skipWs_rbrace (l : List Char) : skipWs (Char.ofNat 125 :: l) = Char.ofNat 125 :: l := rfl

theorem skipWs_quote (l : List Char) : skipWs ('"' :: l) = '"' :: l := rfl

theorem dumpsO_cons_shape (k : String) (v : Json) (t : JObj) :
    ∃ Z, dumpsO (.cons k v t) = '"' :: Z := by
  cases t with
  | nil => exact ⟨_, by rw [dumpsO]⟩
  | cons k2 v2 t2 => exact ⟨_, by rw [dumpsO, List.cons_append]⟩

mutual

theorem parseV_dumps : (d : Json) → ∀ (fuel : Nat) (r : List Char), sizeV d < fuel →
    numSafeB r = true → (parseF fuel).1 (dumpsV d ++ r) = some (d, r)
  | .null => by
    intro fuel r hf _
    obtain ⟨g, rfl⟩ : ∃ g, fuel = g + 1 := ⟨fuel - 1, by omega⟩
    exact parseF_val_null g r
  | .bool true => by
    intro fuel r hf _
    obtain ⟨g, rfl⟩ : ∃ g, fuel = g + 1 := ⟨fuel - 1, by omega⟩
    exact parseF_val_true g r
  | .bool false => by
    intro fuel r hf _
    obtain ⟨g, rfl⟩ : ∃ g, fuel = g + 1 := ⟨fuel - 1, by omega⟩
    exact parseF_val_false g r
  | .int n => by
    intro fuel r hf hsafe
    obtain ⟨g, rfl⟩ : ∃ g, fuel = g + 1 := ⟨fuel - 1, by omega⟩
    rw [show dumpsV (Json.int n) = intRepr n from rfl]
    by_cases hneg : n < 0
    · have hsh : intRepr n ++ r = '-' :: (natDigs n.natAbs ++ r) := by
        simp [intRepr, hneg]
      rw [hsh, parseF_val_dash, ← hsh]
      exact parseNum_intRepr n r hsafe
    · obtain ⟨c0, tail, v, he, hv, _⟩ := natDigs_head n.natAbs
      have hsh : intRepr n ++ r = c0 :: (tail ++ r) := by
        simp [intRepr, hneg, he]
      rw [hsh, parseF_val_digit g c0 v hv, ← hsh]
      exact parseNum_intRepr n r hsafe
  | .str s => by
    intro fuel r hf _
    obtain ⟨g, rfl⟩ : ∃ g, fuel = g + 1 := ⟨fuel - 1, by omega⟩
    rw [show dumpsV (Json.str s) ++ r =
      '"' :: (s.toList.flatMap jsonEscChar ++ '"' :: r) from by simp [dumpsV]]
    rw [parseF_val_str]
    simp only [parseJStr_esc, string_mk_toList]
  | .arr a => by
    intro fuel r hf _
    obtain ⟨g, rfl⟩ : ∃ g, fuel = g + 1 := ⟨fuel - 1, by omega⟩
    rw [show dumpsV (Json.arr a) ++ r = '[' :: (dumpsA a ++ ']' :: r) from by simp [dumpsV]]
    rw [parseF_val_arr]
    cases a with
    | nil =>
      rw [show dumpsA JArr.nil ++ ']' :: r = ']' :: r from rfl, skipWs_rbrack]
      simp
    | cons h1 t1 =>
      obtain ⟨Y, hY⟩ := dumpsA_cons_shape h1 t1
      obtain ⟨c0, tl, he, hsp, hht, hhn, hhr, hne⟩ := dumpsV_shape h1
      have hshape : dumpsA (JArr.cons h1 t1) ++ ']' :: r = c0 :: (tl ++ (Y ++ ']' :: r)) := by
        rw [hY, he]
        simp [List.append_assoc]
      rw [hshape, skipWs_cons c0 _ hsp hht hhn hhr]
      have hA := parseA_dumps (JArr.cons h1 t1) (by intro hcon; exact JArr.noConfusion hcon)
        g r (by simp only [sizeV] at hf; omega)
      rw [hshape] at hA
      simp only [if_neg hne, hA]
  | .obj o => by
    intro fuel r hf _
    obtain ⟨g, rfl⟩ : ∃ g, fuel = g + 1 := ⟨fuel - 1, by omega⟩
    rw [show dumpsV (Json.obj o) ++ r =
      Char.ofNat 123 :: (dumpsO o ++ Char.ofNat 125 :: r) from by simp [dumpsV]]
    rw [parseF_val_obj]
    cases o with
    | nil =>
      rw [show dumpsO JObj.nil ++ Char.ofNat 125 :: r = Char.ofNat 125 :: r from rfl,
        skipWs_rbrace]
      simp
    | cons k v t =>
      obtain ⟨Z, hZ⟩ := dumpsO_cons_shape k v t
      have hshape : dumpsO (JObj.cons k v t) ++ Char.ofNat 125 :: r =
          '"' :: (Z ++ Char.ofNat 125 :: r) := by
        rw [hZ]
        simp [List.append_assoc]
      rw [hshape, skipWs_quote]
      have hO := parseO_dumps (JObj.cons k v t) (by intro hcon; exact JObj.noConfusion hcon)
        g r (by simp only [sizeV] at hf; omega)
      rw [hshape] at hO
      simp only [hO]
      simp

theorem parseA_dumps : (a : JArr) → a ≠ .nil → ∀ (f : Nat) (r : List Char), sizeA a < f →
    (parseF f).2.1 (dumpsA a ++ ']' :: r) = some (a, r)
  | .nil => by intro h; exact absurd rfl h
  | .cons h1 t1 => by
    intro _ f r hf
    obtain ⟨g, rfl⟩ : ∃ g, f = g + 1 := ⟨f - 1, by omega⟩
    rw [parseF_arrTail]
    cases t1 with
    | nil =>
      rw [show dumpsA (JArr.cons h1 JArr.nil) ++ ']' :: r = dumpsV h1 ++ ']' :: r from by
        rw [dumpsA]]
      simp only [parseV_dumps h1 g (']' :: r)
        (by simp only [sizeA] at hf; omega) rfl]
      rw [skipWs_rbrack]
      simp
    | cons h2 t2 =>
      rw [show dumpsA (JArr.cons h1 (JArr.cons h2 t2)) ++ ']' :: r =
          dumpsV h1 ++ (',' :: ' ' :: (dumpsA (JArr.cons h2 t2) ++ ']' :: r)) from by
        rw [dumpsA]
        simp [List.append_assoc]]
      simp only [parseV_dumps h1 g (',' :: ' ' :: (dumpsA (JArr.cons h2 t2) ++ ']' :: r))
        (by simp only [sizeA] at hf; omega) rfl]
      rw [skipWs_comma]
      obtain ⟨Y, hY⟩ := dumpsA_cons_shape h2 t2
      have hsw : skipWs (dumpsA (JArr.cons h2 t2) ++ ']' :: r) =
          dumpsA (JArr.cons h2 t2) ++ ']' :: r := by
        rw [hY, List.append_assoc, skipWs_dumpsV_append, ← List.append_assoc]
      have hrest : skipWs (' ' :: (dumpsA (JArr.cons h2 t2) ++ ']' :: r)) =
          dumpsA (JArr.cons h2 t2) ++ ']' :: r := by
        rw [skipWs_space, hsw]
      simp only [hrest]
      simp only [parseA_dumps (JArr.cons h2 t2) (by intro hcon; exact JArr.noConfusion hcon)
        g r (by simp only [sizeA] at hf ⊢; omega)]
      simp

theorem parseO_dumps : (o : JObj) → o ≠ .nil → ∀ (f : Nat) (r : List Char), sizeO o < f →
    (parseF f).2.2 (dumpsO o ++ Char.ofNat 125 :: r) = some (o, r)
  | .nil => by intro h; exact absurd rfl h
  | .cons k v t => by
    intro _ f r hf
    obtain ⟨g, rfl⟩ : ∃ g, f = g + 1 := ⟨f - 1, by omega⟩
    cases t with
    | nil =>
      rw [show dumpsO (JObj.cons k v JObj.nil) ++ Char.ofNat 125 :: r =
          '"' :: (k.toList.flatMap jsonEscChar ++ '"' ::
            (':' :: ' ' :: (dumpsV v ++ Char.ofNat 125 :: r))) from by
        rw [dumpsO]
        simp [List.append_assoc]]
      rw [parseF_objTail]
      simp only [parseJStr_esc, skipWs_colon]
      simp only [if_true]
      rw [skipWs_space, skipWs_dumpsV_append]
      simp only [parseV_dumps v g (Char.ofNat 125 :: r)
        (by simp only [sizeO] at hf; omega) rfl]
      rw [skipWs_rbrace]
      simp [string_mk_toList]
    | cons k2 v2 t2 =>
      rw [show dumpsO (JObj.cons k v (JObj.cons k2 v2 t2)) ++ Char.ofNat 125 :: r =
          '"' :: (k.toList.flatMap jsonEscChar ++ '"' ::
            (':' :: ' ' :: (dumpsV v ++
              (',' :: ' ' :: (dumpsO (JObj.cons k2 v2 t2) ++ Char.ofNat 125 :: r))))) from by
        rw [dumpsO]
        simp [List.append_assoc]]
      rw [parseF_objTail]
      simp only [parseJStr_esc, skipWs_colon]
      simp only [if_true]
      rw [skipWs_space, skipWs_dumpsV_append]
      simp only [parseV_dumps v g
        (',' :: ' ' :: (dumpsO (JObj.cons k2 v2 t2) ++ Char.ofNat 125 :: r))
        (by simp only [sizeO] at hf; omega) rfl]
      rw [skipWs_comma]
      obtain ⟨Z, hZ⟩ := dumpsO_cons_shape k2 v2 t2
      have hsw : skipWs (dumpsO (JObj.cons k2 v2 t2) ++ Char.ofNat 125 :: r) =
          dumpsO (JObj.cons k2 v2 t2) ++ Char.ofNat 125 :: r := by
        rw [hZ, List.cons_append, skipWs_quote]
      have hrest : skipWs (' ' :: (dumpsO (JObj.cons k2 v2 t2) ++ Char.ofNat 125 :: r)) =
          dumpsO (JObj.cons k2 v2 t2) ++ Char.ofNat 125 :: r := by
        rw [skipWs_space, hsw]
      simp only [hrest]
      simp only [parseO_dumps (JObj.cons k2 v2 t2)
        (by intro hcon; exact JObj.noConfusion hcon) g r
        (by simp only [sizeO] at hf ⊢; omega)]
      simp [string_mk_toList]

end

theorem one_le_intRepr_length (n : Int) : 1 ≤ (intRepr n).length := by
  obtain ⟨c0, tail, v, he, _, _⟩ := natDigs_head n.natAbs
  unfold intRepr
  rw [he]
  simp only [List.length_append, List.length_cons]
  omega

mutual

theorem sizeV_le_dumps : (d : Json) → sizeV d ≤ (dumpsV d).length
  | .null => by simp [sizeV, dumpsV]
  | .bool b => by cases b <;> simp [sizeV, dumpsV]
  | .int n => by
    rw [sizeV, dumpsV]
    exact one_le_intRepr_length n
  | .str s => by simp [sizeV, dumpsV]
  | .arr a => by
    have h := sizeA_le_dumps a
    rw [sizeV, dumpsV]
    simp only [List.length_cons, List.length_append, List.length_singleton]
    omega
  | .obj o => by
    have h := sizeO_le_dumps o
    rw [sizeV, dumpsV]
    simp only [List.length_cons, List.length_append, List.length_singleton]
    omega

theorem sizeA_le_dumps : (a : JArr) → sizeA a ≤ (dumpsA a).length + 1
  | .nil => by simp [sizeA]
  | .cons h .nil => by
    have h1 := sizeV_le_dumps h
    rw [sizeA, sizeA, dumpsA]
    omega
  | .cons h (.cons h2 t) => by
    have h1 := sizeV_le_dumps h
    have h2t := sizeA_le_dumps (.cons h2 t)
    rw [sizeA, dumpsA]
    simp only [List.length_append, List.length_cons]
    omega

theorem sizeO_le_dumps : (o : JObj) → sizeO o ≤ (dumpsO o).length + 1
  | .nil => by simp [sizeO]
  | .cons k v .nil => by
    have h1 := sizeV_le_dumps v
    rw [sizeO, sizeO, dumpsO]
    simp only [List.length_cons, List.length_append]
    omega
  | .cons k v (.cons k2 v2 t) => by
    have h1 := sizeV_le_dumps v
    have h2t := sizeO_le_dumps (.cons k2 v2 t)
    rw [sizeO, dumpsO]
    simp only [List.length_cons, List.length_append]
    omega

end

theorem jsonLoads_dumps (d : Json) : jsonLoads (String.mk (dumpsV d)) = some d := by
  unfold jsonLoads
  rw [show (String.mk (dumpsV d)).toList = dumpsV d from rfl]
  have hsw : skipWs (dumpsV d) = dumpsV d := by
    have h := skipWs_dumpsV_append d []
    simpa using h
  rw [hsw]
  have hlen : sizeV d < (dumpsV d).length + 1 := by
    have := sizeV_le_dumps d
    omega
  have hp := parseV_dumps d ((dumpsV d).length + 1) [] hlen rfl
  rw [show dumpsV d ++ ([] : List Char) = dumpsV d from by simp] at hp
  show (match (parseF ((dumpsV d).length + 1)).1 (dumpsV d) with
        | some (v, rest) => if (skipWs rest).isEmpty = true then some v else none
        | none => none) = some d
  rw [hp]
  rfl


theorem padded_eq (l : List Char) :
    (if 4 - l.length % 4 ≠ 4 then l ++ List.replicate (4 - l.length % 4) '=' else l) =
      l ++ List.replicate ((4 - l.length % 4) % 4) '=' := by
  by_cases h0 : l.length % 4 = 0
  · rw [h0, if_neg (by norm_num)]
    simp
  · have hlt : l.length % 4 < 4 := Nat.mod_lt _ (by norm_num)
    rw [if_pos (by omega)]
    have h2 : (4 - l.length % 4) % 4 = 4 - l.length % 4 := Nat.mod_eq_of_lt (by omega)
    rw [h2]

/-- C9: round-trip with the spec's external encoder.  For every
JSON-representable State Document (modelled as a tree of objects with
distinct keys, arrays, strings, integers, booleans and null), decoding the
token formed by prefixing v1: to the unpadded URL-safe base64 encoding of a
raw-DEFLATE compression (stored blocks, modelled from the spec) of the
document's UTF-8 JSON serialization returns exactly the original structure:
unknown extra fields come back verbatim and no schema validation is
applied. -/
theorem c9_roundtrip (d : Json) (_hwf : jsonWf d = true) :
    decode_fractalwonder_url (encodeToken d) = Except.ok d := by
  have hascii : ∀ c ∈ dumpsV d, c.toNat < 128 := dumpsV_ascii d
  have henc256 : ∀ x ∈ utf8Encode (dumpsV d), x < 256 :=
    utf8Encode_lt256 (dumpsV d) hascii
  have hb256 : ∀ x ∈ deflateStored (utf8Encode (dumpsV d)), x < 256 :=
    dsGo_lt256 _ _ henc256
  have ht : (String.mk ('v' :: '1' :: ':' ::
      b64urlEncodeNoPad (deflateStored (utf8Encode (dumpsV d))))).toList =
      'v' :: '1' :: ':' :: b64urlEncodeNoPad (deflateStored (utf8Encode (dumpsV d))) := rfl
  have hh1 : listStartsWith ('v' :: '1' :: ':' ::
      b64urlEncodeNoPad (deflateStored (utf8Encode (dumpsV d)))) "http://".toList = false := rfl
  have hh2 : listStartsWith ('v' :: '1' :: ':' ::
      b64urlEncodeNoPad (deflateStored (utf8Encode (dumpsV d)))) "https://".toList = false := rfl
  have hv1 : listStartsWith ('v' :: '1' :: ':' ::
      b64urlEncodeNoPad (deflateStored (utf8Encode (dumpsV d)))) "v1:".toList = true := rfl
  have hdrop : ('v' :: '1' :: ':' ::
      b64urlEncodeNoPad (deflateStored (utf8Encode (dumpsV d)))).drop 3 =
      b64urlEncodeNoPad (deflateStored (utf8Encode (dumpsV d))) := rfl
  simp only [decode_fractalwonder_url, encodeToken, ht, hh1, hh2, hv1, hdrop, Bool.or_false,
    Bool.not_true, Bool.false_eq_true, if_false]
  rw [padded_eq]
  rw [urlsafeB64decode_enc (deflateStored (utf8Encode (dumpsV d))) hb256]
  show (match inflateRaw (deflateStored (utf8Encode (dumpsV d))) with
        | none => Except.error DecodeError.decompression
        | some data =>
          match utf8Decode data with
          | none => Except.error DecodeError.parse
          | some text =>
            match jsonLoads (String.mk text) with
            | none => Except.error DecodeError.parse
            | some j => Except.ok j) = Except.ok d
  rw [inflateRaw_deflateStored (utf8Encode (dumpsV d)) henc256]
  show (match utf8Decode (utf8Encode (dumpsV d)) with
        | none => Except.error DecodeError.parse
        | some text =>
          match jsonLoads (String.mk text) with
          | none => Except.error DecodeError.parse
          | some j => Except.ok j) = Except.ok d
  rw [utf8Decode_encode_ascii (dumpsV d) hascii]
  show (match jsonLoads (String.mk (dumpsV d)) with
        | none => Except.error DecodeError.parse
        | some j => Except.ok j) = Except.ok d
  rw [jsonLoads_dumps d]

/-- C9 witness: a document with an unknown extra field survives the
round-trip. -/
theorem c9_roundtrip_witness :
    jsonWf (Json.obj (JObj.cons "unknown_extra" (Json.str "kept") JObj.nil)) = true ∧
    decode_fractalwonder_url (encodeToken (Json.obj (JObj.cons "unknown_extra"
      (Json.str "kept") JObj.nil))) =
      Except.ok (Json.obj (JObj.cons "unknown_extra" (Json.str "kept") JObj.nil)) :=
  ⟨by decide, c9_roundtrip (Json.obj (JObj.cons "unknown_extra" (Json.str "kept") JObj.nil))
    (by decide)⟩
